import Mathlib

/-!
# Flag cloth simulation (src/src/Base/Flag.cpp): embedding and verified properties

Modelling decisions, each visible in the definitions below.

* Scalars. The C++ code computes in `float`. The embedding is generic in a field `K`
  (exact arithmetic), so every definition runs on `ℚ`; the square root used by
  `Vec3::length` is passed in as a function `sqrt : K → K`. Theorems that depend on
  what the square root is are stated on `ℝ` with `Real.sqrt`.
* Pointers. A `Particle*` always points into the vector `Flag::particles`; it is
  modelled by the index of the pointee in that vector. `deref` reads through such a
  pointer and `update` writes through it.
* Loops. A nested loop `for x in 0..a, for y in 0..b` is a left fold over
  `gridLoop a b`, the list of pairs `(x, y)` in the order the loops visit them.
* Integers. The `int` grid sizes and loop counters are natural numbers; the loop
  bounds `n - 1` and `n - 2` use truncated subtraction, which agrees with the `int`
  comparison `x < n - 1` for every `x ≥ 0`. Products `columns * rows` are assumed to
  fit the machine `int`.
* OpenGL calls in `Flag::render` do not touch the simulation state; the state at the
  moment the vertex buffer is handed to OpenGL is `Flag.renderBuild`.
-/

set_option autoImplicit false

namespace FlagSim

/-! ## Physics constants -/

/-- DAMPING is `#define DAMPING 0.01`. -/
def DAMPING {K : Type} [Field K] : K := 1 / 100

/-- TIME_STEPSIZE2 is `#define TIME_STEPSIZE2 1`. -/
def TIME_STEPSIZE2 {K : Type} [Field K] : K := 1

/-- CONSTRAINT_ITERATIONS is `#define CONSTRAINT_ITERATIONS 15`. -/
def CONSTRAINT_ITERATIONS : Nat := 15

/-- MASS is `#define MASS 1`. -/
def MASS {K : Type} [Field K] : K := 1

/-! ## Vec3 -/

/-- Vec3 holds the three components `f[0]`, `f[1]`, `f[2]`. -/
structure Vec3 (K : Type) where
  f0 : K
  f1 : K
  f2 : K
deriving DecidableEq, Repr

namespace Vec3

variable {K : Type} [Field K]

/-- The vector `Vec3(0,0,0)`. -/
def zero : Vec3 K := ⟨0, 0, 0⟩

/-- Vec3::length, with the square root function as a parameter. -/
def length (sqrt : K → K) (v : Vec3 K) : K :=
  sqrt (v.f0 * v.f0 + v.f1 * v.f1 + v.f2 * v.f2)

/-- Vec3::normalized. -/
def normalized (sqrt : K → K) (v : Vec3 K) : Vec3 K :=
  let l := v.length sqrt
  ⟨v.f0 / l, v.f1 / l, v.f2 / l⟩

/-- Vec3::operator+ (also the value stored by `operator+=`). -/
def add (u v : Vec3 K) : Vec3 K := ⟨u.f0 + v.f0, u.f1 + v.f1, u.f2 + v.f2⟩

/-- Vec3::operator/ by a scalar. -/
def div (u : Vec3 K) (a : K) : Vec3 K := ⟨u.f0 / a, u.f1 / a, u.f2 / a⟩

/-- Vec3::operator- (binary). -/
def sub (u v : Vec3 K) : Vec3 K := ⟨u.f0 - v.f0, u.f1 - v.f1, u.f2 - v.f2⟩

/-- Vec3::operator* by a scalar. -/
def mul (u : Vec3 K) (a : K) : Vec3 K := ⟨u.f0 * a, u.f1 * a, u.f2 * a⟩

/-- Vec3::operator- (unary). -/
def neg (u : Vec3 K) : Vec3 K := ⟨-u.f0, -u.f1, -u.f2⟩

/-- Vec3::cross. -/
def cross (u v : Vec3 K) : Vec3 K :=
  ⟨u.f1 * v.f2 - u.f2 * v.f1, u.f2 * v.f0 - u.f0 * v.f2, u.f0 * v.f1 - u.f1 * v.f0⟩

/-- Vec3::dot. -/
def dot (u v : Vec3 K) : K := u.f0 * v.f0 + u.f1 * v.f1 + u.f2 * v.f2

end Vec3

/-! ## Particle -/

/-- Particle, with the fields of the C++ class. -/
structure Particle (K : Type) where
  movable : Bool
  mass : K
  old_pos : Vec3 K
  acceleration : Vec3 K
  accumulated_normal : Vec3 K
  pos : Vec3 K
deriving DecidableEq, Repr

namespace Particle

variable {K : Type} [Field K]

/-- Particle::Particle(Vec3 pos, float mass): the `mass` argument is ignored, the
field is initialised from the constant `MASS`. -/
def new (pos : Vec3 K) (_mass : K) : Particle K :=
  { pos := pos, old_pos := pos, acceleration := Vec3.zero, mass := MASS, movable := true,
    accumulated_normal := Vec3.zero }

/-- Particle::addForce. -/
def addForce (p : Particle K) (f : Vec3 K) : Particle K :=
  { p with acceleration := p.acceleration.add (f.div p.mass) }

/-- Particle::timeStep. -/
def timeStep (p : Particle K) : Particle K :=
  if p.movable then
    let temp := p.pos
    { p with
      pos := (p.pos.add ((p.pos.sub p.old_pos).mul (1 - DAMPING))).add
               (p.acceleration.mul TIME_STEPSIZE2)
      old_pos := temp
      acceleration := Vec3.zero }
  else p

/-- Particle::resetAcceleration. -/
def resetAcceleration (p : Particle K) : Particle K := { p with acceleration := Vec3.zero }

/-- Particle::offsetPos. -/
def offsetPos (p : Particle K) (v : Vec3 K) : Particle K :=
  if p.movable then { p with pos := p.pos.add v } else p

/-- Particle::makeUnmovable. -/
def makeUnmovable (p : Particle K) : Particle K := { p with movable := false }

/-- Particle::addToNormal. -/
def addToNormal (sqrt : K → K) (p : Particle K) (normal : Vec3 K) : Particle K :=
  { p with accumulated_normal := p.accumulated_normal.add (normal.normalized sqrt) }

/-- Particle::resetNormal. -/
def resetNormal (p : Particle K) : Particle K := { p with accumulated_normal := Vec3.zero }

end Particle

/-- The value read through an index that is outside the particle vector; the C++
default constructor `Particle(){}` leaves every field unspecified, zeros stand for them. -/
instance Particle.instInhabited {K : Type} [Field K] : Inhabited (Particle K) :=
  ⟨{ movable := false, mass := 0, old_pos := Vec3.zero, acceleration := Vec3.zero,
     accumulated_normal := Vec3.zero, pos := Vec3.zero }⟩

/-! ## The particle vector and pointers into it -/

/-- Read the particle a `Particle*` (an index into the vector) points to. -/
def deref {K : Type} [Field K] (ps : List (Particle K)) (i : Nat) : Particle K :=
  ps.getD i default

/-- Apply a mutating member function to the particle a `Particle*` points to. -/
def update {K : Type} [Field K] (ps : List (Particle K)) (i : Nat)
    (g : Particle K → Particle K) : List (Particle K) :=
  match ps[i]? with
  | some p => ps.set i (g p)
  | none => ps

/-- The pairs visited by `for x in 0..a` (outer) and `for y in 0..b` (inner), in order. -/
def gridLoop (a b : Nat) : List (Nat × Nat) :=
  List.product (List.range a) (List.range b)

/-- Flag::getParticle: the index `y*num_particles_width + x` whose address is returned. -/
def getParticle (num_particles_width : Nat) (x y : Nat) : Nat :=
  y * num_particles_width + x

/-! ## Constraint -/

/-- Constraint: the two particle pointers and the rest distance. -/
structure Constraint (K : Type) where
  rest_distance : K
  p1 : Nat
  p2 : Nat
deriving DecidableEq, Repr

namespace Constraint

variable {K : Type} [Field K]

/-- Constraint::Constraint(Particle *p1, Particle *p2). -/
def new (sqrt : K → K) (ps : List (Particle K)) (p1 p2 : Nat) : Constraint K :=
  let vec := (deref ps p1).pos.sub (deref ps p2).pos
  { p1 := p1, p2 := p2, rest_distance := vec.length sqrt }

/-- Constraint::satisfyConstraint, acting on the particle vector the pointers point into. -/
def satisfyConstraint (sqrt : K → K) (c : Constraint K) (ps : List (Particle K)) :
    List (Particle K) :=
  let p1_to_p2 := (deref ps c.p2).pos.sub (deref ps c.p1).pos
  let current_distance := p1_to_p2.length sqrt
  let correctionVector := p1_to_p2.mul (1 - c.rest_distance / current_distance)
  let correctionVectorHalf := correctionVector.mul (1 / 2)
  let ps := update ps c.p1 (fun p => p.offsetPos correctionVectorHalf)
  update ps c.p2 (fun p => p.offsetPos correctionVectorHalf.neg)

end Constraint

/-! ## Flag -/

/-- Flag: grid sizes, the particle vector, the constraint vector and the vertex buffer. -/
structure Flag (K : Type) where
  num_particles_width : Nat
  num_particles_height : Nat
  particles : List (Particle K)
  constraints : List (Constraint K)
  flag_vertices : List K

namespace Flag

variable {K : Type} [Field K]

/-- Flag::makeConstraint: `constraints.push_back(Constraint(p1,p2))`. -/
def makeConstraint (sqrt : K → K) (ps : List (Particle K)) (constraints : List (Constraint K))
    (p1 p2 : Nat) : List (Constraint K) :=
  constraints ++ [Constraint.new sqrt ps p1 p2]

/-- Flag::calcTriangleNormal. -/
def calcTriangleNormal (ps : List (Particle K)) (p1 p2 p3 : Nat) : Vec3 K :=
  let pos1 := (deref ps p1).pos
  let pos2 := (deref ps p2).pos
  let pos3 := (deref ps p3).pos
  let v1 := pos2.sub pos1
  let v2 := pos3.sub pos1
  v1.cross v2

/-- Flag::AddTriangle: eighteen `push_back` calls on the vertex buffer. -/
def AddTriangle (sqrt : K → K) (ps : List (Particle K)) (flag_vertices : List K)
    (p1 p2 p3 : Nat) : List K :=
  flag_vertices ++
    [(deref ps p1).pos.f0, (deref ps p1).pos.f1, (deref ps p1).pos.f2,
     ((deref ps p1).accumulated_normal.normalized sqrt).f0,
     ((deref ps p1).accumulated_normal.normalized sqrt).f1,
     ((deref ps p1).accumulated_normal.normalized sqrt).f2,
     (deref ps p2).pos.f0, (deref ps p2).pos.f1, (deref ps p2).pos.f2,
     ((deref ps p2).accumulated_normal.normalized sqrt).f0,
     ((deref ps p2).accumulated_normal.normalized sqrt).f1,
     ((deref ps p2).accumulated_normal.normalized sqrt).f2,
     (deref ps p3).pos.f0, (deref ps p3).pos.f1, (deref ps p3).pos.f2,
     ((deref ps p3).accumulated_normal.normalized sqrt).f0,
     ((deref ps p3).accumulated_normal.normalized sqrt).f1,
     ((deref ps p3).accumulated_normal.normalized sqrt).f2]

/-- The rest position the constructor computes for grid coordinate `(x, y)`. -/
def restPos (width height : K) (w h : Nat) (x y : Nat) : Vec3 K :=
  ⟨width * ((x : K) / (w : K)), height * ((y : K) / (h : K)), 0⟩

/-- Constructor, particle placement: `particles.resize(w*h)` followed by the nested
loop that stores `Particle(pos, 0.0001)` at index `y*w + x`. -/
def placeParticles (width height : K) (w h : Nat) : List (Particle K) :=
  (gridLoop w h).foldl
    (fun ps xy => ps.set (xy.2 * w + xy.1) (Particle.new (restPos width height w h xy.1 xy.2) (1 / 10000)))
    (List.replicate (w * h) default)

/-- Constructor, first constraint loop body (immediate neighbours) for one `(x, y)`. -/
def connectImmediate (sqrt : K → K) (ps : List (Particle K)) (w h : Nat)
    (cs : List (Constraint K)) (xy : Nat × Nat) : List (Constraint K) :=
  let x := xy.1
  let y := xy.2
  let cs := if x < w - 1 then
    makeConstraint sqrt ps cs (getParticle w x y) (getParticle w (x + 1) y) else cs
  let cs := if y < h - 1 then
    makeConstraint sqrt ps cs (getParticle w x y) (getParticle w x (y + 1)) else cs
  let cs := if x < w - 1 ∧ y < h - 1 then
    makeConstraint sqrt ps cs (getParticle w x y) (getParticle w (x + 1) (y + 1)) else cs
  if x < w - 1 ∧ y < h - 1 then
    makeConstraint sqrt ps cs (getParticle w (x + 1) y) (getParticle w x (y + 1)) else cs

/-- Constructor, second constraint loop body (secondary neighbours) for one `(x, y)`. -/
def connectSecondary (sqrt : K → K) (ps : List (Particle K)) (w h : Nat)
    (cs : List (Constraint K)) (xy : Nat × Nat) : List (Constraint K) :=
  let x := xy.1
  let y := xy.2
  let cs := if x < w - 2 then
    makeConstraint sqrt ps cs (getParticle w x y) (getParticle w (x + 2) y) else cs
  let cs := if y < h - 2 then
    makeConstraint sqrt ps cs (getParticle w x y) (getParticle w x (y + 2)) else cs
  let cs := if x < w - 2 ∧ y < h - 2 then
    makeConstraint sqrt ps cs (getParticle w x y) (getParticle w (x + 2) (y + 2)) else cs
  if x < w - 2 ∧ y < h - 2 then
    makeConstraint sqrt ps cs (getParticle w (x + 2) y) (getParticle w x (y + 2)) else cs

/-- Constructor, both constraint loops, starting from the empty constraint vector. -/
def buildConstraints (sqrt : K → K) (ps : List (Particle K)) (w h : Nat) :
    List (Constraint K) :=
  (gridLoop w h).foldl (connectSecondary sqrt ps w h)
    ((gridLoop w h).foldl (connectImmediate sqrt ps w h) [])

/-- The indices handed to `getParticle(0, j)` by the pinning loop `for j in 0..w`. -/
def pinIndices (w : Nat) : List Nat :=
  (List.range w).map (fun j => getParticle w 0 j)

/-- Constructor, pinning loop: `getParticle(0, j)->makeUnmovable()` for `j < w`; an index
outside the particle vector has no defined behaviour, the result is then `none`. -/
def pinLoop (w : Nat) (ps : List (Particle K)) : Option (List (Particle K)) :=
  (pinIndices w).foldlM
    (fun ps i => if i < ps.length then some (update ps i Particle.makeUnmovable) else none) ps

/-- Flag::Flag(width, height, num_particles_width, num_particles_height). The unused
local `mass_particle` evaluates the integer quotient `MASS/num_particles_width`, which
is undefined for `num_particles_width = 0`. -/
def new (sqrt : K → K) (width height : K) (w h : Nat) : Option (Flag K) :=
  if w = 0 then none else
    let particles := placeParticles width height w h
    let constraints := buildConstraints sqrt particles w h
    (pinLoop w particles).map fun particles =>
      { num_particles_width := w, num_particles_height := h, particles := particles,
        constraints := constraints, flag_vertices := [] }

/-- Flag::render, second loop body: the two triangle normals of cell `(x, y)` and the
six `addToNormal` calls. -/
def accumulateCell (sqrt : K → K) (w : Nat) (ps : List (Particle K)) (xy : Nat × Nat) :
    List (Particle K) :=
  let x := xy.1
  let y := xy.2
  let normal := calcTriangleNormal ps (getParticle w (x + 1) y) (getParticle w x y)
    (getParticle w x (y + 1))
  let ps := update ps (getParticle w (x + 1) (y + 1)) (fun p => p.addToNormal sqrt normal)
  let ps := update ps (getParticle w (x + 1) y) (fun p => p.addToNormal sqrt normal)
  let ps := update ps (getParticle w x y) (fun p => p.addToNormal sqrt normal)
  let normal := calcTriangleNormal ps (getParticle w (x + 1) (y + 1)) (getParticle w (x + 1) y)
    (getParticle w x (y + 1))
  let ps := update ps (getParticle w (x + 1) (y + 1)) (fun p => p.addToNormal sqrt normal)
  let ps := update ps (getParticle w x y) (fun p => p.addToNormal sqrt normal)
  update ps (getParticle w x (y + 1)) (fun p => p.addToNormal sqrt normal)

/-- Flag::render, third loop body: the two `AddTriangle` calls of cell `(x, y)`. -/
def emitCell (sqrt : K → K) (w : Nat) (ps : List (Particle K)) (buf : List K)
    (xy : Nat × Nat) : List K :=
  let x := xy.1
  let y := xy.2
  let buf := AddTriangle sqrt ps buf (getParticle w x y) (getParticle w x (y + 1))
    (getParticle w (x + 1) (y + 1))
  AddTriangle sqrt ps buf (getParticle w x y) (getParticle w (x + 1) y)
    (getParticle w (x + 1) (y + 1))

/-- Flag::render, the particle vector after the normals are reset and accumulated. -/
def renderNormals (sqrt : K → K) (f : Flag K) : List (Particle K) :=
  (gridLoop (f.num_particles_width - 1) (f.num_particles_height - 1)).foldl
    (accumulateCell sqrt f.num_particles_width) (f.particles.map Particle.resetNormal)

/-- Flag::render up to the point where the vertex buffer is handed to OpenGL. -/
def renderBuild (sqrt : K → K) (f : Flag K) : Flag K :=
  let ps := renderNormals sqrt f
  { f with
    particles := ps
    flag_vertices :=
      (gridLoop (f.num_particles_width - 1) (f.num_particles_height - 1)).foldl
        (emitCell sqrt f.num_particles_width ps) f.flag_vertices }

/-- Flag::render: build the buffer, hand it to OpenGL, `flag_vertices.clear()`. -/
def render (sqrt : K → K) (f : Flag K) : Flag K :=
  { renderBuild sqrt f with flag_vertices := [] }

/-- One pass over all constraints, in order. -/
def relaxPass (sqrt : K → K) (cs : List (Constraint K)) (ps : List (Particle K)) :
    List (Particle K) :=
  cs.foldl (fun ps c => c.satisfyConstraint sqrt ps) ps

/-- Flag::timeStep. -/
def timeStep (sqrt : K → K) (f : Flag K) : Flag K :=
  let ps := (List.range CONSTRAINT_ITERATIONS).foldl
    (fun ps _ => relaxPass sqrt f.constraints ps) f.particles
  { f with particles := ps.map Particle.timeStep }

/-- Flag::addForce. -/
def addForce (force : Vec3 K) (f : Flag K) : Flag K :=
  { f with particles := f.particles.map (fun p => p.addForce force) }

/-- Flag::addwindForce, loop body for cell `(x, y)`. -/
def windCell (sqrt : K → K) (w : Nat) (direction : Vec3 K) (ps : List (Particle K))
    (xy : Nat × Nat) : List (Particle K) :=
  let x := xy.1
  let y := xy.2
  let p1 := getParticle w x y
  let p2 := getParticle w (x + 1) y
  let p3 := getParticle w x (y + 1)
  let p4 := getParticle w (x + 1) (y + 1)
  let normal := calcTriangleNormal ps p2 p1 p3
  let d := normal.normalized sqrt
  let force := normal.mul (d.dot direction)
  let ps := update ps p1 (fun p => p.addForce force)
  let ps := update ps p2 (fun p => p.addForce force)
  let ps := update ps p3 (fun p => p.addForce force)
  let normal := calcTriangleNormal ps p4 p2 p3
  let d := normal.normalized sqrt
  let force := normal.mul (d.dot direction)
  let ps := update ps p2 (fun p => p.addForce force)
  let ps := update ps p3 (fun p => p.addForce force)
  update ps p4 (fun p => p.addForce force)

/-- Flag::addwindForce. -/
def addwindForce (sqrt : K → K) (direction : Vec3 K) (f : Flag K) : Flag K :=
  { f with
    particles :=
      (gridLoop (f.num_particles_width - 1) (f.num_particles_height - 1)).foldl
        (windCell sqrt f.num_particles_width direction) f.particles }

end Flag

/-! ## Call sequences -/

/-- A call that changes the state of a flag: the public `Flag` methods, and the
`Particle` and `Constraint` methods they are built from, applied to a particle or a
constraint of this flag. -/
inductive Call (K : Type) where
  | addForce (force : Vec3 K)
  | addwindForce (direction : Vec3 K)
  | satisfyConstraint (c : Constraint K)
  | offsetPos (i : Nat) (v : Vec3 K)
  | particleTimeStep (i : Nat)
  | timeStep
  | render

/-- The effect of one call on the flag. -/
def Flag.call {K : Type} [Field K] (sqrt : K → K) (f : Flag K) : Call K → Flag K
  | .addForce force => f.addForce force
  | .addwindForce direction => f.addwindForce sqrt direction
  | .satisfyConstraint c => { f with particles := c.satisfyConstraint sqrt f.particles }
  | .offsetPos i v => { f with particles := update f.particles i (fun p => p.offsetPos v) }
  | .particleTimeStep i => { f with particles := update f.particles i Particle.timeStep }
  | .timeStep => f.timeStep sqrt
  | .render => f.render sqrt

/-- The effect of a sequence of calls, first call first. -/
def Flag.run {K : Type} [Field K] (sqrt : K → K) (f : Flag K) (calls : List (Call K)) :
    Flag K :=
  calls.foldl (Flag.call sqrt) f

/-! ## Relations used to state what a call leaves unchanged -/

/-- A particle update keeps movability, and keeps the position of an unmovable particle. -/
@[reducible]
def Keeps {K : Type} (p q : Particle K) : Prop :=
  q.movable = p.movable ∧ (p.movable = false → q.pos = p.pos)

/-- Pointwise `Keeps` between two particle vectors. -/
@[reducible]
def KeepsAll {K : Type} (ps qs : List (Particle K)) : Prop :=
  ∀ (i : Nat) (p : Particle K), ps[i]? = some p → ∃ q, qs[i]? = some q ∧ Keeps p q

/-! ## Concrete inputs -/

/-- A pinned particle at the origin. -/
def pinnedAtOrigin : Particle ℚ := (Particle.new ⟨0, 0, 0⟩ (1 / 10000)).makeUnmovable

/-- A free particle at (2,0,0). -/
def freeAtTwo : Particle ℚ := Particle.new ⟨2, 0, 0⟩ (1 / 10000)

/-- A 2 x 1 flag: a pinned and a free particle joined by one constraint of rest length 1. -/
def pairFlag : Flag ℚ :=
  { num_particles_width := 2, num_particles_height := 1,
    particles := [pinnedAtOrigin, freeAtTwo],
    constraints := [{ rest_distance := 1, p1 := 0, p2 := 1 }],
    flag_vertices := [] }

/-- The 2 x 2 flag of width 1 and height 1 as the constructor builds it. -/
def unitSquare {K : Type} [Field K] (sqrt : K → K) : Flag K :=
  (Flag.new sqrt 1 1 2 2).getD ⟨0, 0, [], [], []⟩

/-- The flag `unitSquare` over the rationals, with `Rat.sqrt` for the square root. -/
def squareFlag : Flag ℚ := unitSquare Rat.sqrt

/-! ## Grid description of the constraint network -/

/-- A link is an ordered pair of grid coordinates `((x1, y1), (x2, y2))`. -/
abbrev Link := (Nat × Nat) × (Nat × Nat)

/-- The links one pass of the constructor creates for the loop indices `(x, y)` at grid
distance `d`, in creation order. -/
def cellLinks (d w h : Nat) (xy : Nat × Nat) : List Link :=
  (if xy.1 < w - d then [((xy.1, xy.2), (xy.1 + d, xy.2))] else []) ++
  ((if xy.2 < h - d then [((xy.1, xy.2), (xy.1, xy.2 + d))] else []) ++
  ((if xy.1 < w - d ∧ xy.2 < h - d then [((xy.1, xy.2), (xy.1 + d, xy.2 + d))] else []) ++
  (if xy.1 < w - d ∧ xy.2 < h - d then [((xy.1 + d, xy.2), (xy.1, xy.2 + d))] else [])))

/-- All links of the two passes, in creation order. -/
def gridLinks (w h : Nat) : List Link :=
  (gridLoop w h).flatMap (cellLinks 1 w h) ++ (gridLoop w h).flatMap (cellLinks 2 w h)

/-- The constraint the constructor creates for a link. -/
def linkConstraint {K : Type} [Field K] (sqrt : K → K) (ps : List (Particle K)) (w : Nat)
    (l : Link) : Constraint K :=
  Constraint.new sqrt ps (getParticle w l.1.1 l.1.2) (getParticle w l.2.1 l.2.2)

/-- The constraint joins the particles with indices `i` and `j`, in either order. -/
def Constraint.joins {K : Type} (c : Constraint K) (i j : Nat) : Bool :=
  decide ((c.p1 = i ∧ c.p2 = j) ∨ (c.p1 = j ∧ c.p2 = i))

/-- Two free particles, at the origin and at (2,0,0). -/
def stretchedPair (K : Type) [Field K] : List (Particle K) :=
  [Particle.new ⟨0, 0, 0⟩ (1 / 10000), Particle.new ⟨2, 0, 0⟩ (1 / 10000)]

/-- The same two particles with the one at the origin pinned. -/
def stretchedPinnedPair (K : Type) [Field K] : List (Particle K) :=
  [(Particle.new ⟨0, 0, 0⟩ (1 / 10000)).makeUnmovable, Particle.new ⟨2, 0, 0⟩ (1 / 10000)]

/-- The constraint between particles 0 and 1 with rest distance 1. -/
def unitConstraint (K : Type) [Field K] : Constraint K :=
  { rest_distance := 1, p1 := 0, p2 := 1 }

/-! ## Reading the vertex buffer -/

/-- The normals stored in a vertex buffer: floats 3, 4 and 5 of every 6-float vertex. -/
def vertexNormals {K : Type} : List K → List (Vec3 K)
  | _ :: _ :: _ :: n0 :: n1 :: n2 :: rest => ⟨n0, n1, n2⟩ :: vertexNormals rest
  | _ => []

/-- No triangle of any cell has collinear or coincident vertices: for every cell the two
triangles whose normals `render` computes and the two triangles it emits have a non-zero
cross product. -/
def Flag.NonDegenerate {K : Type} [Field K] (f : Flag K) : Prop :=
  ∀ x y, x < f.num_particles_width - 1 → y < f.num_particles_height - 1 →
    Flag.calcTriangleNormal f.particles (getParticle f.num_particles_width (x + 1) y)
        (getParticle f.num_particles_width x y)
        (getParticle f.num_particles_width x (y + 1)) ≠ Vec3.zero
    ∧ Flag.calcTriangleNormal f.particles (getParticle f.num_particles_width (x + 1) (y + 1))
        (getParticle f.num_particles_width (x + 1) y)
        (getParticle f.num_particles_width x (y + 1)) ≠ Vec3.zero
    ∧ Flag.calcTriangleNormal f.particles (getParticle f.num_particles_width x y)
        (getParticle f.num_particles_width x (y + 1))
        (getParticle f.num_particles_width (x + 1) (y + 1)) ≠ Vec3.zero
    ∧ Flag.calcTriangleNormal f.particles (getParticle f.num_particles_width x y)
        (getParticle f.num_particles_width (x + 1) y)
        (getParticle f.num_particles_width (x + 1) (y + 1)) ≠ Vec3.zero

/-- A 2 x 2 flag whose particle (1,1) has been pulled across the diagonal to
(1/4,1/4,0): the two triangles whose normals `render` computes face opposite ways. -/
def foldedSquare (K : Type) [Field K] : Flag K :=
  { num_particles_width := 2, num_particles_height := 2,
    particles := [Particle.new ⟨0, 0, 0⟩ (1 / 10000), Particle.new ⟨1, 0, 0⟩ (1 / 10000),
      Particle.new ⟨0, 1, 0⟩ (1 / 10000), Particle.new ⟨1 / 4, 1 / 4, 0⟩ (1 / 10000)],
    constraints := [], flag_vertices := [] }

/-- A flat 2 x 2 flag with its particles at the corners of the unit square. -/
def flatSquare (K : Type) [Field K] : Flag K :=
  { num_particles_width := 2, num_particles_height := 2,
    particles := [Particle.new ⟨0, 0, 0⟩ (1 / 10000), Particle.new ⟨1, 0, 0⟩ (1 / 10000),
      Particle.new ⟨0, 1, 0⟩ (1 / 10000), Particle.new ⟨1, 1, 0⟩ (1 / 10000)],
    constraints := [], flag_vertices := [] }

/-- The six normals `render` emits for cell `(x, y)`, in buffer order. -/
def cellNormals {K : Type} [Field K] (sqrt : K → K) (w : Nat) (ps : List (Particle K))
    (xy : Nat × Nat) : List (Vec3 K) :=
  [(deref ps (getParticle w xy.1 xy.2)).accumulated_normal.normalized sqrt,
   (deref ps (getParticle w xy.1 (xy.2 + 1))).accumulated_normal.normalized sqrt,
   (deref ps (getParticle w (xy.1 + 1) (xy.2 + 1))).accumulated_normal.normalized sqrt,
   (deref ps (getParticle w xy.1 xy.2)).accumulated_normal.normalized sqrt,
   (deref ps (getParticle w (xy.1 + 1) xy.2)).accumulated_normal.normalized sqrt,
   (deref ps (getParticle w (xy.1 + 1) (xy.2 + 1))).accumulated_normal.normalized sqrt]

/-! ## The normal accumulation as the specification words it -/

/-- The accumulation step for cell `(x, y)` as the specification words it: each of the two
triangle normals is added to the three particles of the triangle it was computed from. -/
def Flag.specAccumulateCell {K : Type} [Field K] (sqrt : K → K) (w : Nat)
    (ps : List (Particle K)) (xy : Nat × Nat) : List (Particle K) :=
  let x := xy.1
  let y := xy.2
  let normal := Flag.calcTriangleNormal ps (getParticle w (x + 1) y) (getParticle w x y)
    (getParticle w x (y + 1))
  let ps := update ps (getParticle w (x + 1) y) (fun p => p.addToNormal sqrt normal)
  let ps := update ps (getParticle w x y) (fun p => p.addToNormal sqrt normal)
  let ps := update ps (getParticle w x (y + 1)) (fun p => p.addToNormal sqrt normal)
  let normal := Flag.calcTriangleNormal ps (getParticle w (x + 1) (y + 1))
    (getParticle w (x + 1) y) (getParticle w x (y + 1))
  let ps := update ps (getParticle w (x + 1) (y + 1)) (fun p => p.addToNormal sqrt normal)
  let ps := update ps (getParticle w (x + 1) y) (fun p => p.addToNormal sqrt normal)
  update ps (getParticle w x (y + 1)) (fun p => p.addToNormal sqrt normal)

/-- The particle vector after reset and accumulation, with the accumulation of the
specification in place of the one of the code. -/
def Flag.specRenderNormals {K : Type} [Field K] (sqrt : K → K) (f : Flag K) :
    List (Particle K) :=
  (gridLoop (f.num_particles_width - 1) (f.num_particles_height - 1)).foldl
    (Flag.specAccumulateCell sqrt f.num_particles_width) (f.particles.map Particle.resetNormal)

/-- The 2 x 2 flag of width 2 and height 2 as the constructor builds it: its particles
are at the corners of the unit square. -/
def twoSquare {K : Type} [Field K] (sqrt : K → K) : Flag K :=
  (Flag.new sqrt 2 2 2 2).getD ⟨0, 0, [], [], []⟩

/-! ## Layout of the vertex buffer -/

/-- The six floats of one vertex: position, then normalized accumulated normal. -/
def vertexFloats {K : Type} [Field K] (sqrt : K → K) (ps : List (Particle K)) (i : Nat) :
    List K :=
  [(deref ps i).pos.f0, (deref ps i).pos.f1, (deref ps i).pos.f2,
   ((deref ps i).accumulated_normal.normalized sqrt).f0,
   ((deref ps i).accumulated_normal.normalized sqrt).f1,
   ((deref ps i).accumulated_normal.normalized sqrt).f2]

/-- The 36 floats of cell `(x, y)`: the triangle (x,y), (x,y+1), (x+1,y+1), then the
triangle (x,y), (x+1,y), (x+1,y+1). -/
def cellFloats {K : Type} [Field K] (sqrt : K → K) (w : Nat) (ps : List (Particle K))
    (xy : Nat × Nat) : List K :=
  vertexFloats sqrt ps (getParticle w xy.1 xy.2)
    ++ vertexFloats sqrt ps (getParticle w xy.1 (xy.2 + 1))
    ++ vertexFloats sqrt ps (getParticle w (xy.1 + 1) (xy.2 + 1))
    ++ vertexFloats sqrt ps (getParticle w xy.1 xy.2)
    ++ vertexFloats sqrt ps (getParticle w (xy.1 + 1) xy.2)
    ++ vertexFloats sqrt ps (getParticle w (xy.1 + 1) (xy.2 + 1))

/-- The positions stored in a vertex buffer: floats 0, 1 and 2 of every 6-float vertex. -/
def vertexPositions {K : Type} : List K → List (Vec3 K)
  | p0 :: p1 :: p2 :: _ :: _ :: _ :: rest => ⟨p0, p1, p2⟩ :: vertexPositions rest
  | _ => []

/-! ## Wind force per triangle -/

/-- The force `addwindForce` computes for the triangle whose normal is
`calcTriangleNormal(a, b, c)`: `normal * normal.normalized().dot(direction)`. -/
def Flag.windForce {K : Type} [Field K] (sqrt : K → K) (ps : List (Particle K))
    (direction : Vec3 K) (a b c : Nat) : Vec3 K :=
  let normal := Flag.calcTriangleNormal ps a b c
  let d := normal.normalized sqrt
  normal.mul (d.dot direction)

/-- The two triangles of cell `(x, y)` in `addwindForce`, as index triples in the
argument order of `calcTriangleNormal`. -/
def cellTriangles (w : Nat) (xy : Nat × Nat) : List (Nat × Nat × Nat) :=
  [(getParticle w (xy.1 + 1) xy.2, getParticle w xy.1 xy.2, getParticle w xy.1 (xy.2 + 1)),
   (getParticle w (xy.1 + 1) (xy.2 + 1), getParticle w (xy.1 + 1) xy.2,
     getParticle w xy.1 (xy.2 + 1))]

/-- All triangles of `addwindForce`, in the order the loops visit them. -/
def windTriangles (w h : Nat) : List (Nat × Nat × Nat) :=
  (gridLoop (w - 1) (h - 1)).flatMap (cellTriangles w)

/-- The vector `start` plus, in order, the wind force of every triangle in `tris` that
has particle `i` as a vertex. -/
def windSum {K : Type} [Field K] (sqrt : K → K) (ps : List (Particle K))
    (direction : Vec3 K) (tris : List (Nat × Nat × Nat)) (i : Nat) (start : Vec3 K) : Vec3 K :=
  tris.foldl
    (fun s t => if i = t.1 ∨ i = t.2.1 ∨ i = t.2.2
      then s.add (Flag.windForce sqrt ps direction t.1 t.2.1 t.2.2) else s)
    start

/-! ## Divisions with the divisor made explicit

The C++ code divides floats without testing the divisor; a zero divisor gives an infinite
or not-a-number float, which no element of the field stands for. The two functions below
are `Vec3::normalized` and `Constraint::satisfyConstraint` again, statement by statement,
with `none` as the result when the divisor of their division is zero. -/

/-- Vec3::normalized, `none` when `length()` is zero. -/
def Vec3.normalizedChecked {K : Type} [Field K] [DecidableEq K] (sqrt : K → K)
    (v : Vec3 K) : Option (Vec3 K) :=
  let l := v.length sqrt
  if l = 0 then none else some ⟨v.f0 / l, v.f1 / l, v.f2 / l⟩

/-- Constraint::satisfyConstraint, `none` when `current_distance` is zero. -/
def Constraint.satisfyConstraintChecked {K : Type} [Field K] [DecidableEq K] (sqrt : K → K)
    (c : Constraint K) (ps : List (Particle K)) : Option (List (Particle K)) :=
  let p1_to_p2 := (deref ps c.p2).pos.sub (deref ps c.p1).pos
  let current_distance := p1_to_p2.length sqrt
  if current_distance = 0 then none else
    let correctionVector := p1_to_p2.mul (1 - c.rest_distance / current_distance)
    let correctionVectorHalf := correctionVector.mul (1 / 2)
    let ps := update ps c.p1 (fun p => p.offsetPos correctionVectorHalf)
    some (update ps c.p2 (fun p => p.offsetPos correctionVectorHalf.neg))

/-- Two free particles at the same point (1,0,0). -/
def coincidentPair (K : Type) [Field K] : List (Particle K) :=
  [Particle.new ⟨1, 0, 0⟩ (1 / 10000), Particle.new ⟨1, 0, 0⟩ (1 / 10000)]

/-- The constraint between particles 0 and 1 with rest distance 0. -/
def zeroConstraint (K : Type) [Field K] : Constraint K :=
  { rest_distance := 0, p1 := 0, p2 := 1 }

/-- The number of triangles of `addwindForce` on a `w` x `h` grid that have particle `i`
as a vertex. -/
def windTrianglesAt (w h i : Nat) : Nat :=
  (windTriangles w h).countP (fun t => decide (i = t.1 ∨ i = t.2.1 ∨ i = t.2.2))

/-! # Theorems -/

/-! ## Particle::timeStep -/

/-- C1: for every movable particle with position p, previous position q and acceleration a,
`Particle::timeStep` sets the position to p + (p - q)*(1 - 0.01) + a*1, the previous
position to p and the acceleration to zero; a freshly constructed particle at q that
receives `addForce((0,-1,0))` and one `timeStep` ends at q + (0,-1,0) with previous
position q. -/
theorem Particle.timeStep_verlet {K : Type} [Field K] (p : Particle K)
    (hm : p.movable = true) :
    p.timeStep.pos
        = (p.pos.add ((p.pos.sub p.old_pos).mul (1 - 1 / 100))).add (p.acceleration.mul 1)
      ∧ p.timeStep.old_pos = p.pos
      ∧ p.timeStep.acceleration = Vec3.zero
      ∧ ∀ (q : Vec3 K) (m : K),
          (((Particle.new q m).addForce ⟨0, -1, 0⟩).timeStep).pos = q.add ⟨0, -1, 0⟩
            ∧ (((Particle.new q m).addForce ⟨0, -1, 0⟩).timeStep).old_pos = q := by
  refine ⟨?_, ?_, ?_, ?_⟩
  · simp [Particle.timeStep, hm, DAMPING, TIME_STEPSIZE2]
  · simp [Particle.timeStep, hm]
  · simp [Particle.timeStep, hm]
  · intro q m
    simp [Particle.timeStep, Particle.addForce, Particle.new, Vec3.add, Vec3.sub, Vec3.mul,
      Vec3.div, Vec3.zero, MASS, TIME_STEPSIZE2]

/-- Witness for C1: a movable particle at (1,1,1) that came from the origin, with
acceleration (0,-1,0). -/
theorem Particle.timeStep_verlet_witness :
    (Particle.mk true 1 ⟨0, 0, 0⟩ ⟨0, -1, 0⟩ ⟨0, 0, 0⟩ ⟨1, 1, 1⟩ : Particle ℚ).movable = true
      ∧ (Particle.mk true 1 ⟨0, 0, 0⟩ ⟨0, -1, 0⟩ ⟨0, 0, 0⟩ ⟨1, 1, 1⟩ :
            Particle ℚ).timeStep.old_pos = ⟨1, 1, 1⟩ :=
  ⟨rfl, (Particle.timeStep_verlet _ rfl).2.1⟩

/-! ## Pinned particles -/

theorem keeps_refl {K : Type} (p : Particle K) : Keeps p p := ⟨rfl, fun _ => rfl⟩

theorem Keeps.chain {K : Type} {p q r : Particle K} (h₁ : Keeps p q) (h₂ : Keeps q r) :
    Keeps p r :=
  ⟨h₂.1.trans h₁.1, fun h => (h₂.2 (h₁.1.trans h)).trans (h₁.2 h)⟩

theorem keepsAll_refl {K : Type} (ps : List (Particle K)) : KeepsAll ps ps :=
  fun _ p hp => ⟨p, hp, keeps_refl p⟩

theorem KeepsAll.andThen {K : Type} {ps qs rs : List (Particle K)} (h₁ : KeepsAll ps qs)
    (h₂ : KeepsAll qs rs) : KeepsAll ps rs := by
  intro i p hp
  obtain ⟨q, hq, hpq⟩ := h₁ i p hp
  obtain ⟨r, hr, hqr⟩ := h₂ i q hq
  exact ⟨r, hr, hpq.chain hqr⟩

theorem keepsAll_update {K : Type} [Field K] (ps : List (Particle K)) (j : Nat)
    (g : Particle K → Particle K) (hg : ∀ p, Keeps p (g p)) : KeepsAll ps (update ps j g) := by
  intro i p hp
  unfold update
  cases hj : ps[j]? with
  | none => exact ⟨p, hp, keeps_refl p⟩
  | some pj =>
    simp only [List.getElem?_set]
    by_cases hij : j = i
    · subst hij
      have hlt : j < ps.length := by
        rcases List.getElem?_eq_some_iff.mp hj with ⟨h, _⟩
        exact h
      rw [hp] at hj
      cases hj
      exact ⟨g p, by simp [hlt], hg p⟩
    · exact ⟨p, by simp [hij, hp], keeps_refl p⟩

theorem keepsAll_map {K : Type} (ps : List (Particle K)) (g : Particle K → Particle K)
    (hg : ∀ p, Keeps p (g p)) : KeepsAll ps (ps.map g) := by
  intro i p hp
  exact ⟨g p, by simp [hp], hg p⟩

theorem keepsAll_foldl {K : Type} {α : Type} (step : List (Particle K) → α → List (Particle K))
    (hstep : ∀ ps a, KeepsAll ps (step ps a)) (l : List α) (ps : List (Particle K)) :
    KeepsAll ps (l.foldl step ps) := by
  induction l generalizing ps with
  | nil => exact keepsAll_refl ps
  | cons a l ih => exact (hstep ps a).andThen (ih (step ps a))

theorem Particle.keeps_offsetPos {K : Type} [Field K] (v : Vec3 K) (p : Particle K) :
    Keeps p (p.offsetPos v) := by
  unfold Particle.offsetPos Keeps
  cases h : p.movable <;> simp [h]

theorem Particle.keeps_timeStep {K : Type} [Field K] (p : Particle K) :
    Keeps p p.timeStep := by
  unfold Particle.timeStep Keeps
  cases h : p.movable <;> simp [h]

theorem Particle.keeps_addForce {K : Type} [Field K] (v : Vec3 K) (p : Particle K) :
    Keeps p (p.addForce v) := ⟨rfl, fun _ => rfl⟩

theorem Particle.keeps_addToNormal {K : Type} [Field K] (sqrt : K → K) (v : Vec3 K)
    (p : Particle K) : Keeps p (p.addToNormal sqrt v) := ⟨rfl, fun _ => rfl⟩

theorem Particle.keeps_resetNormal {K : Type} [Field K] (p : Particle K) :
    Keeps p p.resetNormal := ⟨rfl, fun _ => rfl⟩

theorem Constraint.keepsAll_satisfyConstraint {K : Type} [Field K] (sqrt : K → K)
    (c : Constraint K) (ps : List (Particle K)) :
    KeepsAll ps (c.satisfyConstraint sqrt ps) := by
  unfold Constraint.satisfyConstraint
  exact (keepsAll_update _ _ _ (Particle.keeps_offsetPos _)).andThen
    (keepsAll_update _ _ _ (Particle.keeps_offsetPos _))

theorem Flag.keepsAll_accumulateCell {K : Type} [Field K] (sqrt : K → K) (w : Nat)
    (ps : List (Particle K)) (xy : Nat × Nat) :
    KeepsAll ps (Flag.accumulateCell sqrt w ps xy) := by
  unfold Flag.accumulateCell
  exact (((((keepsAll_update _ _ _ (Particle.keeps_addToNormal sqrt _)).andThen
    (keepsAll_update _ _ _ (Particle.keeps_addToNormal sqrt _))).andThen
    (keepsAll_update _ _ _ (Particle.keeps_addToNormal sqrt _))).andThen
    (keepsAll_update _ _ _ (Particle.keeps_addToNormal sqrt _))).andThen
    (keepsAll_update _ _ _ (Particle.keeps_addToNormal sqrt _))).andThen
    (keepsAll_update _ _ _ (Particle.keeps_addToNormal sqrt _))

theorem Flag.keepsAll_windCell {K : Type} [Field K] (sqrt : K → K) (w : Nat)
    (d : Vec3 K) (ps : List (Particle K)) (xy : Nat × Nat) :
    KeepsAll ps (Flag.windCell sqrt w d ps xy) := by
  unfold Flag.windCell
  exact (((((keepsAll_update _ _ _ (Particle.keeps_addForce _)).andThen
    (keepsAll_update _ _ _ (Particle.keeps_addForce _))).andThen
    (keepsAll_update _ _ _ (Particle.keeps_addForce _))).andThen
    (keepsAll_update _ _ _ (Particle.keeps_addForce _))).andThen
    (keepsAll_update _ _ _ (Particle.keeps_addForce _))).andThen
    (keepsAll_update _ _ _ (Particle.keeps_addForce _))

theorem Flag.keepsAll_timeStep {K : Type} [Field K] (sqrt : K → K) (f : Flag K) :
    KeepsAll f.particles (f.timeStep sqrt).particles := by
  unfold Flag.timeStep
  refine KeepsAll.andThen ?_ (keepsAll_map _ _ Particle.keeps_timeStep)
  refine keepsAll_foldl _ ?_ _ _
  intro ps _
  exact keepsAll_foldl _ (fun qs c => c.keepsAll_satisfyConstraint sqrt qs) _ _

theorem Flag.keepsAll_render {K : Type} [Field K] (sqrt : K → K) (f : Flag K) :
    KeepsAll f.particles (f.render sqrt).particles := by
  unfold Flag.render Flag.renderBuild Flag.renderNormals
  exact (keepsAll_map _ _ Particle.keeps_resetNormal).andThen
    (keepsAll_foldl _ (Flag.keepsAll_accumulateCell sqrt _) _ _)

theorem Flag.keepsAll_call {K : Type} [Field K] (sqrt : K → K) (f : Flag K) (c : Call K) :
    KeepsAll f.particles (f.call sqrt c).particles := by
  cases c with
  | addForce force => exact keepsAll_map _ _ (Particle.keeps_addForce force)
  | addwindForce d => exact keepsAll_foldl _ (Flag.keepsAll_windCell sqrt _ d) _ _
  | satisfyConstraint c => exact c.keepsAll_satisfyConstraint sqrt _
  | offsetPos i v => exact keepsAll_update _ _ _ (Particle.keeps_offsetPos v)
  | particleTimeStep i => exact keepsAll_update _ _ _ Particle.keeps_timeStep
  | timeStep => exact Flag.keepsAll_timeStep sqrt f
  | render => exact Flag.keepsAll_render sqrt f

theorem Flag.keepsAll_run {K : Type} [Field K] (sqrt : K → K) (calls : List (Call K))
    (f : Flag K) : KeepsAll f.particles (f.run sqrt calls).particles := by
  induction calls generalizing f with
  | nil => exact keepsAll_refl _
  | cons c cs ih => exact (Flag.keepsAll_call sqrt f c).andThen (ih (f.call sqrt c))

/-- C2: the position of a particle that has been made unmovable is the same after any
sequence of `Flag::addForce`, `Flag::addwindForce`, `Constraint::satisfyConstraint`,
`Particle::offsetPos`, `Particle::timeStep`, `Flag::timeStep` and `Flag::render` calls,
for every force vector and every constraint, and the particle stays unmovable. -/
theorem Flag.pinned_position_fixed {K : Type} [Field K] (sqrt : K → K) (f : Flag K)
    (calls : List (Call K)) (i : Nat) (p : Particle K)
    (hp : f.particles[i]? = some p) (hpin : p.movable = false) :
    ∃ q, (f.run sqrt calls).particles[i]? = some q ∧ q.pos = p.pos ∧ q.movable = false := by
  obtain ⟨q, hq, hk⟩ := Flag.keepsAll_run sqrt calls f i p hp
  exact ⟨q, hq, hk.2 hpin, hk.1.trans hpin⟩

/-- Witness for C2: the pinned particle of `pairFlag` under gravity, wind, a time step
and a render. -/
theorem Flag.pinned_position_fixed_witness :
    pairFlag.particles[0]? = some pinnedAtOrigin ∧ pinnedAtOrigin.movable = false
      ∧ ∃ q, (pairFlag.run Rat.sqrt
                [Call.addForce ⟨0, -1, 0⟩, Call.addwindForce ⟨1, 0, 1⟩, Call.timeStep,
                 Call.render]).particles[0]? = some q
             ∧ q.pos = pinnedAtOrigin.pos ∧ q.movable = false :=
  ⟨rfl, rfl, Flag.pinned_position_fixed Rat.sqrt pairFlag _ 0 pinnedAtOrigin rfl rfl⟩

/-! ## Pinning loop of the constructor -/

/-- C3 (evaluation at the failing input): on a 2 x 3 grid the constructor pins the
particles (0,0) and (0,1) only, particle (0,2) at index 4 stays movable; on a 3 x 2 grid
the pinning loop asks for the indices 0, 3 and 6 of a vector of 6 particles, so the
construction has no defined result. -/
theorem Flag.new_pins_by_width {K : Type} [Field K] (sqrt : K → K) (width height : K) :
    (Flag.new sqrt width height 2 3).map (fun f => f.particles.map (fun p => p.movable))
        = some [false, true, false, true, true, true]
      ∧ Flag.pinIndices 3 = [0, 3, 6]
      ∧ (Flag.placeParticles width height 3 2).length = 6
      ∧ Flag.new sqrt width height 3 2 = none :=
  ⟨rfl, rfl, rfl, rfl⟩

/-! ## Size of the vertex buffer -/

theorem Flag.length_AddTriangle {K : Type} [Field K] (sqrt : K → K) (ps : List (Particle K))
    (buf : List K) (p1 p2 p3 : Nat) :
    (Flag.AddTriangle sqrt ps buf p1 p2 p3).length = buf.length + 18 := by
  simp [Flag.AddTriangle]

theorem Flag.length_emitCell {K : Type} [Field K] (sqrt : K → K) (w : Nat)
    (ps : List (Particle K)) (buf : List K) (xy : Nat × Nat) :
    (Flag.emitCell sqrt w ps buf xy).length = buf.length + 36 := by
  simp [Flag.emitCell, Flag.length_AddTriangle]

theorem Flag.length_foldl_emitCell {K : Type} [Field K] (sqrt : K → K) (w : Nat)
    (ps : List (Particle K)) (cells : List (Nat × Nat)) (buf : List K) :
    (cells.foldl (Flag.emitCell sqrt w ps) buf).length = buf.length + 36 * cells.length := by
  induction cells generalizing buf with
  | nil => simp
  | cons xy cells ih =>
    simp only [List.foldl_cons, ih, Flag.length_emitCell, List.length_cons]
    ring

theorem length_gridLoop (a b : Nat) : (gridLoop a b).length = a * b := by
  show (List.range a ×ˢ List.range b).length = a * b
  rw [List.length_product, List.length_range, List.length_range]

theorem mem_gridLoop {a b : Nat} {xy : Nat × Nat} :
    xy ∈ gridLoop a b ↔ xy.1 < a ∧ xy.2 < b := by
  obtain ⟨x, y⟩ := xy
  show (x, y) ∈ List.range a ×ˢ List.range b ↔ _
  simp [List.mem_product]

theorem nodup_gridLoop (a b : Nat) : (gridLoop a b).Nodup :=
  List.Nodup.product (List.nodup_range a) (List.nodup_range b)

/-- C7: when `Flag::render` starts from the empty vertex buffer, the buffer it hands to
OpenGL holds 36*(columns-1)*(rows-1) floats, which is 6*(columns-1)*(rows-1) vertices of
6 floats, or 2*(columns-1)*(rows-1) triangles of 18 floats; and the buffer is empty
again when `render` returns. -/
theorem Flag.render_buffer_size {K : Type} [Field K] (sqrt : K → K) (f : Flag K)
    (hbuf : f.flag_vertices = []) :
    (f.renderBuild sqrt).flag_vertices.length
        = 36 * ((f.num_particles_width - 1) * (f.num_particles_height - 1))
      ∧ (f.renderBuild sqrt).flag_vertices.length
        = 6 * (6 * ((f.num_particles_width - 1) * (f.num_particles_height - 1)))
      ∧ (f.renderBuild sqrt).flag_vertices.length
        = 18 * (2 * ((f.num_particles_width - 1) * (f.num_particles_height - 1)))
      ∧ (f.render sqrt).flag_vertices = [] := by
  have h : (f.renderBuild sqrt).flag_vertices.length
      = 36 * ((f.num_particles_width - 1) * (f.num_particles_height - 1)) := by
    simp [Flag.renderBuild, Flag.length_foldl_emitCell, length_gridLoop, hbuf]
  refine ⟨h, ?_, ?_, rfl⟩
  · rw [h]; ring
  · rw [h]; ring

/-- Witness for C7: the 2 x 2 flag, whose buffer holds 36 floats, that is 2 triangles. -/
theorem Flag.render_buffer_size_witness :
    squareFlag.flag_vertices = []
      ∧ (squareFlag.renderBuild Rat.sqrt).flag_vertices.length = 18 * 2
      ∧ (squareFlag.render Rat.sqrt).flag_vertices = [] :=
  ⟨rfl, (Flag.render_buffer_size Rat.sqrt squareFlag rfl).2.2.1,
    (Flag.render_buffer_size Rat.sqrt squareFlag rfl).2.2.2⟩

/-! ## Grid indexing -/

theorem getParticle_lt {w h x y : Nat} (hx : x < w) (hy : y < h) :
    getParticle w x y < w * h := by
  unfold getParticle
  calc y * w + x < y * w + w := by omega
    _ = (y + 1) * w := by ring
    _ ≤ h * w := Nat.mul_le_mul_right w hy
    _ = w * h := Nat.mul_comm h w

theorem getParticle_inj {w x y x' y' : Nat} (hx : x < w) (hx' : x' < w)
    (h : getParticle w x y = getParticle w x' y') : x = x' ∧ y = y' := by
  unfold getParticle at h
  have hw : 0 < w := by omega
  have h1 : (y * w + x) % w = x := by
    rw [Nat.add_comm, Nat.add_mul_mod_self_right, Nat.mod_eq_of_lt hx]
  have h2 : (y' * w + x') % w = x' := by
    rw [Nat.add_comm, Nat.add_mul_mod_self_right, Nat.mod_eq_of_lt hx']
  have hxx : x = x' := by rw [← h1, ← h2, h]
  subst hxx
  have hyw : y * w = y' * w := by omega
  exact ⟨rfl, Nat.eq_of_mul_eq_mul_right hw hyw⟩

/-! ## Writes through indices -/

theorem foldl_set_length {α β : Type} (idx : β → Nat) (val : β → α) (l : List β)
    (init : List α) :
    (l.foldl (fun ps b => ps.set (idx b) (val b)) init).length = init.length := by
  induction l generalizing init with
  | nil => rfl
  | cons a l ih => simp [ih]

theorem foldl_set_untouched {α β : Type} (idx : β → Nat) (val : β → α) (l : List β)
    (init : List α) (k : Nat) (hk : ∀ b ∈ l, idx b ≠ k) :
    (l.foldl (fun ps b => ps.set (idx b) (val b)) init)[k]? = init[k]? := by
  induction l generalizing init with
  | nil => rfl
  | cons a l ih =>
    rw [List.foldl_cons, ih _ (fun b hb => hk b (List.mem_cons_of_mem a hb))]
    rw [List.getElem?_set]
    simp [hk a (List.mem_cons_self a l)]

theorem foldl_set_written {α β : Type} (idx : β → Nat) (val : β → α) (l : List β)
    (init : List α) (b : β) (hb : b ∈ l) (hinj : ∀ c ∈ l, idx c = idx b → c = b)
    (hlt : idx b < init.length) :
    (l.foldl (fun ps c => ps.set (idx c) (val c)) init)[idx b]? = some (val b) := by
  induction l generalizing init with
  | nil => cases hb
  | cons a l ih =>
    rw [List.foldl_cons]
    by_cases hbl : b ∈ l
    · exact ih _ hbl (fun c hc => hinj c (List.mem_cons_of_mem a hc)) (by simpa using hlt)
    · have hba : b = a := by
        rcases List.mem_cons.mp hb with h | h
        · exact h
        · exact absurd h hbl
      subst hba
      rw [foldl_set_untouched idx val l _ (idx b)]
      · simp [List.getElem?_set, hlt]
      · intro c hc hcb
        exact hbl (hinj c (List.mem_cons_of_mem b hc) hcb ▸ hc)

/-! ## Particle placement -/

theorem Flag.length_placeParticles {K : Type} [Field K] (width height : K) (w h : Nat) :
    (Flag.placeParticles width height w h).length = w * h := by
  unfold Flag.placeParticles
  rw [foldl_set_length (fun xy : Nat × Nat => xy.2 * w + xy.1)
    (fun xy : Nat × Nat => Particle.new (Flag.restPos width height w h xy.1 xy.2) (1 / 10000))]
  simp

theorem Flag.placeParticles_get {K : Type} [Field K] (width height : K) (w h x y : Nat)
    (hx : x < w) (hy : y < h) :
    (Flag.placeParticles width height w h)[getParticle w x y]?
      = some (Particle.new (Flag.restPos width height w h x y) (1 / 10000)) := by
  unfold Flag.placeParticles
  have key := foldl_set_written (fun xy : Nat × Nat => xy.2 * w + xy.1)
    (fun xy : Nat × Nat => Particle.new (Flag.restPos width height w h xy.1 xy.2) (1 / 10000))
    (gridLoop w h) (List.replicate (w * h) default) (x, y)
    (mem_gridLoop.mpr ⟨hx, hy⟩)
    (by
      intro c hc hcb
      have hc' := mem_gridLoop.mp hc
      obtain ⟨h1, h2⟩ := getParticle_inj hc'.1 hx hcb
      exact Prod.ext h1 h2)
    (by simpa using getParticle_lt hx hy)
  exact key
/-! ## Reads and writes through particle pointers -/

theorem update_length {K : Type} [Field K] (ps : List (Particle K)) (i : Nat)
    (g : Particle K → Particle K) : (update ps i g).length = ps.length := by
  unfold update
  cases ps[i]? <;> simp

theorem update_get {K : Type} [Field K] (ps : List (Particle K)) (i k : Nat)
    (g : Particle K → Particle K) :
    (update ps i g)[k]? = if i = k then (ps[k]?).map g else ps[k]? := by
  unfold update
  cases hi : ps[i]? with
  | none =>
    by_cases hik : i = k
    · subst hik; simp [hi]
    · simp [hik]
  | some p =>
    rw [List.getElem?_set]
    by_cases hik : i = k
    · subst hik
      have hlt : i < ps.length := (List.getElem?_eq_some_iff.mp hi).1
      simp [hi, hlt]
    · simp [hik]

theorem deref_of_get {K : Type} [Field K] {ps : List (Particle K)} {i : Nat} {p : Particle K}
    (h : ps[i]? = some p) : deref ps i = p := by
  simp [deref, List.getD, h]

/-! ## The pinning loop -/

theorem pin_foldlM_spec {K : Type} [Field K] (is : List Nat) (ps qs : List (Particle K))
    (h : is.foldlM
      (fun ps i => if i < ps.length then some (update ps i Particle.makeUnmovable) else none)
      ps = some qs) :
    qs.length = ps.length ∧ (∀ i ∈ is, i < ps.length)
      ∧ ∀ k, qs[k]? = (ps[k]?).map (fun p => if k ∈ is then p.makeUnmovable else p) := by
  induction is generalizing ps with
  | nil =>
    simp only [List.foldlM_nil, Option.pure_def, Option.some.injEq] at h
    subst h
    simp
  | cons i is ih =>
    rw [List.foldlM_cons] at h
    by_cases hi : i < ps.length
    · simp only [hi, if_true, Option.some_bind, Option.bind_eq_bind] at h
      obtain ⟨h1, h2, h3⟩ := ih _ h
      rw [update_length] at h1 h2
      refine ⟨h1, ?_, ?_⟩
      · intro j hj
        rcases List.mem_cons.mp hj with rfl | hj
        · exact hi
        · exact h2 j hj
      · intro k
        rw [h3 k, update_get]
        by_cases hik : i = k
        · subst hik
          cases hp : ps[i]? with
          | none => simp
          | some p => by_cases hm : i ∈ is <;> simp [hm, Particle.makeUnmovable]
        · have hki : ¬ k = i := fun e => hik e.symm
          cases hp : ps[k]? with
          | none => simp [hik]
          | some p => simp [hik, hki]
    · simp [hi] at h

theorem Flag.new_eq_some {K : Type} [Field K] {sqrt : K → K} {width height : K} {w h : Nat}
    {f : Flag K} (hf : Flag.new sqrt width height w h = some f) :
    w ≠ 0 ∧ f.num_particles_width = w ∧ f.num_particles_height = h
      ∧ f.constraints = Flag.buildConstraints sqrt (Flag.placeParticles width height w h) w h
      ∧ f.flag_vertices = []
      ∧ Flag.pinLoop w (Flag.placeParticles width height w h) = some f.particles := by
  unfold Flag.new at hf
  by_cases hw : w = 0
  · simp [hw] at hf
  · simp only [hw, if_false, Option.map_eq_some'] at hf
    obtain ⟨ps, hps, rfl⟩ := hf
    exact ⟨hw, rfl, rfl, rfl, rfl, hps⟩

/-- Particles of a constructed flag: the placed particle, made unmovable when its index
is one the pinning loop visits. -/
theorem Flag.new_particle {K : Type} [Field K] {sqrt : K → K} {width height : K} {w h : Nat}
    {f : Flag K} (hf : Flag.new sqrt width height w h = some f) {x y : Nat}
    (hx : x < w) (hy : y < h) :
    f.particles[getParticle w x y]?
      = some (if getParticle w x y ∈ Flag.pinIndices w
          then (Particle.new (Flag.restPos width height w h x y) (1 / 10000)).makeUnmovable
          else Particle.new (Flag.restPos width height w h x y) (1 / 10000)) := by
  obtain ⟨-, -, -, -, -, hpin⟩ := Flag.new_eq_some hf
  obtain ⟨-, -, h3⟩ := pin_foldlM_spec _ _ _ hpin
  rw [h3, Flag.placeParticles_get width height w h x y hx hy]
  simp only [Option.map_some']

/-! ## Rest positions -/

/-- C9 (counterexample): on the 2 x 2 flag of width 1 the particle of column
columns-1 = 1, row 0 has x-coordinate 1/2, not the width 1. -/
theorem Flag.new_last_column_not_width :
    ∃ f, Flag.new Rat.sqrt (1 : ℚ) 1 2 2 = some f
      ∧ (deref f.particles (getParticle 2 (2 - 1) 0)).pos.f0 = 1 / 2
      ∧ (deref f.particles (getParticle 2 (2 - 1) 0)).pos.f0 ≠ 1 := by
  have hf : Flag.new Rat.sqrt (1 : ℚ) 1 2 2 = some squareFlag := rfl
  have hp := Flag.new_particle hf (x := 1) (y := 0) (by decide) (by decide)
  have hv : (deref squareFlag.particles (getParticle 2 (2 - 1) 0)).pos.f0 = 1 / 2 := by
    rw [deref_of_get hp]
    have hnot : getParticle 2 1 0 ∉ Flag.pinIndices 2 := by decide
    rw [if_neg hnot]
    simp [Particle.new, Flag.restPos]
  exact ⟨squareFlag, hf, hv, by rw [hv]; norm_num⟩

/-- C9 (amended): the constructor stores the particle of grid coordinate (x, y) at index
y*columns + x, at position (width*x/columns, height*y/rows, 0), for every width, height,
columns and rows, also in the flag it returns. Column 0 has x-coordinate 0 and row 0 has
y-coordinate 0; column columns-1 has x-coordinate width - width/columns and row rows-1 has
y-coordinate height - height/rows. -/
theorem Flag.new_rest_positions {K : Type} [LinearOrderedField K] (sqrt : K → K)
    (width height : K) (w h x y : Nat) (hx : x < w) (hy : y < h) :
    (Flag.placeParticles width height w h)[y * w + x]?
        = some (Particle.new ⟨width * ((x : K) / (w : K)), height * ((y : K) / (h : K)), 0⟩
            (1 / 10000))
      ∧ (∀ f, Flag.new sqrt width height w h = some f →
          ∃ p, f.particles[y * w + x]? = some p
            ∧ p.pos = ⟨width * ((x : K) / (w : K)), height * ((y : K) / (h : K)), 0⟩)
      ∧ (x = 0 → width * ((x : K) / (w : K)) = 0)
      ∧ (y = 0 → height * ((y : K) / (h : K)) = 0)
      ∧ (x = w - 1 → width * ((x : K) / (w : K)) = width - width / (w : K))
      ∧ (y = h - 1 → height * ((y : K) / (h : K)) = height - height / (h : K)) := by
  have hw : (w : K) ≠ 0 := Nat.cast_ne_zero.mpr (by omega)
  have hh : (h : K) ≠ 0 := Nat.cast_ne_zero.mpr (by omega)
  refine ⟨Flag.placeParticles_get width height w h x y hx hy, ?_, ?_, ?_, ?_, ?_⟩
  · intro f hf
    have hp := Flag.new_particle hf hx hy
    refine ⟨_, hp, ?_⟩
    split <;> rfl
  · intro h0; simp [h0]
  · intro h0; simp [h0]
  · intro h1
    have hc : (x : K) = (w : K) - 1 := by
      rw [h1, Nat.cast_sub (by omega)]; simp
    rw [hc]; field_simp; ring
  · intro h1
    have hc : (y : K) = (h : K) - 1 := by
      rw [h1, Nat.cast_sub (by omega)]; simp
    rw [hc]; field_simp; ring

/-- Witness for C9: column 1 of row 0 on a 2 x 2 grid of width 3 and height 5 over the
rationals. -/
theorem Flag.new_rest_positions_witness :
    1 < 2 ∧ 0 < 2
      ∧ (Flag.placeParticles (3 : ℚ) 5 2 2)[0 * 2 + 1]?
          = some (Particle.new
              ⟨3 * (((1 : ℕ) : ℚ) / ((2 : ℕ) : ℚ)), 5 * (((0 : ℕ) : ℚ) / ((2 : ℕ) : ℚ)), 0⟩
              (1 / 10000)) :=
  ⟨by decide, by decide,
    (Flag.new_rest_positions Rat.sqrt (3 : ℚ) 5 2 2 1 0 (by decide) (by decide)).1⟩

/-! ## The constraint network -/

theorem Flag.connectImmediate_eq {K : Type} [Field K] (sqrt : K → K) (ps : List (Particle K))
    (w h : Nat) (cs : List (Constraint K)) (xy : Nat × Nat) :
    Flag.connectImmediate sqrt ps w h cs xy
      = cs ++ (cellLinks 1 w h xy).map (linkConstraint sqrt ps w) := by
  unfold Flag.connectImmediate cellLinks
  by_cases h1 : xy.1 < w - 1 <;> by_cases h2 : xy.2 < h - 1 <;>
    simp [h1, h2, Flag.makeConstraint, linkConstraint]

theorem Flag.connectSecondary_eq {K : Type} [Field K] (sqrt : K → K) (ps : List (Particle K))
    (w h : Nat) (cs : List (Constraint K)) (xy : Nat × Nat) :
    Flag.connectSecondary sqrt ps w h cs xy
      = cs ++ (cellLinks 2 w h xy).map (linkConstraint sqrt ps w) := by
  unfold Flag.connectSecondary cellLinks
  by_cases h1 : xy.1 < w - 2 <;> by_cases h2 : xy.2 < h - 2 <;>
    simp [h1, h2, Flag.makeConstraint, linkConstraint]

theorem foldl_append_flatMap {α β γ : Type} (step : List γ → α → List γ) (gen : α → List β)
    (mk : β → γ) (hstep : ∀ cs a, step cs a = cs ++ (gen a).map mk) (l : List α)
    (cs : List γ) : l.foldl step cs = cs ++ (l.flatMap gen).map mk := by
  induction l generalizing cs with
  | nil => simp
  | cons a l ih => simp [ih, hstep, List.flatMap_cons]

theorem Flag.buildConstraints_eq {K : Type} [Field K] (sqrt : K → K) (ps : List (Particle K))
    (w h : Nat) :
    Flag.buildConstraints sqrt ps w h = (gridLinks w h).map (linkConstraint sqrt ps w) := by
  unfold Flag.buildConstraints gridLinks
  rw [foldl_append_flatMap _ _ _ (Flag.connectSecondary_eq sqrt ps w h),
    foldl_append_flatMap _ _ _ (Flag.connectImmediate_eq sqrt ps w h)]
  simp

theorem mem_cellLinks {d w h : Nat} {xy : Nat × Nat} {l : Link} :
    l ∈ cellLinks d w h xy ↔
      (xy.1 < w - d ∧ l = ((xy.1, xy.2), (xy.1 + d, xy.2)))
      ∨ (xy.2 < h - d ∧ l = ((xy.1, xy.2), (xy.1, xy.2 + d)))
      ∨ (xy.1 < w - d ∧ xy.2 < h - d ∧ l = ((xy.1, xy.2), (xy.1 + d, xy.2 + d)))
      ∨ (xy.1 < w - d ∧ xy.2 < h - d ∧ l = ((xy.1 + d, xy.2), (xy.1, xy.2 + d))) := by
  unfold cellLinks
  by_cases h1 : xy.1 < w - d <;> by_cases h2 : xy.2 < h - d <;> simp [h1, h2]

theorem cellLinks_cell {d w h : Nat} (hd : 0 < d) {a b : Nat × Nat} {l : Link}
    (ha : l ∈ cellLinks d w h a) (hb : l ∈ cellLinks d w h b) : a = b := by
  obtain ⟨x, y⟩ := a
  obtain ⟨x', y'⟩ := b
  obtain ⟨⟨l1, l2⟩, ⟨l3, l4⟩⟩ := l
  rw [mem_cellLinks] at ha hb
  simp only [Prod.mk.injEq] at ha hb ⊢
  omega

theorem nodup_cellLinks {d w h : Nat} (hd : 0 < d) (xy : Nat × Nat) :
    (cellLinks d w h xy).Nodup := by
  obtain ⟨x, y⟩ := xy
  unfold cellLinks
  by_cases h1 : x < w - d <;> by_cases h2 : y < h - d <;> simp [h1, h2]
  omega

theorem nodup_flatMap_cellLinks {d w h : Nat} (hd : 0 < d) :
    ((gridLoop w h).flatMap (cellLinks d w h)).Nodup := by
  rw [List.nodup_flatMap]
  refine ⟨fun xy _ => nodup_cellLinks hd xy, ?_⟩
  refine List.Pairwise.imp_of_mem ?_ (nodup_gridLoop w h)
  intro a b _ _ hab l ha hb
  exact hab (cellLinks_cell hd ha hb)
theorem mem_flatMap_cellLinks {d w h : Nat} {l : Link} :
    l ∈ (gridLoop w h).flatMap (cellLinks d w h) ↔
      ∃ x y, x < w ∧ y < h ∧
        ((x < w - d ∧ l = ((x, y), (x + d, y)))
        ∨ (y < h - d ∧ l = ((x, y), (x, y + d)))
        ∨ (x < w - d ∧ y < h - d ∧ l = ((x, y), (x + d, y + d)))
        ∨ (x < w - d ∧ y < h - d ∧ l = ((x + d, y), (x, y + d)))) := by
  rw [List.mem_flatMap]
  constructor
  · rintro ⟨⟨x, y⟩, hxy, hl⟩
    have hb := mem_gridLoop.mp hxy
    exact ⟨x, y, hb.1, hb.2, mem_cellLinks.mp hl⟩
  · rintro ⟨x, y, hx, hy, hl⟩
    exact ⟨(x, y), mem_gridLoop.mpr ⟨hx, hy⟩, mem_cellLinks.mpr hl⟩

theorem mem_gridLinks {w h : Nat} {l : Link} :
    l ∈ gridLinks w h ↔
      ∃ d, (d = 1 ∨ d = 2) ∧ ∃ x y, x < w ∧ y < h ∧
        ((x < w - d ∧ l = ((x, y), (x + d, y)))
        ∨ (y < h - d ∧ l = ((x, y), (x, y + d)))
        ∨ (x < w - d ∧ y < h - d ∧ l = ((x, y), (x + d, y + d)))
        ∨ (x < w - d ∧ y < h - d ∧ l = ((x + d, y), (x, y + d)))) := by
  unfold gridLinks
  rw [List.mem_append, mem_flatMap_cellLinks, mem_flatMap_cellLinks]
  constructor
  · rintro (h1 | h2)
    · exact ⟨1, Or.inl rfl, h1⟩
    · exact ⟨2, Or.inr rfl, h2⟩
  · rintro ⟨d, rfl | rfl, hd⟩
    · exact Or.inl hd
    · exact Or.inr hd

theorem nodup_gridLinks (w h : Nat) : (gridLinks w h).Nodup := by
  unfold gridLinks
  rw [List.nodup_append]
  refine ⟨nodup_flatMap_cellLinks (by decide), nodup_flatMap_cellLinks (by decide), ?_⟩
  intro l h1 h2
  obtain ⟨⟨l1, l2⟩, ⟨l3, l4⟩⟩ := l
  obtain ⟨x, y, -, -, hl⟩ := mem_flatMap_cellLinks.mp h1
  obtain ⟨x', y', -, -, hl'⟩ := mem_flatMap_cellLinks.mp h2
  simp only [Prod.mk.injEq] at hl hl'
  omega

/-- Shape of a link: both ends are in the grid, and the second end is at offset (d,0),
(0,d), (d,d) from the first, or the first at offset (d,-d) from the second. -/
theorem gridLinks_shape {w h : Nat} {l : Link} (hl : l ∈ gridLinks w h) :
    l.1.1 < w ∧ l.1.2 < h ∧ l.2.1 < w ∧ l.2.2 < h ∧
      ∃ d, (d = 1 ∨ d = 2) ∧
        ((l.2.1 = l.1.1 + d ∧ l.2.2 = l.1.2) ∨ (l.2.1 = l.1.1 ∧ l.2.2 = l.1.2 + d)
          ∨ (l.2.1 = l.1.1 + d ∧ l.2.2 = l.1.2 + d)
          ∨ (l.1.1 = l.2.1 + d ∧ l.2.2 = l.1.2 + d)) := by
  obtain ⟨⟨l1, l2⟩, ⟨l3, l4⟩⟩ := l
  obtain ⟨d, hd, x, y, hx, hy, hc⟩ := mem_gridLinks.mp hl
  simp only [Prod.mk.injEq] at hc
  refine ⟨?_, ?_, ?_, ?_, d, hd, ?_⟩ <;> simp only <;> omega

theorem gridLinks_swap_not_mem {w h : Nat} {l : Link} (hl : l ∈ gridLinks w h) :
    (l.2, l.1) ∉ gridLinks w h := by
  intro hs
  obtain ⟨-, -, -, -, d, hd, hc⟩ := gridLinks_shape hl
  obtain ⟨-, -, -, -, d', hd', hc'⟩ := gridLinks_shape hs
  simp only at hc'
  omega

theorem gridLinks_of_offset {w h x1 y1 x2 y2 d : Nat} (hx1 : x1 < w) (hy1 : y1 < h)
    (hx2 : x2 < w) (hy2 : y2 < h) (hd : d = 1 ∨ d = 2)
    (hoff : (x2 = x1 + d ∧ y2 = y1) ∨ (x2 = x1 ∧ y2 = y1 + d) ∨ (x2 = x1 + d ∧ y2 = y1 + d)
      ∨ (x2 = x1 + d ∧ y1 = y2 + d)) :
    ((x1, y1), (x2, y2)) ∈ gridLinks w h ∨ ((x2, y2), (x1, y1)) ∈ gridLinks w h := by
  rcases hoff with ho | ho | ho | ho
  · left
    exact mem_gridLinks.mpr ⟨d, hd, x1, y1, hx1, hy1,
      Or.inl ⟨by omega, by simp; omega⟩⟩
  · left
    exact mem_gridLinks.mpr ⟨d, hd, x1, y1, hx1, hy1,
      Or.inr (Or.inl ⟨by omega, by simp; omega⟩)⟩
  · left
    exact mem_gridLinks.mpr ⟨d, hd, x1, y1, hx1, hy1,
      Or.inr (Or.inr (Or.inl ⟨by omega, by omega, by simp; omega⟩))⟩
  · right
    exact mem_gridLinks.mpr ⟨d, hd, x1, y2, hx1, hy2,
      Or.inr (Or.inr (Or.inr ⟨by omega, by omega, by simp; omega⟩))⟩

/-- Among the links, the constraints joining the two ends of a link `s` are exactly the
one made for `s`. -/
theorem joins_linkConstraint_iff {K : Type} [Field K] (sqrt : K → K) (ps : List (Particle K))
    {w h : Nat} {s l : Link} (hs : s ∈ gridLinks w h) (hl : l ∈ gridLinks w h) :
    (linkConstraint sqrt ps w l).joins (getParticle w s.1.1 s.1.2) (getParticle w s.2.1 s.2.2)
        = true ↔ l = s := by
  obtain ⟨s1, s2, s3, s4, -⟩ := gridLinks_shape hs
  obtain ⟨l1, l2, l3, l4, -⟩ := gridLinks_shape hl
  unfold Constraint.joins linkConstraint Constraint.new
  simp only [decide_eq_true_eq]
  constructor
  · rintro (⟨h1, h2⟩ | ⟨h1, h2⟩)
    · obtain ⟨e1, e2⟩ := getParticle_inj l1 s1 h1
      obtain ⟨e3, e4⟩ := getParticle_inj l3 s3 h2
      exact Prod.ext (Prod.ext e1 e2) (Prod.ext e3 e4)
    · obtain ⟨e1, e2⟩ := getParticle_inj l1 s3 h1
      obtain ⟨e3, e4⟩ := getParticle_inj l3 s1 h2
      have : l = (s.2, s.1) := Prod.ext (Prod.ext e1 e2) (Prod.ext e3 e4)
      exact absurd (this ▸ hl) (gridLinks_swap_not_mem hs)
  · rintro rfl
    exact Or.inl ⟨rfl, rfl⟩

theorem countP_joins_link {K : Type} [Field K] (sqrt : K → K) (ps : List (Particle K))
    {w h : Nat} {s : Link} (hs : s ∈ gridLinks w h) :
    (Flag.buildConstraints sqrt ps w h).countP
        (fun c => c.joins (getParticle w s.1.1 s.1.2) (getParticle w s.2.1 s.2.2)) = 1 := by
  rw [Flag.buildConstraints_eq, List.countP_map]
  have hcongr : (gridLinks w h).countP
      ((fun c : Constraint K =>
          c.joins (getParticle w s.1.1 s.1.2) (getParticle w s.2.1 s.2.2))
        ∘ linkConstraint sqrt ps w)
      = (gridLinks w h).countP (fun l => decide (l = s)) := by
    apply List.countP_congr
    intro l hl
    simp only [Function.comp_apply, decide_eq_true_eq]
    exact joins_linkConstraint_iff sqrt ps hs hl
  rw [hcongr]
  exact List.count_eq_one_of_mem (nodup_gridLinks w h) hs

theorem joins_comm {K : Type} (c : Constraint K) (i j : Nat) : c.joins i j = c.joins j i := by
  unfold Constraint.joins
  simp only [decide_eq_decide]
  constructor <;> exact Or.symm
/-- C10: every constraint the constructor creates joins two distinct particles whose grid
coordinates are both inside the grid and differ by (d,0), (0,d), (d,d) or (d,-d) with
d = 1 or d = 2; and every pair of grid points inside the grid with such an offset is
joined by exactly one constraint. The constraint vector of the constructed flag is
`Flag.buildConstraints` on the placed particles. -/
theorem Flag.buildConstraints_network {K : Type} [Field K] (sqrt : K → K)
    (ps : List (Particle K)) (w h : Nat) :
    (∀ c ∈ Flag.buildConstraints sqrt ps w h,
      ∃ x1 y1 x2 y2 d, c.p1 = getParticle w x1 y1 ∧ c.p2 = getParticle w x2 y2
        ∧ x1 < w ∧ y1 < h ∧ x2 < w ∧ y2 < h ∧ (d = 1 ∨ d = 2)
        ∧ ((x2 = x1 + d ∧ y2 = y1) ∨ (x2 = x1 ∧ y2 = y1 + d) ∨ (x2 = x1 + d ∧ y2 = y1 + d)
            ∨ (x1 = x2 + d ∧ y2 = y1 + d))
        ∧ c.p1 ≠ c.p2)
      ∧ (∀ x1 y1 x2 y2 d, x1 < w → y1 < h → x2 < w → y2 < h → (d = 1 ∨ d = 2) →
          ((x2 = x1 + d ∧ y2 = y1) ∨ (x2 = x1 ∧ y2 = y1 + d) ∨ (x2 = x1 + d ∧ y2 = y1 + d)
            ∨ (x2 = x1 + d ∧ y1 = y2 + d)) →
          (Flag.buildConstraints sqrt ps w h).countP
            (fun c => c.joins (getParticle w x1 y1) (getParticle w x2 y2)) = 1) := by
  constructor
  · intro c hc
    rw [Flag.buildConstraints_eq, List.mem_map] at hc
    obtain ⟨l, hl, rfl⟩ := hc
    obtain ⟨b1, b2, b3, b4, d, hd, hoff⟩ := gridLinks_shape hl
    refine ⟨l.1.1, l.1.2, l.2.1, l.2.2, d, rfl, rfl, b1, b2, b3, b4, hd, hoff, ?_⟩
    intro heq
    obtain ⟨e1, e2⟩ := getParticle_inj b1 b3 heq
    omega
  · intro x1 y1 x2 y2 d hx1 hy1 hx2 hy2 hd hoff
    rcases gridLinks_of_offset hx1 hy1 hx2 hy2 hd hoff with hs | hs
    · exact countP_joins_link sqrt ps hs
    · have key := countP_joins_link sqrt ps hs
      simp only [joins_comm _ (getParticle w x1 y1)]
      exact key

/-- Witness for C10: on the 3 x 3 grid the points (0,2) and (2,0), at offset (2,-2), are
joined by exactly one constraint. -/
theorem Flag.buildConstraints_network_witness :
    (Flag.buildConstraints Rat.sqrt (Flag.placeParticles (1 : ℚ) 1 3 3) 3 3).countP
      (fun c => c.joins (getParticle 3 0 2) (getParticle 3 2 0)) = 1 :=
  (Flag.buildConstraints_network Rat.sqrt (Flag.placeParticles (1 : ℚ) 1 3 3) 3 3).2
    0 2 2 0 2 (by decide) (by decide) (by decide) (by decide) (Or.inr rfl)
    (Or.inr (Or.inr (Or.inr ⟨rfl, rfl⟩)))

/-! ## Rest distance -/

theorem deref_eq_getD {K : Type} [Field K] (ps : List (Particle K)) (i : Nat) :
    deref ps i = (ps[i]?).getD default := by
  simp [deref, List.getD]

theorem pinLoop_fields {K : Type} [Field K] {w : Nat} {ps qs : List (Particle K)}
    (h : Flag.pinLoop w ps = some qs) (k : Nat) :
    (deref qs k).pos = (deref ps k).pos ∧ (deref qs k).old_pos = (deref ps k).old_pos
      ∧ (deref qs k).acceleration = (deref ps k).acceleration := by
  obtain ⟨-, -, h3⟩ := pin_foldlM_spec _ _ _ h
  rw [deref_eq_getD, deref_eq_getD, h3 k]
  cases ps[k]? with
  | none => simp
  | some p =>
    simp only [Option.map_some', Option.getD_some]
    split <;> simp [Particle.makeUnmovable]

theorem Flag.call_constraints {K : Type} [Field K] (sqrt : K → K) (f : Flag K) (c : Call K) :
    (f.call sqrt c).constraints = f.constraints := by
  cases c <;> rfl

theorem Flag.run_constraints {K : Type} [Field K] (sqrt : K → K) (calls : List (Call K))
    (f : Flag K) : (f.run sqrt calls).constraints = f.constraints := by
  induction calls generalizing f with
  | nil => rfl
  | cons c cs ih =>
    show ((f.call sqrt c).run sqrt cs).constraints = f.constraints
    rw [ih, Flag.call_constraints]

theorem Flag.new_constraint {K : Type} [Field K] {sqrt : K → K} {width height : K}
    {w h : Nat} {f : Flag K} (hf : Flag.new sqrt width height w h = some f)
    {c : Constraint K} (hc : c ∈ f.constraints) :
    ∃ l ∈ gridLinks w h,
      c = linkConstraint sqrt (Flag.placeParticles width height w h) w l := by
  obtain ⟨-, -, -, hcs, -, -⟩ := Flag.new_eq_some hf
  rw [hcs, Flag.buildConstraints_eq, List.mem_map] at hc
  obtain ⟨l, hl, rfl⟩ := hc
  exact ⟨l, hl, rfl⟩

/-- C4: for every constraint of a constructed flag, `rest_distance` is the Euclidean
distance between the positions of its two endpoint particles at construction, and no
sequence of calls (`satisfyConstraint` on this or any other constraint, or any other
call) changes the constraint vector, hence no rest distance. -/
theorem Flag.rest_distance_invariant (width height : ℝ) (w h : Nat) (f : Flag ℝ)
    (hf : Flag.new Real.sqrt width height w h = some f) (c : Constraint ℝ)
    (hc : c ∈ f.constraints) :
    c.rest_distance
        = Real.sqrt (((deref f.particles c.p1).pos.f0 - (deref f.particles c.p2).pos.f0) ^ 2
            + ((deref f.particles c.p1).pos.f1 - (deref f.particles c.p2).pos.f1) ^ 2
            + ((deref f.particles c.p1).pos.f2 - (deref f.particles c.p2).pos.f2) ^ 2)
      ∧ (∀ cs : List (Constraint ℝ),
          (f.run Real.sqrt (cs.map Call.satisfyConstraint)).constraints = f.constraints)
      ∧ ∀ calls : List (Call ℝ), (f.run Real.sqrt calls).constraints = f.constraints := by
  refine ⟨?_, fun cs => Flag.run_constraints Real.sqrt _ f,
    fun calls => Flag.run_constraints Real.sqrt calls f⟩
  obtain ⟨l, -, rfl⟩ := Flag.new_constraint hf hc
  obtain ⟨-, -, -, -, -, hpin⟩ := Flag.new_eq_some hf
  simp only [linkConstraint, Constraint.new, Vec3.length, Vec3.sub,
    (pinLoop_fields hpin _).1]
  congr 1
  ring

/-- Witness for C4: the first constraint of the 2 x 2 flag of width and height 1. -/
theorem Flag.rest_distance_invariant_witness :
    Flag.new Real.sqrt (1 : ℝ) 1 2 2 = some (unitSquare Real.sqrt)
      ∧ Constraint.new Real.sqrt (Flag.placeParticles (1 : ℝ) 1 2 2) 0 1
          ∈ (unitSquare Real.sqrt).constraints
      ∧ (Constraint.new Real.sqrt (Flag.placeParticles (1 : ℝ) 1 2 2) 0 1).rest_distance
          = Real.sqrt
              (((deref (unitSquare Real.sqrt).particles 0).pos.f0
                  - (deref (unitSquare Real.sqrt).particles 1).pos.f0) ^ 2
                + ((deref (unitSquare Real.sqrt).particles 0).pos.f1
                  - (deref (unitSquare Real.sqrt).particles 1).pos.f1) ^ 2
                + ((deref (unitSquare Real.sqrt).particles 0).pos.f2
                  - (deref (unitSquare Real.sqrt).particles 1).pos.f2) ^ 2) :=
  ⟨rfl, List.Mem.head _,
    (Flag.rest_distance_invariant 1 1 2 2 (unitSquare Real.sqrt) rfl
      (Constraint.new Real.sqrt (Flag.placeParticles (1 : ℝ) 1 2 2) 0 1)
      (List.Mem.head _)).1⟩

/-! ## Equilibrium of the flat grid -/

theorem update_self {K : Type} [Field K] (ps : List (Particle K)) (i : Nat)
    (g : Particle K → Particle K) (hg : ∀ p, g p = p) : update ps i g = ps := by
  apply List.ext_getElem?
  intro k
  rw [update_get]
  split
  · cases ps[k]? <;> simp [hg]
  · rfl

theorem Particle.offsetPos_zero {K : Type} [Field K] (p : Particle K) :
    p.offsetPos ⟨0, 0, 0⟩ = p := by
  unfold Particle.offsetPos
  split
  · cases p; simp [Vec3.add]
  · rfl

theorem Constraint.satisfyConstraint_at_rest {K : Type} [Field K] (sqrt : K → K)
    (c : Constraint K) (ps : List (Particle K))
    (hr : c.rest_distance = ((deref ps c.p2).pos.sub (deref ps c.p1).pos).length sqrt)
    (hne : c.rest_distance ≠ 0) : c.satisfyConstraint sqrt ps = ps := by
  unfold Constraint.satisfyConstraint
  simp only [← hr, div_self hne, sub_self, Vec3.mul, mul_zero, zero_mul, Vec3.neg, neg_zero]
  rw [update_self _ _ _ Particle.offsetPos_zero, update_self _ _ _ Particle.offsetPos_zero]

theorem Particle.timeStep_at_rest {K : Type} [Field K] (p : Particle K)
    (hold : p.old_pos = p.pos) (hacc : p.acceleration = Vec3.zero) : p.timeStep = p := by
  unfold Particle.timeStep
  split
  · cases p
    simp only at hold hacc
    subst hold hacc
    simp [Vec3.add, Vec3.sub, Vec3.mul, Vec3.zero]
  · rfl

theorem Flag.relaxPass_at_rest {K : Type} [Field K] (sqrt : K → K) (cs : List (Constraint K))
    (ps : List (Particle K))
    (hcs : ∀ c ∈ cs,
      c.rest_distance = ((deref ps c.p2).pos.sub (deref ps c.p1).pos).length sqrt
        ∧ c.rest_distance ≠ 0) :
    Flag.relaxPass sqrt cs ps = ps := by
  unfold Flag.relaxPass
  induction cs with
  | nil => rfl
  | cons c cs ih =>
    rw [List.foldl_cons,
      Constraint.satisfyConstraint_at_rest sqrt c ps (hcs c (List.mem_cons_self c cs)).1
        (hcs c (List.mem_cons_self c cs)).2]
    exact ih (fun d hd => hcs d (List.mem_cons_of_mem c hd))

theorem foldl_const_fixed {α β : Type} (step : α → α) (a : α) (hfix : step a = a)
    (l : List β) : l.foldl (fun s _ => step s) a = a := by
  induction l with
  | nil => rfl
  | cons b l ih => rw [List.foldl_cons, hfix]; exact ih

theorem Flag.timeStep_identity_at_rest {K : Type} [Field K] (sqrt : K → K) (f : Flag K)
    (hcs : ∀ c ∈ f.constraints,
      c.rest_distance
          = ((deref f.particles c.p2).pos.sub (deref f.particles c.p1).pos).length sqrt
        ∧ c.rest_distance ≠ 0)
    (hps : ∀ p ∈ f.particles, p.old_pos = p.pos ∧ p.acceleration = Vec3.zero) :
    f.timeStep sqrt = f := by
  unfold Flag.timeStep
  rw [foldl_const_fixed (Flag.relaxPass sqrt f.constraints) f.particles
    (Flag.relaxPass_at_rest sqrt _ _ hcs)]
  have hmap : f.particles.map Particle.timeStep = f.particles := by
    conv_rhs => rw [← List.map_id f.particles]
    apply List.map_congr_left
    intro p hp
    exact Particle.timeStep_at_rest p (hps p hp).1 (hps p hp).2
  simp only [hmap]

theorem iterate_fixed {α : Type} (g : α → α) (a : α) (hfix : g a = a) (n : Nat) :
    g^[n] a = a := by
  induction n with
  | zero => rfl
  | succ n ih => rw [Function.iterate_succ_apply, hfix, ih]
theorem index_decompose {w h k : Nat} (hk : k < w * h) :
    k % w < w ∧ k / w < h ∧ getParticle w (k % w) (k / w) = k := by
  have hw : 0 < w := by
    rcases Nat.eq_zero_or_pos w with h0 | h0
    · subst h0; simp at hk
    · exact h0
  exact ⟨Nat.mod_lt k hw, Nat.div_lt_of_lt_mul hk, Nat.div_add_mod' k w⟩

theorem Flag.mem_placeParticles {K : Type} [Field K] (width height : K) (w h : Nat)
    (p : Particle K) (hp : p ∈ Flag.placeParticles width height w h) :
    ∃ r m, p = Particle.new r m := by
  obtain ⟨k, hk, rfl⟩ := List.mem_iff_getElem.mp hp
  rw [Flag.length_placeParticles] at hk
  obtain ⟨h1, h2, h3⟩ := index_decompose hk
  have hget := Flag.placeParticles_get width height w h _ _ h1 h2
  rw [h3, List.getElem?_eq_getElem (by rw [Flag.length_placeParticles]; exact hk)] at hget
  exact ⟨_, _, Option.some.inj hget⟩

theorem Flag.new_particles_at_rest {K : Type} [Field K] {sqrt : K → K} {width height : K}
    {w h : Nat} {f : Flag K} (hf : Flag.new sqrt width height w h = some f) :
    ∀ p ∈ f.particles, p.old_pos = p.pos ∧ p.acceleration = Vec3.zero := by
  intro p hp
  obtain ⟨-, -, -, -, -, hpin⟩ := Flag.new_eq_some hf
  obtain ⟨-, -, h3⟩ := pin_foldlM_spec _ _ _ hpin
  obtain ⟨k, hk⟩ := List.mem_iff_getElem?.mp hp
  rw [h3 k] at hk
  cases hq : (Flag.placeParticles width height w h)[k]? with
  | none => rw [hq] at hk; simp at hk
  | some q =>
    rw [hq] at hk
    simp only [Option.map_some', Option.some.injEq] at hk
    obtain ⟨r, m, rfl⟩ := Flag.mem_placeParticles width height w h q
      (List.mem_iff_getElem?.mpr ⟨k, hq⟩)
    subst hk
    split <;> simp [Particle.new, Particle.makeUnmovable]

theorem Flag.deref_placeParticles {K : Type} [Field K] (width height : K) {w h x y : Nat}
    (hx : x < w) (hy : y < h) :
    (deref (Flag.placeParticles width height w h) (getParticle w x y)).pos
      = Flag.restPos width height w h x y := by
  rw [deref_of_get (Flag.placeParticles_get width height w h x y hx hy)]
  rfl

theorem Vec3.length_sub_comm {K : Type} [Field K] (sqrt : K → K) (a b : Vec3 K) :
    (a.sub b).length sqrt = (b.sub a).length sqrt := by
  unfold Vec3.length Vec3.sub
  congr 1
  ring

theorem Flag.restPos_apart (width height : ℝ) (hW : 0 < width) (hH : 0 < height)
    {w h x1 y1 x2 y2 : Nat} (hx1 : x1 < w) (hy1 : y1 < h)
    (hne : x1 ≠ x2 ∨ y1 ≠ y2) :
    ((Flag.restPos width height w h x1 y1).sub
        (Flag.restPos width height w h x2 y2)).length Real.sqrt ≠ 0 := by
  have hw : (w : ℝ) ≠ 0 := Nat.cast_ne_zero.mpr (by omega)
  have hh : (h : ℝ) ≠ 0 := Nat.cast_ne_zero.mpr (by omega)
  unfold Vec3.length Vec3.sub Flag.restPos
  simp only
  rw [Real.sqrt_ne_zero']
  have hxne : x1 ≠ x2 → width * ((x1 : ℝ) / w) - width * ((x2 : ℝ) / w) ≠ 0 := by
    intro hx h0
    have h1 : (x1 : ℝ) / w = (x2 : ℝ) / w := mul_left_cancel₀ hW.ne' (sub_eq_zero.mp h0)
    exact hx (Nat.cast_injective ((div_left_inj' hw).mp h1))
  have hyne : y1 ≠ y2 → height * ((y1 : ℝ) / h) - height * ((y2 : ℝ) / h) ≠ 0 := by
    intro hy h0
    have h1 : (y1 : ℝ) / h = (y2 : ℝ) / h := mul_left_cancel₀ hH.ne' (sub_eq_zero.mp h0)
    exact hy (Nat.cast_injective ((div_left_inj' hh).mp h1))
  rcases hne with hx | hy
  · have := mul_self_pos.mpr (hxne hx)
    have := mul_self_nonneg (height * ((y1 : ℝ) / h) - height * ((y2 : ℝ) / h))
    have := mul_self_nonneg ((0 : ℝ) - 0)
    linarith
  · have := mul_self_pos.mpr (hyne hy)
    have := mul_self_nonneg (width * ((x1 : ℝ) / w) - width * ((x2 : ℝ) / w))
    have := mul_self_nonneg ((0 : ℝ) - 0)
    linarith

theorem Flag.new_constraints_at_rest (width height : ℝ) (hW : 0 < width) (hH : 0 < height)
    {w h : Nat} {f : Flag ℝ} (hf : Flag.new Real.sqrt width height w h = some f) :
    ∀ c ∈ f.constraints,
      c.rest_distance
          = ((deref f.particles c.p2).pos.sub (deref f.particles c.p1).pos).length Real.sqrt
        ∧ c.rest_distance ≠ 0 := by
  intro c hc
  obtain ⟨l, hl, rfl⟩ := Flag.new_constraint hf hc
  obtain ⟨-, -, -, -, -, hpin⟩ := Flag.new_eq_some hf
  obtain ⟨b1, b2, b3, b4, d, hd, hoff⟩ := gridLinks_shape hl
  have hrest : (linkConstraint Real.sqrt (Flag.placeParticles width height w h) w l).rest_distance
      = ((Flag.restPos width height w h l.1.1 l.1.2).sub
          (Flag.restPos width height w h l.2.1 l.2.2)).length Real.sqrt := by
    simp only [linkConstraint, Constraint.new, Flag.deref_placeParticles width height b1 b2,
      Flag.deref_placeParticles width height b3 b4]
  refine ⟨?_, ?_⟩
  · rw [hrest]
    simp only [linkConstraint, Constraint.new, (pinLoop_fields hpin _).1,
      Flag.deref_placeParticles width height b1 b2,
      Flag.deref_placeParticles width height b3 b4]
    exact Vec3.length_sub_comm Real.sqrt _ _
  · rw [hrest]
    exact Flag.restPos_apart width height hW hH b1 b2 (by omega)

/-- C5: on a freshly constructed flat grid of positive width and height, with no force
applied, any number n of `Flag::timeStep` calls leaves the whole particle vector as
constructed; the particle of grid coordinate (x, y) is still at its construction-time
position (width*x/columns, height*y/rows, 0). -/
theorem Flag.flat_grid_equilibrium (width height : ℝ) (w h : Nat) (f : Flag ℝ)
    (hW : 0 < width) (hH : 0 < height)
    (hf : Flag.new Real.sqrt width height w h = some f) (n : Nat) :
    ((Flag.timeStep Real.sqrt)^[n] f).particles = f.particles
      ∧ ∀ x y, x < w → y < h →
          (deref ((Flag.timeStep Real.sqrt)^[n] f).particles (getParticle w x y)).pos
            = ⟨width * ((x : ℝ) / (w : ℝ)), height * ((y : ℝ) / (h : ℝ)), 0⟩ := by
  have hfix : Flag.timeStep Real.sqrt f = f :=
    Flag.timeStep_identity_at_rest Real.sqrt f (Flag.new_constraints_at_rest width height hW hH hf)
      (Flag.new_particles_at_rest hf)
  rw [iterate_fixed _ f hfix n]
  refine ⟨rfl, ?_⟩
  intro x y hx hy
  obtain ⟨-, -, -, -, -, hpin⟩ := Flag.new_eq_some hf
  rw [(pinLoop_fields hpin _).1, Flag.deref_placeParticles width height hx hy]
  rfl

/-- Witness for C5: three time steps of the 2 x 2 flag of width and height 1. -/
theorem Flag.flat_grid_equilibrium_witness :
    (0 : ℝ) < 1 ∧ Flag.new Real.sqrt (1 : ℝ) 1 2 2 = some (unitSquare Real.sqrt)
      ∧ ((Flag.timeStep Real.sqrt)^[3] (unitSquare Real.sqrt)).particles
          = (unitSquare Real.sqrt).particles :=
  ⟨one_pos, rfl,
    (Flag.flat_grid_equilibrium 1 1 2 2 (unitSquare Real.sqrt) one_pos one_pos rfl 3).1⟩

/-! ## One relaxation of a stretched constraint -/

theorem deref_cons_zero {K : Type} [Field K] (p : Particle K) (ps : List (Particle K)) :
    deref (p :: ps) 0 = p := rfl

theorem deref_cons_succ {K : Type} [Field K] (p : Particle K) (ps : List (Particle K))
    (i : Nat) : deref (p :: ps) (i + 1) = deref ps i := rfl

theorem update_cons_zero {K : Type} [Field K] (p : Particle K) (ps : List (Particle K))
    (g : Particle K → Particle K) : update (p :: ps) 0 g = g p :: ps := by
  simp [update]

theorem update_cons_succ {K : Type} [Field K] (p : Particle K) (ps : List (Particle K))
    (i : Nat) (g : Particle K → Particle K) :
    update (p :: ps) (i + 1) g = p :: update ps i g := by
  unfold update
  simp only [List.getElem?_cons_succ]
  cases ps[i]? <;> rfl

theorem sqrt_four_sq : Real.sqrt ((2 - 0) * (2 - 0) + (0 - 0) * (0 - 0) + (0 - 0) * (0 - 0))
    = 2 := by
  rw [Real.sqrt_eq_iff_mul_self_eq_of_pos (by norm_num)]
  norm_num

theorem stretchedPair_dist :
    ((deref (stretchedPair ℝ) 1).pos.sub (deref (stretchedPair ℝ) 0).pos).length Real.sqrt
      = 2 * 1 := by
  simp only [stretchedPair, deref_cons_zero, deref_cons_succ, Particle.new, Vec3.sub,
    Vec3.length]
  rw [sqrt_four_sq]
  norm_num

theorem Constraint.relax_stretchedPair :
    (unitConstraint ℝ).satisfyConstraint Real.sqrt (stretchedPair ℝ)
      = [{ Particle.new (⟨0, 0, 0⟩ : Vec3 ℝ) (1 / 10000) with pos := ⟨1 / 2, 0, 0⟩ },
         { Particle.new (⟨2, 0, 0⟩ : Vec3 ℝ) (1 / 10000) with pos := ⟨3 / 2, 0, 0⟩ }] := by
  simp only [Constraint.satisfyConstraint, unitConstraint, stretchedPair, deref_cons_zero,
    deref_cons_succ, Particle.new, Vec3.sub, Vec3.length, sqrt_four_sq, update_cons_zero,
    update_cons_succ, Particle.offsetPos, if_true, Vec3.mul, Vec3.neg, Vec3.add]
  norm_num

/-- C6 (counterexample): a constraint of rest distance 1 between free particles at
(0,0,0) and (2,0,0), which are 2 = 2*1 apart. One `satisfyConstraint` call moves the
first particle to (1/2,0,0), a displacement of length 1/2, which is half of the excess
2*1 - 1 and not a quarter of it. -/
theorem Constraint.satisfyConstraint_not_quarter :
    ((deref (stretchedPair ℝ) 1).pos.sub (deref (stretchedPair ℝ) 0).pos).length Real.sqrt
        = 2 * (unitConstraint ℝ).rest_distance
      ∧ (deref ((unitConstraint ℝ).satisfyConstraint Real.sqrt (stretchedPair ℝ)) 0).pos
        = ⟨1 / 2, 0, 0⟩
      ∧ ((deref ((unitConstraint ℝ).satisfyConstraint Real.sqrt (stretchedPair ℝ)) 0).pos.sub
            (deref (stretchedPair ℝ) 0).pos).length Real.sqrt
          ≠ (2 * (unitConstraint ℝ).rest_distance - (unitConstraint ℝ).rest_distance) / 4 := by
  refine ⟨stretchedPair_dist, ?_, ?_⟩
  · rw [Constraint.relax_stretchedPair]
    rfl
  · rw [Constraint.relax_stretchedPair]
    simp only [stretchedPair, unitConstraint, deref_cons_zero, Particle.new, Vec3.sub,
      Vec3.length]
    have h : Real.sqrt ((1 / 2 - 0) * (1 / 2 - 0) + (0 - 0) * (0 - 0) + (0 - 0) * (0 - 0))
        = 1 / 2 := by
      rw [Real.sqrt_eq_iff_mul_self_eq_of_pos (by norm_num)]
      norm_num
    rw [h]
    norm_num
theorem Constraint.satisfyConstraint_get {K : Type} [Field K] (sqrt : K → K)
    (c : Constraint K) (ps : List (Particle K)) (a b : Particle K)
    (ha : ps[c.p1]? = some a) (hb : ps[c.p2]? = some b) (hne : c.p1 ≠ c.p2) :
    (c.satisfyConstraint sqrt ps)[c.p1]?
        = some (a.offsetPos (((b.pos.sub a.pos).mul
            (1 - c.rest_distance / (b.pos.sub a.pos).length sqrt)).mul (1 / 2)))
      ∧ (c.satisfyConstraint sqrt ps)[c.p2]?
        = some (b.offsetPos (((b.pos.sub a.pos).mul
            (1 - c.rest_distance / (b.pos.sub a.pos).length sqrt)).mul (1 / 2)).neg) := by
  unfold Constraint.satisfyConstraint
  simp only [deref_of_get ha, deref_of_get hb]
  constructor
  · rw [update_get, if_neg (fun e => hne e.symm), update_get, if_pos rfl, ha]
    rfl
  · rw [update_get, if_pos rfl, update_get, if_neg hne, hb]
    rfl

/-- C6 (amended): for a constraint with rest distance r > 0 whose endpoints are 2r apart,
one `satisfyConstraint` call moves each movable endpoint toward the other by exactly half
of the excess distance, (2r - r)/2, and leaves a pinned endpoint where it is; this holds
when one endpoint is pinned and when both are movable. -/
theorem Constraint.satisfyConstraint_stretched (ps : List (Particle ℝ)) (c : Constraint ℝ)
    (a b : Particle ℝ) (hr : 0 < c.rest_distance)
    (ha : ps[c.p1]? = some a) (hb : ps[c.p2]? = some b)
    (hdist : (b.pos.sub a.pos).length Real.sqrt = 2 * c.rest_distance) :
    ∃ a' b', (c.satisfyConstraint Real.sqrt ps)[c.p1]? = some a'
      ∧ (c.satisfyConstraint Real.sqrt ps)[c.p2]? = some b'
      ∧ (a.movable = true →
          a'.pos = a.pos.add (((b.pos.sub a.pos).div (2 * c.rest_distance)).mul
              ((2 * c.rest_distance - c.rest_distance) / 2))
            ∧ (a'.pos.sub a.pos).length Real.sqrt
              = (2 * c.rest_distance - c.rest_distance) / 2)
      ∧ (a.movable = false → a'.pos = a.pos)
      ∧ (b.movable = true →
          b'.pos = b.pos.add (((a.pos.sub b.pos).div (2 * c.rest_distance)).mul
              ((2 * c.rest_distance - c.rest_distance) / 2))
            ∧ (b'.pos.sub b.pos).length Real.sqrt
              = (2 * c.rest_distance - c.rest_distance) / 2)
      ∧ (b.movable = false → b'.pos = b.pos) := by
  obtain ⟨r, i, j⟩ := c
  simp only at hr ha hb hdist ⊢
  have hr0 : r ≠ 0 := hr.ne'
  have hne : i ≠ j := by
    rintro rfl
    rw [ha] at hb
    cases hb
    have h0 : (a.pos.sub a.pos).length Real.sqrt = 0 := by
      simp [Vec3.length, Vec3.sub]
    rw [h0] at hdist
    linarith
  obtain ⟨h1, h2⟩ := Constraint.satisfyConstraint_get Real.sqrt ⟨r, i, j⟩ ps a b ha hb hne
  simp only [hdist] at h1 h2
  have h12 : 1 - r / (2 * r) = 1 / 2 := by field_simp; ring
  rw [h12] at h1 h2
  obtain ⟨am, amass, aold, aacc, anorm, ⟨a0, a1, a2⟩⟩ := a
  obtain ⟨bm, bmass, bold, bacc, bnorm, ⟨b0, b1, b2⟩⟩ := b
  have hS : (b0 - a0) * (b0 - a0) + (b1 - a1) * (b1 - a1) + (b2 - a2) * (b2 - a2)
      = 2 * r * (2 * r) := by
    have := (Real.sqrt_eq_iff_mul_self_eq_of_pos (by linarith : (0 : ℝ) < 2 * r)).mp hdist
    simpa [Vec3.sub] using this.symm
  have hhalf : (0 : ℝ) < (2 * r - r) / 2 := by linarith
  refine ⟨_, _, h1, h2, ?_, ?_, ?_, ?_⟩
  · intro hm
    simp only at hm
    subst hm
    simp only [Particle.offsetPos, if_true, Vec3.add, Vec3.sub, Vec3.mul, Vec3.div,
      Vec3.length, Vec3.mk.injEq]
    refine ⟨⟨?_, ?_, ?_⟩, ?_⟩
    · field_simp; ring
    · field_simp; ring
    · field_simp; ring
    · rw [Real.sqrt_eq_iff_mul_self_eq_of_pos hhalf]
      nlinarith [hS]
  · intro hm
    simp only at hm
    subst hm
    simp [Particle.offsetPos]
  · intro hm
    simp only at hm
    subst hm
    simp only [Particle.offsetPos, if_true, Vec3.add, Vec3.sub, Vec3.mul, Vec3.div,
      Vec3.neg, Vec3.length, Vec3.mk.injEq]
    refine ⟨⟨?_, ?_, ?_⟩, ?_⟩
    · field_simp; ring
    · field_simp; ring
    · field_simp; ring
    · rw [Real.sqrt_eq_iff_mul_self_eq_of_pos hhalf]
      nlinarith [hS]
  · intro hm
    simp only at hm
    subst hm
    simp [Particle.offsetPos]
theorem stretchedPinnedPair_dist :
    ((Particle.new (⟨2, 0, 0⟩ : Vec3 ℝ) (1 / 10000)).pos.sub
        ((Particle.new (⟨0, 0, 0⟩ : Vec3 ℝ) (1 / 10000)).makeUnmovable).pos).length Real.sqrt
      = 2 * (unitConstraint ℝ).rest_distance := by
  simp only [Particle.new, Particle.makeUnmovable, unitConstraint, Vec3.sub, Vec3.length]
  rw [sqrt_four_sq]
  norm_num

/-- Witness for C6: rest distance 1, a pinned particle at the origin and a free particle
at (2,0,0); the pinned one stays, the free one moves by (2*1 - 1)/2. -/
theorem Constraint.satisfyConstraint_stretched_witness :
    (0 : ℝ) < (unitConstraint ℝ).rest_distance
      ∧ (stretchedPinnedPair ℝ)[(unitConstraint ℝ).p1]?
          = some ((Particle.new (⟨0, 0, 0⟩ : Vec3 ℝ) (1 / 10000)).makeUnmovable)
      ∧ (stretchedPinnedPair ℝ)[(unitConstraint ℝ).p2]?
          = some (Particle.new (⟨2, 0, 0⟩ : Vec3 ℝ) (1 / 10000))
      ∧ ∃ a' b' : Particle ℝ,
          ((unitConstraint ℝ).satisfyConstraint Real.sqrt (stretchedPinnedPair ℝ))[0]? = some a'
            ∧ ((unitConstraint ℝ).satisfyConstraint Real.sqrt (stretchedPinnedPair ℝ))[1]?
                = some b'
            ∧ a'.pos = ⟨0, 0, 0⟩
            ∧ (b'.pos.sub ⟨2, 0, 0⟩).length Real.sqrt = (2 * 1 - 1) / 2 :=
  ⟨one_pos, rfl, rfl,
    match Constraint.satisfyConstraint_stretched (stretchedPinnedPair ℝ) (unitConstraint ℝ)
        ((Particle.new (⟨0, 0, 0⟩ : Vec3 ℝ) (1 / 10000)).makeUnmovable)
        (Particle.new (⟨2, 0, 0⟩ : Vec3 ℝ) (1 / 10000)) one_pos rfl rfl
        stretchedPinnedPair_dist with
    | ⟨a', b', h1, h2, _, h4, h5, _⟩ => ⟨a', b', h1, h2, h4 rfl, (h5 rfl).2⟩⟩

/-! ## Normals in the vertex buffer -/

theorem vertexNormals_append {K : Type} (n : Nat) (buf rest : List K)
    (hlen : buf.length = 6 * n) :
    vertexNormals (buf ++ rest) = vertexNormals buf ++ vertexNormals rest := by
  induction n generalizing buf with
  | zero =>
    have : buf = [] := List.length_eq_zero.mp (by simpa using hlen)
    subst this
    simp [vertexNormals]
  | succ n ih =>
    match buf, hlen with
    | a :: b :: c :: d :: e :: f :: buf', hlen =>
      have hlen' : buf'.length = 6 * n := by
        simp only [List.length_cons] at hlen
        omega
      have hstep := ih buf' hlen'
      simp only [List.cons_append, vertexNormals, List.append_eq] at hstep ⊢
      rw [hstep]
    | [], hlen => simp at hlen
    | [_], hlen => simp at hlen; omega
    | [_, _], hlen => simp at hlen; omega
    | [_, _, _], hlen => simp at hlen; omega
    | [_, _, _, _], hlen => simp at hlen; omega
    | [_, _, _, _, _], hlen => simp at hlen; omega

theorem Flag.vertexNormals_emitCell {K : Type} [Field K] (sqrt : K → K) (w : Nat)
    (ps : List (Particle K)) (n : Nat) (buf : List K) (hlen : buf.length = 6 * n)
    (xy : Nat × Nat) :
    vertexNormals (Flag.emitCell sqrt w ps buf xy)
      = vertexNormals buf ++ cellNormals sqrt w ps xy := by
  unfold Flag.emitCell Flag.AddTriangle
  simp only [List.append_assoc]
  rw [vertexNormals_append n buf _ hlen]
  simp [vertexNormals, cellNormals]

theorem Flag.vertexNormals_foldl_emitCell {K : Type} [Field K] (sqrt : K → K) (w : Nat)
    (ps : List (Particle K)) (cells : List (Nat × Nat)) (n : Nat) (buf : List K)
    (hlen : buf.length = 6 * n) :
    vertexNormals (cells.foldl (Flag.emitCell sqrt w ps) buf)
      = vertexNormals buf ++ cells.flatMap (cellNormals sqrt w ps) := by
  induction cells generalizing n buf with
  | nil => simp
  | cons xy cells ih =>
    rw [List.foldl_cons, ih (n + 6) _ (by rw [Flag.length_emitCell, hlen]; ring),
      Flag.vertexNormals_emitCell sqrt w ps n buf hlen]
    simp [List.flatMap_cons]

theorem Flag.vertexNormals_renderBuild {K : Type} [Field K] (sqrt : K → K) (f : Flag K)
    (hbuf : f.flag_vertices = []) :
    vertexNormals (f.renderBuild sqrt).flag_vertices
      = (gridLoop (f.num_particles_width - 1) (f.num_particles_height - 1)).flatMap
          (cellNormals sqrt f.num_particles_width (f.renderNormals sqrt)) := by
  unfold Flag.renderBuild
  simp only [hbuf]
  rw [Flag.vertexNormals_foldl_emitCell sqrt _ _ _ 0 [] rfl]
  simp [vertexNormals]

theorem Vec3.length_normalized (v : Vec3 ℝ) (hv : v ≠ Vec3.zero) :
    (v.normalized Real.sqrt).length Real.sqrt = 1 := by
  obtain ⟨a, b, c⟩ := v
  have hS : 0 < a * a + b * b + c * c := by
    by_contra hneg
    have ha := mul_self_nonneg a
    have hb := mul_self_nonneg b
    have hc := mul_self_nonneg c
    have ha0 : a * a = 0 := by linarith
    have hb0 : b * b = 0 := by linarith
    have hc0 : c * c = 0 := by linarith
    apply hv
    simp only [Vec3.zero, Vec3.mk.injEq]
    exact ⟨mul_self_eq_zero.mp ha0, mul_self_eq_zero.mp hb0, mul_self_eq_zero.mp hc0⟩
  have hl : Real.sqrt (a * a + b * b + c * c) ≠ 0 := Real.sqrt_ne_zero'.mpr hS
  have hll : Real.sqrt (a * a + b * b + c * c) * Real.sqrt (a * a + b * b + c * c)
      = a * a + b * b + c * c := Real.mul_self_sqrt hS.le
  simp only [Vec3.normalized, Vec3.length]
  rw [Real.sqrt_eq_iff_mul_self_eq_of_pos one_pos]
  field_simp
theorem Flag.renderNormals_two_by_two {K : Type} [Field K] (sqrt : K → K)
    (p0 p1 p2 p3 : Particle K) (cs : List (Constraint K)) (buf : List K) :
    Flag.renderNormals sqrt ⟨2, 2, [p0, p1, p2, p3], cs, buf⟩
      = [{ p0 with accumulated_normal :=
            ((Vec3.zero.add (((p0.pos.sub p1.pos).cross (p2.pos.sub p1.pos)).normalized sqrt)).add
              (((p1.pos.sub p3.pos).cross (p2.pos.sub p3.pos)).normalized sqrt)) },
         { p1 with accumulated_normal :=
            Vec3.zero.add (((p0.pos.sub p1.pos).cross (p2.pos.sub p1.pos)).normalized sqrt) },
         { p2 with accumulated_normal :=
            Vec3.zero.add (((p1.pos.sub p3.pos).cross (p2.pos.sub p3.pos)).normalized sqrt) },
         { p3 with accumulated_normal :=
            ((Vec3.zero.add (((p0.pos.sub p1.pos).cross (p2.pos.sub p1.pos)).normalized sqrt)).add
              (((p1.pos.sub p3.pos).cross (p2.pos.sub p3.pos)).normalized sqrt)) }] := by
  have hg : gridLoop (2 - 1) (2 - 1) = [(0, 0)] := rfl
  simp only [Flag.renderNormals, hg, List.foldl, List.map, Flag.accumulateCell, getParticle,
    Nat.zero_mul, Nat.zero_add, Nat.one_mul, Nat.add_zero, Nat.reduceAdd, Nat.reduceMul,
    update_cons_zero, update_cons_succ, deref_cons_zero, deref_cons_succ,
    Particle.addToNormal, Particle.resetNormal, Flag.calcTriangleNormal]

theorem sqrt_four : Real.sqrt 4 = 2 := by
  rw [Real.sqrt_eq_iff_mul_self_eq_of_pos (by norm_num)]
  norm_num

theorem foldedSquare_normals :
    (Flag.renderNormals Real.sqrt (foldedSquare ℝ)).map (fun p => p.accumulated_normal)
      = [⟨0, 0, 0⟩, ⟨0, 0, -1⟩, ⟨0, 0, 1⟩, ⟨0, 0, 0⟩] := by
  unfold foldedSquare
  rw [Flag.renderNormals_two_by_two]
  simp only [List.map, Particle.new, Vec3.sub, Vec3.cross, Vec3.normalized, Vec3.length,
    Vec3.add, Vec3.zero]
  norm_num
  rw [sqrt_four]
  norm_num

theorem flatSquare_normals :
    (Flag.renderNormals Real.sqrt (flatSquare ℝ)).map (fun p => p.accumulated_normal)
      = [⟨0, 0, -2⟩, ⟨0, 0, -1⟩, ⟨0, 0, -1⟩, ⟨0, 0, -2⟩] := by
  unfold flatSquare
  rw [Flag.renderNormals_two_by_two]
  simp only [List.map, Particle.new, Vec3.sub, Vec3.cross, Vec3.normalized, Vec3.length,
    Vec3.add, Vec3.zero]
  norm_num

theorem deref_accumulated_normal {K : Type} [Field K] (ps : List (Particle K)) (i : Nat)
    (hi : i < ps.length) :
    (deref ps i).accumulated_normal
      = ((ps.map (fun p => p.accumulated_normal))[i]?).getD Vec3.zero := by
  simp [deref_eq_getD, List.getElem?_map, List.getElem?_eq_getElem hi]

theorem foldedSquare_nonDegenerate : (foldedSquare ℝ).NonDegenerate := by
  intro x y hx hy
  have hx0 : x = 0 := by simp only [foldedSquare] at hx; omega
  have hy0 : y = 0 := by simp only [foldedSquare] at hy; omega
  subst hx0 hy0
  simp only [foldedSquare, getParticle, Nat.zero_mul, Nat.zero_add, Nat.one_mul, Nat.add_zero,
    Nat.reduceAdd, Nat.reduceMul, Flag.calcTriangleNormal, deref_cons_zero, deref_cons_succ,
    Particle.new, Vec3.sub, Vec3.cross, Vec3.zero, ne_eq, Vec3.mk.injEq]
  norm_num

theorem flatSquare_nonDegenerate : (flatSquare ℝ).NonDegenerate := by
  intro x y hx hy
  have hx0 : x = 0 := by simp only [flatSquare] at hx; omega
  have hy0 : y = 0 := by simp only [flatSquare] at hy; omega
  subst hx0 hy0
  simp only [flatSquare, getParticle, Nat.zero_mul, Nat.zero_add, Nat.one_mul, Nat.add_zero,
    Nat.reduceAdd, Nat.reduceMul, Flag.calcTriangleNormal, deref_cons_zero, deref_cons_succ,
    Particle.new, Vec3.sub, Vec3.cross, Vec3.zero, ne_eq, Vec3.mk.injEq]
  norm_num
/-- C8 (counterexample): the 2 x 2 flag `foldedSquare` has no degenerate triangle, but
the two triangle normals of its cell are (0,0,-1) and (0,0,1/2); their unit vectors
cancel in the accumulated normal of particle (0,0), so the normal emitted for the first
vertex is the zero vector divided by its zero length, which does not have length 1. -/
theorem Flag.render_normal_not_unit :
    (foldedSquare ℝ).NonDegenerate
      ∧ (deref ((foldedSquare ℝ).renderNormals Real.sqrt) (getParticle 2 0 0)).accumulated_normal
          = Vec3.zero
      ∧ ∃ n ∈ vertexNormals ((foldedSquare ℝ).renderBuild Real.sqrt).flag_vertices,
          n.length Real.sqrt ≠ 1 := by
  have hlen : ((foldedSquare ℝ).renderNormals Real.sqrt).length = 4 := by
    have := congrArg List.length foldedSquare_normals
    simpa using this
  have hR0 : (deref ((foldedSquare ℝ).renderNormals Real.sqrt)
      (getParticle 2 0 0)).accumulated_normal = Vec3.zero := by
    rw [deref_accumulated_normal _ _ (by rw [hlen]; decide), foldedSquare_normals]
    rfl
  refine ⟨foldedSquare_nonDegenerate, hR0,
    (deref ((foldedSquare ℝ).renderNormals Real.sqrt)
      (getParticle 2 0 0)).accumulated_normal.normalized Real.sqrt, ?_, ?_⟩
  · rw [Flag.vertexNormals_renderBuild Real.sqrt (foldedSquare ℝ) rfl]
    have hg : gridLoop ((foldedSquare ℝ).num_particles_width - 1)
        ((foldedSquare ℝ).num_particles_height - 1) = [(0, 0)] := rfl
    rw [hg]
    simp only [List.flatMap_cons, List.flatMap_nil, List.append_nil, cellNormals]
    exact List.mem_cons_self _ _
  · rw [hR0]
    simp [Vec3.normalized, Vec3.length, Vec3.zero]

theorem length_flatMap_const {α β : Type} (g : α → List β) (k : Nat)
    (hg : ∀ a, (g a).length = k) (l : List α) : (l.flatMap g).length = k * l.length := by
  induction l with
  | nil => simp
  | cons a l ih =>
    rw [List.flatMap_cons, List.length_append, ih, hg a, List.length_cons]
    ring

/-- C8 (amended): when `render` starts from the empty buffer on a flag without degenerate
triangles in which no particle's accumulated normal is the zero vector, every normal in
the vertex buffer has Euclidean length exactly 1, and the buffer holds
6*(columns-1)*(rows-1) normals. Under the two hypotheses no normalisation in `render`
divides by zero, so the exact division of the embedding is the division of the code. -/
theorem Flag.render_normals_unit (f : Flag ℝ) (hbuf : f.flag_vertices = [])
    (_hnd : f.NonDegenerate)
    (hacc : ∀ x y, x < f.num_particles_width → y < f.num_particles_height →
      (deref (f.renderNormals Real.sqrt)
        (getParticle f.num_particles_width x y)).accumulated_normal ≠ Vec3.zero) :
    (∀ n ∈ vertexNormals (f.renderBuild Real.sqrt).flag_vertices, n.length Real.sqrt = 1)
      ∧ (vertexNormals (f.renderBuild Real.sqrt).flag_vertices).length
          = 6 * ((f.num_particles_width - 1) * (f.num_particles_height - 1)) := by
  rw [Flag.vertexNormals_renderBuild Real.sqrt f hbuf]
  constructor
  · intro n hn
    rw [List.mem_flatMap] at hn
    obtain ⟨⟨x, y⟩, hxy, hn⟩ := hn
    obtain ⟨hx, hy⟩ := mem_gridLoop.mp hxy
    simp only at hx hy
    simp only [cellNormals, List.mem_cons, List.mem_singleton, List.not_mem_nil,
      or_false] at hn
    rcases hn with rfl | rfl | rfl | rfl | rfl | rfl <;>
      exact Vec3.length_normalized _ (hacc _ _ (by omega) (by omega))
  · rw [length_flatMap_const
      (cellNormals Real.sqrt f.num_particles_width (f.renderNormals Real.sqrt)) 6
      (fun _ => rfl), length_gridLoop]

theorem flatSquare_accumulated :
    ∀ x y, x < (flatSquare ℝ).num_particles_width → y < (flatSquare ℝ).num_particles_height →
      (deref ((flatSquare ℝ).renderNormals Real.sqrt)
        (getParticle (flatSquare ℝ).num_particles_width x y)).accumulated_normal
          ≠ Vec3.zero := by
  intro x y hx hy
  have hlen : ((flatSquare ℝ).renderNormals Real.sqrt).length = 4 := by
    have := congrArg List.length flatSquare_normals
    simpa using this
  have hx2 : x < 2 := hx
  have hy2 : y < 2 := hy
  have hw : (flatSquare ℝ).num_particles_width = 2 := rfl
  rw [hw, deref_accumulated_normal _ _ (by rw [hlen]; unfold getParticle; omega),
    flatSquare_normals]
  unfold getParticle
  interval_cases x <;> interval_cases y <;> simp [Vec3.zero]

/-- Witness for C8: the flat unit square, all of whose emitted normals have length 1. -/
theorem Flag.render_normals_unit_witness :
    (flatSquare ℝ).flag_vertices = [] ∧ (flatSquare ℝ).NonDegenerate
      ∧ (∀ n ∈ vertexNormals ((flatSquare ℝ).renderBuild Real.sqrt).flag_vertices,
          n.length Real.sqrt = 1)
      ∧ (vertexNormals ((flatSquare ℝ).renderBuild Real.sqrt).flag_vertices).length = 6 :=
  ⟨rfl, flatSquare_nonDegenerate,
    Flag.render_normals_unit (flatSquare ℝ) rfl flatSquare_nonDegenerate
      flatSquare_accumulated⟩

/-! ## What a call leaves unchanged, as an invariant of a view of the particle vector -/

theorem map_update_same {K α : Type} [Field K] (view : Particle K → α) (ps : List (Particle K))
    (i : Nat) (g : Particle K → Particle K) (hg : ∀ p, view (g p) = view p) :
    (update ps i g).map view = ps.map view := by
  apply List.ext_getElem?
  intro k
  rw [List.getElem?_map, List.getElem?_map, update_get]
  split
  · cases ps[k]? <;> simp [hg]
  · rfl

theorem map_foldl_same {K α β : Type} (view : Particle K → α)
    (step : List (Particle K) → β → List (Particle K))
    (hstep : ∀ ps b, (step ps b).map view = ps.map view) (l : List β)
    (ps : List (Particle K)) : (l.foldl step ps).map view = ps.map view := by
  induction l generalizing ps with
  | nil => rfl
  | cons b l ih => rw [List.foldl_cons, ih, hstep]

theorem get_of_map_same {K α : Type} {view : Particle K → α} {ps qs : List (Particle K)}
    (h : qs.map view = ps.map view) {i : Nat} {p : Particle K} (hp : ps[i]? = some p) :
    ∃ q, qs[i]? = some q ∧ view q = view p := by
  have hi := congrArg (fun l => l[i]?) h
  simp only [List.getElem?_map, hp, Option.map_some'] at hi
  cases hq : qs[i]? with
  | none => rw [hq] at hi; simp at hi
  | some q =>
    rw [hq] at hi
    exact ⟨q, rfl, Option.some.inj hi⟩

/-! ## Acceleration after a time step -/

theorem Constraint.satisfyConstraint_view {K : Type} [Field K] (sqrt : K → K)
    (c : Constraint K) (ps : List (Particle K)) :
    (c.satisfyConstraint sqrt ps).map (fun p => (p.movable, p.mass, p.old_pos, p.acceleration,
        p.accumulated_normal))
      = ps.map (fun p => (p.movable, p.mass, p.old_pos, p.acceleration,
        p.accumulated_normal)) := by
  unfold Constraint.satisfyConstraint
  have hoff : ∀ (v : Vec3 K) (p : Particle K),
      (fun p : Particle K => (p.movable, p.mass, p.old_pos, p.acceleration,
        p.accumulated_normal)) (p.offsetPos v)
      = (fun p : Particle K => (p.movable, p.mass, p.old_pos, p.acceleration,
        p.accumulated_normal)) p := by
    intro v p
    unfold Particle.offsetPos
    split <;> rfl
  rw [map_update_same _ _ _ _ (hoff _), map_update_same _ _ _ _ (hoff _)]

theorem Flag.relaxed_view {K : Type} [Field K] (sqrt : K → K) (f : Flag K) :
    ((List.range CONSTRAINT_ITERATIONS).foldl
        (fun ps _ => Flag.relaxPass sqrt f.constraints ps) f.particles).map
        (fun p => (p.movable, p.mass, p.old_pos, p.acceleration, p.accumulated_normal))
      = f.particles.map
        (fun p => (p.movable, p.mass, p.old_pos, p.acceleration, p.accumulated_normal)) := by
  apply map_foldl_same
  intro ps _
  unfold Flag.relaxPass
  exact map_foldl_same _ _ (fun qs c => c.satisfyConstraint_view sqrt qs) _ _

theorem Flag.timeStep_particle {K : Type} [Field K] (sqrt : K → K) (f : Flag K) {i : Nat}
    {p : Particle K} (hp : f.particles[i]? = some p) :
    ∃ r : Particle K, r.movable = p.movable ∧ r.acceleration = p.acceleration ∧ r.mass = p.mass
      ∧ r.old_pos = p.old_pos
      ∧ (f.timeStep sqrt).particles[i]? = some r.timeStep := by
  obtain ⟨r, hr, hv⟩ := get_of_map_same (Flag.relaxed_view sqrt f) hp
  simp only [Prod.mk.injEq] at hv
  refine ⟨r, hv.1, hv.2.2.2.1, hv.2.1, hv.2.2.1, ?_⟩
  unfold Flag.timeStep
  simp only [List.getElem?_map, hr, Option.map_some']

/-- C11 (counterexample): the pinned particle of `pairFlag` has acceleration (0,-1,0)
after `addForce((0,-1,0))` followed by `timeStep`, not the zero vector. -/
theorem Flag.timeStep_keeps_pinned_acceleration :
    ∃ q, ((pairFlag.addForce ⟨0, -1, 0⟩).timeStep Rat.sqrt).particles[0]? = some q
      ∧ q.movable = false ∧ q.acceleration = ⟨0, -1, 0⟩ ∧ q.acceleration ≠ Vec3.zero := by
  have hp : (pairFlag.addForce ⟨0, -1, 0⟩).particles[0]?
      = some (pinnedAtOrigin.addForce ⟨0, -1, 0⟩) := rfl
  obtain ⟨r, hm, ha, -, -, hr⟩ := Flag.timeStep_particle Rat.sqrt _ hp
  have hmov : r.movable = false := hm
  have hfix : r.timeStep = r := by simp [Particle.timeStep, hmov]
  have hacc : r.timeStep.acceleration = ⟨0, -1, 0⟩ := by
    rw [hfix, ha]
    simp [Particle.addForce, pinnedAtOrigin, Particle.makeUnmovable, Particle.new, Vec3.add,
      Vec3.div, Vec3.zero, MASS]
  refine ⟨r.timeStep, hr, ?_, hacc, ?_⟩
  · rw [hfix]; exact hmov
  · rw [hacc]
    simp [Vec3.zero]

/-- C11 (amended): after `Flag::timeStep` every movable particle has the zero vector as
acceleration, whatever forces were added before; a pinned particle keeps the acceleration
it had before the call. Movability is unchanged. -/
theorem Flag.timeStep_acceleration {K : Type} [Field K] (sqrt : K → K) (f : Flag K)
    (i : Nat) (p : Particle K) (hp : f.particles[i]? = some p) :
    ∃ q, (f.timeStep sqrt).particles[i]? = some q ∧ q.movable = p.movable
      ∧ (p.movable = true → q.acceleration = Vec3.zero)
      ∧ (p.movable = false → q.acceleration = p.acceleration) := by
  obtain ⟨r, hm, ha, -, -, hr⟩ := Flag.timeStep_particle sqrt f hp
  refine ⟨r.timeStep, hr, ?_, ?_, ?_⟩
  · rw [← hm]
    unfold Particle.timeStep
    split <;> rfl
  · intro hmov
    simp [Particle.timeStep, hm, hmov]
  · intro hmov
    simp [Particle.timeStep, hm, hmov, ha]

/-- Witness for C11: the free particle of `pairFlag` after gravity and a time step. -/
theorem Flag.timeStep_acceleration_witness :
    (pairFlag.addForce ⟨0, -1, 0⟩).particles[1]? = some (freeAtTwo.addForce ⟨0, -1, 0⟩)
      ∧ ∃ q, ((pairFlag.addForce ⟨0, -1, 0⟩).timeStep Rat.sqrt).particles[1]? = some q
          ∧ q.acceleration = Vec3.zero :=
  ⟨rfl,
    match Flag.timeStep_acceleration Rat.sqrt (pairFlag.addForce ⟨0, -1, 0⟩) 1
        (freeAtTwo.addForce ⟨0, -1, 0⟩) rfl with
    | ⟨q, h1, _, h3, _⟩ => ⟨q, h1, h3 rfl⟩⟩

/-! ## Which particles receive a triangle normal -/

theorem twoSquare_eq (sqrt : ℝ → ℝ) :
    twoSquare sqrt
      = ⟨2, 2,
          [(Particle.new (Flag.restPos 2 2 2 2 0 0) (1 / 10000)).makeUnmovable,
           Particle.new (Flag.restPos 2 2 2 2 1 0) (1 / 10000),
           (Particle.new (Flag.restPos 2 2 2 2 0 1) (1 / 10000)).makeUnmovable,
           Particle.new (Flag.restPos 2 2 2 2 1 1) (1 / 10000)],
          (twoSquare sqrt).constraints, []⟩ := rfl

theorem twoSquare_normals :
    ((twoSquare Real.sqrt).renderNormals Real.sqrt).map (fun p => p.accumulated_normal)
      = [⟨0, 0, -2⟩, ⟨0, 0, -1⟩, ⟨0, 0, -1⟩, ⟨0, 0, -2⟩] := by
  rw [twoSquare_eq, Flag.renderNormals_two_by_two]
  simp only [List.map, Particle.new, Particle.makeUnmovable, Flag.restPos, Vec3.sub, Vec3.cross,
    Vec3.normalized, Vec3.length, Vec3.add, Vec3.zero]
  norm_num

theorem Flag.specRenderNormals_two_by_two {K : Type} [Field K] (sqrt : K → K)
    (p0 p1 p2 p3 : Particle K) (cs : List (Constraint K)) (buf : List K) :
    Flag.specRenderNormals sqrt ⟨2, 2, [p0, p1, p2, p3], cs, buf⟩
      = [{ p0 with accumulated_normal :=
            Vec3.zero.add (((p0.pos.sub p1.pos).cross (p2.pos.sub p1.pos)).normalized sqrt) },
         { p1 with accumulated_normal :=
            ((Vec3.zero.add (((p0.pos.sub p1.pos).cross (p2.pos.sub p1.pos)).normalized sqrt)).add
              (((p1.pos.sub p3.pos).cross (p2.pos.sub p3.pos)).normalized sqrt)) },
         { p2 with accumulated_normal :=
            ((Vec3.zero.add (((p0.pos.sub p1.pos).cross (p2.pos.sub p1.pos)).normalized sqrt)).add
              (((p1.pos.sub p3.pos).cross (p2.pos.sub p3.pos)).normalized sqrt)) },
         { p3 with accumulated_normal :=
            Vec3.zero.add (((p1.pos.sub p3.pos).cross (p2.pos.sub p3.pos)).normalized sqrt) }] := by
  have hg : gridLoop (2 - 1) (2 - 1) = [(0, 0)] := rfl
  simp only [Flag.specRenderNormals, hg, List.foldl, List.map, Flag.specAccumulateCell,
    getParticle, Nat.zero_mul, Nat.zero_add, Nat.one_mul, Nat.add_zero, Nat.reduceAdd,
    Nat.reduceMul, update_cons_zero, update_cons_succ, deref_cons_zero, deref_cons_succ,
    Particle.addToNormal, Particle.resetNormal, Flag.calcTriangleNormal]

/-- C12 (evaluation at the failing input): on the flag built by `Flag(2,2,2,2)` both
triangle normals of the only cell are (0,0,-1). `render` leaves particle (0,1), a vertex
of both triangles, with the accumulated normal (0,0,-1) and particle (1,1), a vertex of
one triangle, with (0,0,-2); adding each normal to the vertices of its own triangle gives
(0,0,-2) for (1,0) and (0,1) and (0,0,-1) for (0,0) and (1,1). -/
theorem Flag.render_normals_misplaced :
    Flag.new Real.sqrt 2 2 2 2 = some (twoSquare Real.sqrt)
      ∧ ((twoSquare Real.sqrt).renderNormals Real.sqrt).map (fun p => p.accumulated_normal)
          = [⟨0, 0, -2⟩, ⟨0, 0, -1⟩, ⟨0, 0, -1⟩, ⟨0, 0, -2⟩]
      ∧ ((twoSquare Real.sqrt).specRenderNormals Real.sqrt).map
            (fun p => p.accumulated_normal)
          = [⟨0, 0, -1⟩, ⟨0, 0, -2⟩, ⟨0, 0, -2⟩, ⟨0, 0, -1⟩] := by
  refine ⟨rfl, twoSquare_normals, ?_⟩
  rw [twoSquare_eq, Flag.specRenderNormals_two_by_two]
  simp only [List.map, Particle.new, Particle.makeUnmovable, Flag.restPos, Vec3.sub, Vec3.cross,
    Vec3.normalized, Vec3.length, Vec3.add, Vec3.zero]
  norm_num

/-! ## Views kept by the calls -/

theorem map_map_same {K α : Type} (view : Particle K → α) (g : Particle K → Particle K)
    (hg : ∀ p, view (g p) = view p) (ps : List (Particle K)) :
    (ps.map g).map view = ps.map view := by
  rw [List.map_map]
  apply List.map_congr_left
  intro p _
  exact hg p

theorem Constraint.satisfyConstraint_same {K α : Type} [Field K] (sqrt : K → K)
    (view : Particle K → α) (hoff : ∀ v p, view (Particle.offsetPos p v) = view p)
    (c : Constraint K) (ps : List (Particle K)) :
    (c.satisfyConstraint sqrt ps).map view = ps.map view := by
  unfold Constraint.satisfyConstraint
  rw [map_update_same view _ _ _ (hoff _), map_update_same view _ _ _ (hoff _)]

theorem Flag.timeStep_same {K α : Type} [Field K] (sqrt : K → K) (view : Particle K → α)
    (hoff : ∀ v p, view (Particle.offsetPos p v) = view p)
    (hts : ∀ p, view (Particle.timeStep p) = view p) (f : Flag K) :
    (f.timeStep sqrt).particles.map view = f.particles.map view := by
  unfold Flag.timeStep
  simp only
  rw [map_map_same view _ hts]
  apply map_foldl_same
  intro ps _
  unfold Flag.relaxPass
  exact map_foldl_same _ _ (fun qs c => c.satisfyConstraint_same sqrt view hoff qs) _ _

theorem Flag.windCell_same {K α : Type} [Field K] (sqrt : K → K) (view : Particle K → α)
    (hforce : ∀ v p, view (Particle.addForce p v) = view p) (w : Nat) (d : Vec3 K)
    (ps : List (Particle K)) (xy : Nat × Nat) :
    (Flag.windCell sqrt w d ps xy).map view = ps.map view := by
  unfold Flag.windCell
  simp only
  rw [map_update_same view _ _ _ (hforce _), map_update_same view _ _ _ (hforce _),
    map_update_same view _ _ _ (hforce _), map_update_same view _ _ _ (hforce _),
    map_update_same view _ _ _ (hforce _), map_update_same view _ _ _ (hforce _)]

theorem Flag.accumulateCell_same {K α : Type} [Field K] (sqrt : K → K)
    (view : Particle K → α) (hnorm : ∀ v p, view (Particle.addToNormal sqrt p v) = view p)
    (w : Nat) (ps : List (Particle K)) (xy : Nat × Nat) :
    (Flag.accumulateCell sqrt w ps xy).map view = ps.map view := by
  unfold Flag.accumulateCell
  simp only
  rw [map_update_same view _ _ _ (hnorm _), map_update_same view _ _ _ (hnorm _),
    map_update_same view _ _ _ (hnorm _), map_update_same view _ _ _ (hnorm _),
    map_update_same view _ _ _ (hnorm _), map_update_same view _ _ _ (hnorm _)]

theorem Flag.renderNormals_same {K α : Type} [Field K] (sqrt : K → K)
    (view : Particle K → α) (hnorm : ∀ v p, view (Particle.addToNormal sqrt p v) = view p)
    (hreset : ∀ p, view (Particle.resetNormal p) = view p) (f : Flag K) :
    (f.renderNormals sqrt).map view = f.particles.map view := by
  unfold Flag.renderNormals
  rw [map_foldl_same view _ (Flag.accumulateCell_same sqrt view hnorm _),
    map_map_same view _ hreset]

theorem Flag.call_same {K α : Type} [Field K] (sqrt : K → K) (view : Particle K → α)
    (hoff : ∀ v p, view (Particle.offsetPos p v) = view p)
    (hts : ∀ p, view (Particle.timeStep p) = view p)
    (hforce : ∀ v p, view (Particle.addForce p v) = view p)
    (hnorm : ∀ v p, view (Particle.addToNormal sqrt p v) = view p)
    (hreset : ∀ p, view (Particle.resetNormal p) = view p) (f : Flag K) (c : Call K) :
    (f.call sqrt c).particles.map view = f.particles.map view := by
  cases c with
  | addForce force => exact map_map_same view _ (hforce force) _
  | addwindForce d => exact map_foldl_same view _ (Flag.windCell_same sqrt view hforce _ d) _ _
  | satisfyConstraint c => exact c.satisfyConstraint_same sqrt view hoff _
  | offsetPos i v => exact map_update_same view _ _ _ (hoff v)
  | particleTimeStep i => exact map_update_same view _ _ _ hts
  | timeStep => exact Flag.timeStep_same sqrt view hoff hts f
  | render => exact Flag.renderNormals_same sqrt view hnorm hreset f

theorem Flag.run_same {K α : Type} [Field K] (sqrt : K → K) (view : Particle K → α)
    (hoff : ∀ v p, view (Particle.offsetPos p v) = view p)
    (hts : ∀ p, view (Particle.timeStep p) = view p)
    (hforce : ∀ v p, view (Particle.addForce p v) = view p)
    (hnorm : ∀ v p, view (Particle.addToNormal sqrt p v) = view p)
    (hreset : ∀ p, view (Particle.resetNormal p) = view p) (calls : List (Call K))
    (f : Flag K) : (f.run sqrt calls).particles.map view = f.particles.map view := by
  induction calls generalizing f with
  | nil => rfl
  | cons c cs ih =>
    show ((f.call sqrt c).run sqrt cs).particles.map view = f.particles.map view
    rw [ih, Flag.call_same sqrt view hoff hts hforce hnorm hreset]

theorem Particle.mass_offsetPos {K : Type} [Field K] (v : Vec3 K) (p : Particle K) :
    (p.offsetPos v).mass = p.mass := by
  unfold Particle.offsetPos
  split <;> rfl

theorem Particle.mass_timeStep {K : Type} [Field K] (p : Particle K) :
    p.timeStep.mass = p.mass := by
  unfold Particle.timeStep
  split <;> rfl

theorem Flag.run_mass {K : Type} [Field K] (sqrt : K → K) (calls : List (Call K))
    (f : Flag K) :
    (f.run sqrt calls).particles.map (fun p => p.mass) = f.particles.map (fun p => p.mass) :=
  Flag.run_same sqrt (fun p => p.mass) Particle.mass_offsetPos Particle.mass_timeStep
    (fun _ _ => rfl) (fun _ _ => rfl) (fun _ => rfl) calls f

theorem Flag.new_particles_mass {K : Type} [Field K] {sqrt : K → K} {width height : K}
    {w h : Nat} {f : Flag K} (hf : Flag.new sqrt width height w h = some f) :
    ∀ p ∈ f.particles, p.mass = MASS := by
  intro p hp
  obtain ⟨-, -, -, -, -, hpin⟩ := Flag.new_eq_some hf
  obtain ⟨-, -, h3⟩ := pin_foldlM_spec _ _ _ hpin
  obtain ⟨k, hk⟩ := List.mem_iff_getElem?.mp hp
  rw [h3 k] at hk
  cases hq : (Flag.placeParticles width height w h)[k]? with
  | none => rw [hq] at hk; simp at hk
  | some q =>
    rw [hq] at hk
    simp only [Option.map_some', Option.some.injEq] at hk
    obtain ⟨r, m, rfl⟩ := Flag.mem_placeParticles width height w h q
      (List.mem_iff_getElem?.mpr ⟨k, hq⟩)
    subst hk
    split <;> rfl

/-! ## Uniform force -/

/-- C14: `Particle::addForce(f)` adds f / mass to the acceleration, where the mass of
every particle of a constructed flag, after any sequence of calls, is the constant
MASS = 1 whatever mass argument the `Particle` constructor was given; and
`Flag::addForce(f)` adds f to the acceleration of every particle and leaves its position
and previous position unchanged. -/
theorem Flag.addForce_adds {K : Type} [Field K] (sqrt : K → K) (width height : K)
    (w h : Nat) (f : Flag K) (hf : Flag.new sqrt width height w h = some f)
    (calls : List (Call K)) (force : Vec3 K) (i : Nat) (p : Particle K)
    (hp : (f.run sqrt calls).particles[i]? = some p) :
    (p.addForce force).acceleration = p.acceleration.add (force.div p.mass)
      ∧ p.mass = MASS ∧ (MASS : K) = 1
      ∧ (∀ (q : Vec3 K) (m : K), (Particle.new q m).mass = MASS)
      ∧ ∃ q, ((f.run sqrt calls).addForce force).particles[i]? = some q
          ∧ q.acceleration = p.acceleration.add force
          ∧ q.pos = p.pos ∧ q.old_pos = p.old_pos := by
  have hmass : p.mass = MASS := by
    obtain ⟨p0, hp0, hm⟩ := get_of_map_same (Flag.run_mass sqrt calls f).symm hp
    rw [← hm]
    exact Flag.new_particles_mass hf p0 (List.mem_iff_getElem?.mpr ⟨i, hp0⟩)
  refine ⟨rfl, hmass, rfl, fun _ _ => rfl, p.addForce force, ?_, ?_, rfl, rfl⟩
  · simp [Flag.addForce, hp]
  · obtain ⟨a0, a1, a2⟩ := force
    simp [Particle.addForce, hmass, MASS, Vec3.div]

/-- Witness for C14: particle (1,0) of the 2 x 2 flag, after a force (1,0,0), receives
gravity. -/
theorem Flag.addForce_adds_witness :
    Flag.new Rat.sqrt (1 : ℚ) 1 2 2 = some squareFlag
      ∧ (squareFlag.run Rat.sqrt [Call.addForce ⟨1, 0, 0⟩]).particles[1]?
          = some ((Particle.new (Flag.restPos 1 1 2 2 1 0) (1 / 10000)).addForce ⟨1, 0, 0⟩)
      ∧ ∃ q, ((squareFlag.run Rat.sqrt [Call.addForce ⟨1, 0, 0⟩]).addForce
                ⟨0, -1, 0⟩).particles[1]? = some q
          ∧ q.acceleration
              = ((Particle.new (Flag.restPos (1 : ℚ) 1 2 2 1 0) (1 / 10000)).addForce
                  ⟨1, 0, 0⟩).acceleration.add ⟨0, -1, 0⟩ :=
  ⟨rfl, rfl,
    match Flag.addForce_adds Rat.sqrt 1 1 2 2 squareFlag rfl [Call.addForce ⟨1, 0, 0⟩]
        ⟨0, -1, 0⟩ 1 ((Particle.new (Flag.restPos 1 1 2 2 1 0) (1 / 10000)).addForce ⟨1, 0, 0⟩)
        rfl with
    | ⟨_, _, _, _, q, h1, h2, _, _⟩ => ⟨q, h1, h2⟩⟩

/-! ## Triangle normal -/

theorem Vec3.sq_length (v : Vec3 ℝ) : (v.length Real.sqrt) ^ 2 = v.dot v := by
  unfold Vec3.length Vec3.dot
  rw [Real.sq_sqrt]
  have h0 := mul_self_nonneg v.f0
  have h1 := mul_self_nonneg v.f1
  have h2 := mul_self_nonneg v.f2
  linarith

/-- C17: `calcTriangleNormal(p1,p2,p3)` is the cross product (p2 - p1) x (p3 - p1); it is
orthogonal to both edge vectors, and its squared length is
|p2-p1|^2 * |p3-p1|^2 - ((p2-p1).(p3-p1))^2, the squared area of the parallelogram the
two edges span. -/
theorem Flag.calcTriangleNormal_cross (ps : List (Particle ℝ)) (p1 p2 p3 : Nat) :
    Flag.calcTriangleNormal ps p1 p2 p3
        = ((deref ps p2).pos.sub (deref ps p1).pos).cross
            ((deref ps p3).pos.sub (deref ps p1).pos)
      ∧ (Flag.calcTriangleNormal ps p1 p2 p3).dot
          ((deref ps p2).pos.sub (deref ps p1).pos) = 0
      ∧ (Flag.calcTriangleNormal ps p1 p2 p3).dot
          ((deref ps p3).pos.sub (deref ps p1).pos) = 0
      ∧ ((Flag.calcTriangleNormal ps p1 p2 p3).length Real.sqrt) ^ 2
          = (((deref ps p2).pos.sub (deref ps p1).pos).length Real.sqrt) ^ 2
              * (((deref ps p3).pos.sub (deref ps p1).pos).length Real.sqrt) ^ 2
            - (((deref ps p2).pos.sub (deref ps p1).pos).dot
                ((deref ps p3).pos.sub (deref ps p1).pos)) ^ 2 := by
  refine ⟨rfl, ?_, ?_, ?_⟩
  · simp only [Flag.calcTriangleNormal, Vec3.cross, Vec3.dot, Vec3.sub]
    ring
  · simp only [Flag.calcTriangleNormal, Vec3.cross, Vec3.dot, Vec3.sub]
    ring
  · rw [Vec3.sq_length, Vec3.sq_length, Vec3.sq_length]
    simp only [Flag.calcTriangleNormal, Vec3.cross, Vec3.dot, Vec3.sub]
    ring

/-! ## Rendering twice -/

theorem Flag.renderNormals_render {K : Type} [Field K] (sqrt : K → K) (f : Flag K) :
    (f.render sqrt).renderNormals sqrt = f.renderNormals sqrt := by
  have hreset : (f.renderNormals sqrt).map Particle.resetNormal
      = f.particles.map Particle.resetNormal :=
    Flag.renderNormals_same sqrt Particle.resetNormal (fun _ _ => rfl) (fun _ => rfl) f
  show (gridLoop (f.num_particles_width - 1) (f.num_particles_height - 1)).foldl
      (Flag.accumulateCell sqrt f.num_particles_width)
      ((f.renderNormals sqrt).map Particle.resetNormal) = f.renderNormals sqrt
  rw [hreset]
  rfl

/-- C19: `Flag::render` changes no particle's position, previous position, acceleration
or movability, and a second `render` right after the first builds a vertex buffer with
the same contents as the first. The buffer is empty when the first call starts. -/
theorem Flag.render_repeatable {K : Type} [Field K] (sqrt : K → K) (f : Flag K)
    (hbuf : f.flag_vertices = []) :
    (∀ (i : Nat) (p : Particle K), f.particles[i]? = some p →
        ∃ q, (f.render sqrt).particles[i]? = some q ∧ q.pos = p.pos ∧ q.old_pos = p.old_pos
          ∧ q.acceleration = p.acceleration ∧ q.movable = p.movable)
      ∧ (f.render sqrt).particles.length = f.particles.length
      ∧ ((f.render sqrt).renderBuild sqrt).flag_vertices
          = (f.renderBuild sqrt).flag_vertices := by
  have hview := Flag.renderNormals_same sqrt
    (fun p : Particle K => (p.pos, p.old_pos, p.acceleration, p.movable))
    (fun _ _ => rfl) (fun _ => rfl) f
  refine ⟨?_, ?_, ?_⟩
  · intro i p hp
    obtain ⟨q, hq, hv⟩ := get_of_map_same hview hp
    simp only [Prod.mk.injEq] at hv
    exact ⟨q, hq, hv.1, hv.2.1, hv.2.2.1, hv.2.2.2⟩
  · have hlen := congrArg List.length hview
    simpa using hlen
  · show (gridLoop (f.num_particles_width - 1) (f.num_particles_height - 1)).foldl
        (Flag.emitCell sqrt f.num_particles_width ((f.render sqrt).renderNormals sqrt)) []
      = (gridLoop (f.num_particles_width - 1) (f.num_particles_height - 1)).foldl
        (Flag.emitCell sqrt f.num_particles_width (f.renderNormals sqrt)) f.flag_vertices
    rw [Flag.renderNormals_render, hbuf]

/-- Witness for C19: two renders of the 2 x 2 flag. -/
theorem Flag.render_repeatable_witness :
    squareFlag.flag_vertices = []
      ∧ ((squareFlag.render Rat.sqrt).renderBuild Rat.sqrt).flag_vertices
          = (squareFlag.renderBuild Rat.sqrt).flag_vertices :=
  ⟨rfl, (Flag.render_repeatable Rat.sqrt squareFlag rfl).2.2⟩

/-! ## Emitted triangles -/

theorem Flag.emitCell_eq {K : Type} [Field K] (sqrt : K → K) (w : Nat)
    (ps : List (Particle K)) (buf : List K) (xy : Nat × Nat) :
    Flag.emitCell sqrt w ps buf xy = buf ++ cellFloats sqrt w ps xy := by
  simp [Flag.emitCell, Flag.AddTriangle, cellFloats, vertexFloats]

theorem Flag.foldl_emitCell_eq {K : Type} [Field K] (sqrt : K → K) (w : Nat)
    (ps : List (Particle K)) (cells : List (Nat × Nat)) (buf : List K) :
    cells.foldl (Flag.emitCell sqrt w ps) buf
      = buf ++ cells.flatMap (cellFloats sqrt w ps) := by
  induction cells generalizing buf with
  | nil => simp
  | cons xy cells ih =>
    rw [List.foldl_cons, ih, Flag.emitCell_eq, List.flatMap_cons, List.append_assoc]

theorem deref_same {K α : Type} [Field K] {view : Particle K → α} {ps qs : List (Particle K)}
    (h : qs.map view = ps.map view) (i : Nat) : view (deref qs i) = view (deref ps i) := by
  have hi := congrArg (fun l => l[i]?) h
  simp only [List.getElem?_map] at hi
  rw [deref_eq_getD, deref_eq_getD]
  cases hq : qs[i]? with
  | none =>
    cases hp : ps[i]? with
    | none => rfl
    | some p => rw [hq, hp] at hi; simp at hi
  | some q =>
    cases hp : ps[i]? with
    | none => rw [hq, hp] at hi; simp at hi
    | some p =>
      rw [hq, hp] at hi
      simpa using hi

theorem Flag.renderNormals_pos {K : Type} [Field K] (sqrt : K → K) (f : Flag K) (i : Nat) :
    (deref (f.renderNormals sqrt) i).pos = (deref f.particles i).pos :=
  deref_same (Flag.renderNormals_same sqrt (fun p : Particle K => p.pos) (fun _ _ => rfl)
    (fun _ => rfl) f) i

/-- C16 (amended): for every grid cell (x, y) the two triangles `render` emits are
(x,y), (x,y+1), (x+1,y+1) and (x,y), (x+1,y), (x+1,y+1), in this order, three vertices of
(position, normalized accumulated normal) each; the cells follow each other with x outer
and y inner, and the positions are those the particles had before the call. -/
theorem Flag.render_emits {K : Type} [Field K] (sqrt : K → K) (f : Flag K)
    (hbuf : f.flag_vertices = []) :
    (f.renderBuild sqrt).flag_vertices
        = (gridLoop (f.num_particles_width - 1) (f.num_particles_height - 1)).flatMap
            (cellFloats sqrt f.num_particles_width (f.renderNormals sqrt))
      ∧ (gridLoop (f.num_particles_width - 1) (f.num_particles_height - 1))
          = (List.range (f.num_particles_width - 1)).flatMap
              (fun x => (List.range (f.num_particles_height - 1)).map (fun y => (x, y)))
      ∧ ∀ i, (deref (f.renderNormals sqrt) i).pos = (deref f.particles i).pos := by
  refine ⟨?_, rfl, Flag.renderNormals_pos sqrt f⟩
  unfold Flag.renderBuild
  simp only
  rw [Flag.foldl_emitCell_eq, hbuf, List.nil_append]
theorem twoSquare_particles {K : Type} [Field K] (sqrt : K → K) :
    (twoSquare sqrt).particles
      = [(Particle.new (Flag.restPos 2 2 2 2 0 0) (1 / 10000)).makeUnmovable,
         Particle.new (Flag.restPos 2 2 2 2 1 0) (1 / 10000),
         (Particle.new (Flag.restPos 2 2 2 2 0 1) (1 / 10000)).makeUnmovable,
         Particle.new (Flag.restPos 2 2 2 2 1 1) (1 / 10000)] := rfl

theorem twoSquare_positions :
    (twoSquare Rat.sqrt).particles.map (fun p => p.pos)
      = [⟨0, 0, 0⟩, ⟨1, 0, 0⟩, ⟨0, 1, 0⟩, ⟨1, 1, 0⟩] := by
  rw [twoSquare_particles]
  simp [Particle.new, Particle.makeUnmovable, Flag.restPos]

theorem deref_pos_of_map {K : Type} [Field K] (ps : List (Particle K)) (i : Nat)
    (hi : i < ps.length) :
    (deref ps i).pos = ((ps.map (fun p => p.pos))[i]?).getD Vec3.zero := by
  simp [deref_eq_getD, List.getElem?_map, List.getElem?_eq_getElem hi]

/-- C16 (counterexample): on the flag built by `Flag(2,2,2,2)` the first triangle in the
vertex buffer is (0,0,0), (0,1,0), (1,1,0) and the second is (0,0,0), (1,0,0), (1,1,0).
The first contains the position of particle (1,1), which is not a vertex of the triangle
(1,0), (0,0), (0,1) of the first normal; the second contains the position of particle
(0,0), which is not a vertex of the triangle (1,1), (1,0), (0,1) of the second normal. -/
theorem Flag.render_emits_other_diagonal :
    Flag.new Rat.sqrt (2 : ℚ) 2 2 2 = some (twoSquare Rat.sqrt)
      ∧ vertexPositions ((twoSquare Rat.sqrt).renderBuild Rat.sqrt).flag_vertices
          = [⟨0, 0, 0⟩, ⟨0, 1, 0⟩, ⟨1, 1, 0⟩, ⟨0, 0, 0⟩, ⟨1, 0, 0⟩, ⟨1, 1, 0⟩]
      ∧ (⟨1, 1, 0⟩ : Vec3 ℚ) ∉
          [(deref (twoSquare Rat.sqrt).particles (getParticle 2 (0 + 1) 0)).pos,
           (deref (twoSquare Rat.sqrt).particles (getParticle 2 0 0)).pos,
           (deref (twoSquare Rat.sqrt).particles (getParticle 2 0 (0 + 1))).pos]
      ∧ (⟨0, 0, 0⟩ : Vec3 ℚ) ∉
          [(deref (twoSquare Rat.sqrt).particles (getParticle 2 (0 + 1) (0 + 1))).pos,
           (deref (twoSquare Rat.sqrt).particles (getParticle 2 (0 + 1) 0)).pos,
           (deref (twoSquare Rat.sqrt).particles (getParticle 2 0 (0 + 1))).pos] := by
  have hlen : (twoSquare Rat.sqrt).particles.length = 4 := rfl
  have hpos : ∀ i, i < 4 → (deref (twoSquare Rat.sqrt).particles i).pos
      = (([⟨0, 0, 0⟩, ⟨1, 0, 0⟩, ⟨0, 1, 0⟩, ⟨1, 1, 0⟩] : List (Vec3 ℚ))[i]?).getD Vec3.zero := by
    intro i hi
    rw [deref_pos_of_map _ _ (by rw [hlen]; exact hi), twoSquare_positions]
  have h0 := hpos 0 (by decide)
  have h1 := hpos 1 (by decide)
  have h2 := hpos 2 (by decide)
  have h3 := hpos 3 (by decide)
  simp only [List.getElem?_cons_zero, List.getElem?_cons_succ, Option.getD_some] at h0 h1 h2 h3
  have hg : gridLoop ((twoSquare Rat.sqrt).num_particles_width - 1)
      ((twoSquare Rat.sqrt).num_particles_height - 1) = [(0, 0)] := rfl
  have hw : (twoSquare Rat.sqrt).num_particles_width = 2 := rfl
  have hbuild : ((twoSquare Rat.sqrt).renderBuild Rat.sqrt).flag_vertices
      = cellFloats Rat.sqrt 2 ((twoSquare Rat.sqrt).renderNormals Rat.sqrt) (0, 0) := by
    unfold Flag.renderBuild
    simp only
    rw [Flag.foldl_emitCell_eq, hg, hw]
    simp
    rfl
  refine ⟨rfl, ?_, ?_, ?_⟩
  · rw [hbuild]
    simp only [cellFloats, vertexFloats, List.cons_append, List.nil_append, vertexPositions,
      getParticle, Nat.zero_mul, Nat.zero_add, Nat.one_mul, Nat.add_zero, Nat.reduceAdd,
      Nat.reduceMul, Flag.renderNormals_pos, h0, h1, h2, h3]
  · simp only [getParticle, Nat.zero_mul, Nat.zero_add, Nat.one_mul, Nat.add_zero,
      Nat.reduceAdd, Nat.reduceMul, h0, h1, h2]
    simp
  · simp only [getParticle, Nat.zero_mul, Nat.zero_add, Nat.one_mul, Nat.add_zero,
      Nat.reduceAdd, Nat.reduceMul, h1, h2, h3]
    simp

/-- Witness for C16: the buffer of the flag built by `Flag(2,2,2,2)` is the 36 floats of
its only cell. -/
theorem Flag.render_emits_witness :
    (twoSquare Rat.sqrt).flag_vertices = []
      ∧ ((twoSquare Rat.sqrt).renderBuild Rat.sqrt).flag_vertices
          = (gridLoop ((twoSquare Rat.sqrt).num_particles_width - 1)
              ((twoSquare Rat.sqrt).num_particles_height - 1)).flatMap
            (cellFloats Rat.sqrt (twoSquare Rat.sqrt).num_particles_width
              ((twoSquare Rat.sqrt).renderNormals Rat.sqrt)) :=
  ⟨rfl, (Flag.render_emits Rat.sqrt (twoSquare Rat.sqrt) rfl).1⟩

/-! ## Wind -/

theorem Vec3.add_assoc' {K : Type} [Field K] (a b c : Vec3 K) :
    (a.add b).add c = a.add (b.add c) := by
  simp [Vec3.add, add_assoc]

theorem Vec3.zero_add' {K : Type} [Field K] (a : Vec3 K) : Vec3.zero.add a = a := by
  simp [Vec3.add, Vec3.zero]

theorem Vec3.div_one' {K : Type} [Field K] (a : Vec3 K) : a.div 1 = a := by
  simp [Vec3.div]

theorem windSum_start {K : Type} [Field K] (sqrt : K → K) (ps : List (Particle K))
    (d : Vec3 K) (tris : List (Nat × Nat × Nat)) (i : Nat) (s : Vec3 K) :
    windSum sqrt ps d tris i s = s.add (windSum sqrt ps d tris i Vec3.zero) := by
  unfold windSum
  induction tris generalizing s with
  | nil => simp [Vec3.add, Vec3.zero]
  | cons t tris ih =>
    simp only [List.foldl_cons]
    split
    · rw [ih (s.add _), ih (Vec3.zero.add _), Vec3.zero_add', Vec3.add_assoc']
    · exact ih s

theorem windSum_append {K : Type} [Field K] (sqrt : K → K) (ps : List (Particle K))
    (d : Vec3 K) (t1 t2 : List (Nat × Nat × Nat)) (i : Nat) (s : Vec3 K) :
    windSum sqrt ps d (t1 ++ t2) i s = windSum sqrt ps d t2 i (windSum sqrt ps d t1 i s) := by
  unfold windSum
  rw [List.foldl_append]

theorem Flag.calcTriangleNormal_congr {K : Type} [Field K] {ps qs : List (Particle K)}
    (h : qs.map (fun p => p.pos) = ps.map (fun p => p.pos)) (a b c : Nat) :
    Flag.calcTriangleNormal qs a b c = Flag.calcTriangleNormal ps a b c := by
  unfold Flag.calcTriangleNormal
  have ha := deref_same h a
  have hb := deref_same h b
  have hc := deref_same h c
  simp only at ha hb hc
  rw [ha, hb, hc]

theorem Flag.windForce_congr {K : Type} [Field K] (sqrt : K → K) {ps qs : List (Particle K)}
    (h : qs.map (fun p => p.pos) = ps.map (fun p => p.pos)) (d : Vec3 K) (a b c : Nat) :
    Flag.windForce sqrt qs d a b c = Flag.windForce sqrt ps d a b c := by
  unfold Flag.windForce
  rw [Flag.calcTriangleNormal_congr h]

theorem windSum_congr {K : Type} [Field K] (sqrt : K → K) {ps qs : List (Particle K)}
    (h : qs.map (fun p => p.pos) = ps.map (fun p => p.pos)) (d : Vec3 K)
    (tris : List (Nat × Nat × Nat)) (i : Nat) (s : Vec3 K) :
    windSum sqrt qs d tris i s = windSum sqrt ps d tris i s := by
  unfold windSum
  congr 1
  funext s t
  rw [Flag.windForce_congr sqrt h]

/-- One `addForce` through a pointer, seen on the accelerations: with unit masses the
force is added at the index pointed to, and nowhere else. -/
theorem acceleration_update_addForce {K : Type} [Field K] (ps : List (Particle K)) (j : Nat)
    (F : Vec3 K) (hm : ∀ m ∈ ps.map (fun p => p.mass), m = 1) (i : Nat) :
    ((update ps j (fun p => p.addForce F))[i]?).map (fun p => p.acceleration)
      = ((ps[i]?).map (fun p => p.acceleration)).map (fun s => if j = i then s.add F else s) := by
  rw [update_get]
  cases hp : ps[i]? with
  | none => split <;> simp
  | some p =>
    have hmass : p.mass = 1 :=
      hm p.mass (List.mem_map.mpr ⟨p, List.mem_iff_getElem?.mpr ⟨i, hp⟩, rfl⟩)
    split
    · simp [Particle.addForce, hmass, Vec3.div_one']
    · simp
theorem Flag.calcTriangleNormal_update {K : Type} [Field K] (ps : List (Particle K)) (j : Nat)
    (F : Vec3 K) (a b c : Nat) :
    Flag.calcTriangleNormal (update ps j (fun p => p.addForce F)) a b c
      = Flag.calcTriangleNormal ps a b c :=
  Flag.calcTriangleNormal_congr
    (map_update_same (fun p : Particle K => p.pos) ps j (fun p => p.addForce F)
      (fun _ => rfl)) a b c

theorem cell_indices_distinct {w x y : Nat} (hw : 2 ≤ w) :
    getParticle w x y ≠ getParticle w (x + 1) y
      ∧ getParticle w x y ≠ getParticle w x (y + 1)
      ∧ getParticle w x y ≠ getParticle w (x + 1) (y + 1)
      ∧ getParticle w (x + 1) y ≠ getParticle w x (y + 1)
      ∧ getParticle w (x + 1) y ≠ getParticle w (x + 1) (y + 1)
      ∧ getParticle w x (y + 1) ≠ getParticle w (x + 1) (y + 1) := by
  unfold getParticle
  simp only [Nat.add_mul, Nat.one_mul]
  refine ⟨?_, ?_, ?_, ?_, ?_, ?_⟩ <;> omega

theorem Flag.windCell_acceleration {K : Type} [Field K] (sqrt : K → K) (w : Nat)
    (d : Vec3 K) (ps : List (Particle K)) (xy : Nat × Nat) (hw : 2 ≤ w)
    (hm : ∀ m ∈ ps.map (fun p => p.mass), m = 1) (i : Nat) :
    ((Flag.windCell sqrt w d ps xy)[i]?).map (fun p => p.acceleration)
      = ((ps[i]?).map (fun p => p.acceleration)).map
          (fun s => windSum sqrt ps d (cellTriangles w xy) i s) := by
  obtain ⟨x, y⟩ := xy
  obtain ⟨h12, h13, h14, h23, h24, h34⟩ := cell_indices_distinct (x := x) (y := y) hw
  simp only [Flag.windCell, Flag.calcTriangleNormal_update, update_get, windSum, cellTriangles,
    List.foldl, Flag.windForce]
  generalize getParticle w x y = p1 at *
  generalize getParticle w (x + 1) y = p2 at *
  generalize getParticle w x (y + 1) = p3 at *
  generalize getParticle w (x + 1) (y + 1) = p4 at *
  cases hp : ps[i]? with
  | none => simp
  | some p =>
    have hmass : p.mass = 1 :=
      hm p.mass (List.mem_map.mpr ⟨p, List.mem_iff_getElem?.mpr ⟨i, hp⟩, rfl⟩)
    by_cases e1 : i = p1
    · subst e1
      simp [h12, h13, h14, Ne.symm h12, Ne.symm h13, Ne.symm h14, Particle.addForce, hmass,
        Vec3.div_one']
    · by_cases e2 : i = p2
      · subst e2
        simp [h12, h23, h24, Ne.symm h12, Ne.symm h23, Ne.symm h24, Particle.addForce, hmass,
          Vec3.div_one']
      · by_cases e3 : i = p3
        · subst e3
          simp [h13, h23, h34, Ne.symm h13, Ne.symm h23, Ne.symm h34, Particle.addForce, hmass,
            Vec3.div_one']
        · by_cases e4 : i = p4
          · subst e4
            simp [h14, h24, h34, Ne.symm h14, Ne.symm h24, Ne.symm h34, Particle.addForce,
              hmass, Vec3.div_one']
          · simp [e1, e2, e3, e4, Ne.symm e1, Ne.symm e2, Ne.symm e3, Ne.symm e4]
theorem Flag.foldl_windCell_acceleration {K : Type} [Field K] (sqrt : K → K) (w : Nat)
    (d : Vec3 K) (hw : 2 ≤ w) (cells : List (Nat × Nat)) (ps : List (Particle K))
    (hm : ∀ m ∈ ps.map (fun p => p.mass), m = 1) (i : Nat) :
    ((cells.foldl (Flag.windCell sqrt w d) ps)[i]?).map (fun p => p.acceleration)
      = ((ps[i]?).map (fun p => p.acceleration)).map
          (fun s => windSum sqrt ps d (cells.flatMap (cellTriangles w)) i s) := by
  induction cells generalizing ps with
  | nil =>
    simp only [List.foldl_nil, List.flatMap_nil, windSum]
    cases ps[i]? <;> simp
  | cons xy cells ih =>
    have hmass' : ∀ m ∈ (Flag.windCell sqrt w d ps xy).map (fun p => p.mass), m = 1 := by
      rw [Flag.windCell_same sqrt (fun p : Particle K => p.mass) (fun _ _ => rfl)]
      exact hm
    have hpos : (Flag.windCell sqrt w d ps xy).map (fun p => p.pos)
        = ps.map (fun p => p.pos) :=
      Flag.windCell_same sqrt (fun p : Particle K => p.pos) (fun _ _ => rfl) w d ps xy
    have hstep := ih (Flag.windCell sqrt w d ps xy) hmass'
    rw [Flag.windCell_acceleration sqrt w d ps xy hw hm] at hstep
    rw [List.foldl_cons, hstep]
    generalize (ps[i]?).map (fun p => p.acceleration) = o
    cases o with
    | none => simp only [Option.map_none']
    | some s =>
      simp only [Option.map_some']
      rw [List.flatMap_cons, windSum_append, windSum_congr sqrt hpos]

/-- The effect of `addwindForce` on a flag whose particles have mass 1. -/
theorem Flag.addwindForce_unit_mass (f : Flag ℝ) (d : Vec3 ℝ)
    (hmass : ∀ p ∈ f.particles, p.mass = 1) (i : Nat) (p : Particle ℝ)
    (hp : f.particles[i]? = some p) :
    (∃ q, (f.addwindForce Real.sqrt d).particles[i]? = some q
        ∧ q.acceleration = p.acceleration.add
            (windSum Real.sqrt f.particles d
              (windTriangles f.num_particles_width f.num_particles_height) i Vec3.zero)
        ∧ q.pos = p.pos ∧ q.old_pos = p.old_pos ∧ q.movable = p.movable)
      ∧ ∀ a b c, Flag.windForce Real.sqrt f.particles d a b c
          = (Flag.calcTriangleNormal f.particles a b c).mul
              (((Flag.calcTriangleNormal f.particles a b c).normalized Real.sqrt).dot d) := by
  refine ⟨?_, fun _ _ _ => rfl⟩
  have hview : (f.addwindForce Real.sqrt d).particles.map
        (fun p : Particle ℝ => (p.pos, p.old_pos, p.movable))
      = f.particles.map (fun p : Particle ℝ => (p.pos, p.old_pos, p.movable)) :=
    map_foldl_same _ _
      (Flag.windCell_same Real.sqrt (fun p : Particle ℝ => (p.pos, p.old_pos, p.movable))
        (fun _ _ => rfl) _ d) _ _
  obtain ⟨q, hq, hv⟩ := get_of_map_same hview hp
  simp only [Prod.mk.injEq] at hv
  refine ⟨q, hq, ?_, hv.1, hv.2.1, hv.2.2⟩
  have hm : ∀ m ∈ f.particles.map (fun p => p.mass), m = 1 := by
    intro m hmem
    obtain ⟨r, hr, rfl⟩ := List.mem_map.mp hmem
    exact hmass r hr
  rw [← windSum_start]
  by_cases hw : 2 ≤ f.num_particles_width
  · have hacc := Flag.foldl_windCell_acceleration Real.sqrt f.num_particles_width d hw
      (gridLoop (f.num_particles_width - 1) (f.num_particles_height - 1)) f.particles hm i
    have hq' : (gridLoop (f.num_particles_width - 1) (f.num_particles_height - 1)).foldl
        (Flag.windCell Real.sqrt f.num_particles_width d) f.particles = 
        (f.addwindForce Real.sqrt d).particles := rfl
    rw [hq', hq, hp] at hacc
    simpa [windTriangles] using hacc
  · have hcells : gridLoop (f.num_particles_width - 1) (f.num_particles_height - 1) = [] := by
      have h0 : f.num_particles_width - 1 = 0 := by omega
      rw [h0]
      rfl
    have hq' : (f.addwindForce Real.sqrt d).particles = f.particles := by
      unfold Flag.addwindForce
      simp only [hcells, List.foldl_nil]
    rw [hq', hp] at hq
    cases hq
    simp [windTriangles, hcells, windSum]

/-- C13: in every state reached from the constructor that has no degenerate triangle,
`Flag::addwindForce(d)` adds to the acceleration of each particle the sum, over the
triangles (x+1,y),(x,y),(x,y+1) and (x+1,y+1),(x+1,y),(x,y+1) of all cells that have the
particle as a vertex, of n * dot(n.normalized(), d) with n the cross-product normal of the
triangle; position, previous position and movability are unchanged. -/
theorem Flag.addwindForce_sum (width height : ℝ) (w h : Nat) (f : Flag ℝ)
    (hf : Flag.new Real.sqrt width height w h = some f) (calls : List (Call ℝ))
    (d : Vec3 ℝ) (_hnd : (f.run Real.sqrt calls).NonDegenerate) (i : Nat) (p : Particle ℝ)
    (hp : (f.run Real.sqrt calls).particles[i]? = some p) :
    (∃ q, ((f.run Real.sqrt calls).addwindForce Real.sqrt d).particles[i]? = some q
        ∧ q.acceleration = p.acceleration.add
            (windSum Real.sqrt (f.run Real.sqrt calls).particles d
              (windTriangles (f.run Real.sqrt calls).num_particles_width
                (f.run Real.sqrt calls).num_particles_height) i Vec3.zero)
        ∧ q.pos = p.pos ∧ q.old_pos = p.old_pos ∧ q.movable = p.movable)
      ∧ ∀ a b c, Flag.windForce Real.sqrt (f.run Real.sqrt calls).particles d a b c
          = (Flag.calcTriangleNormal (f.run Real.sqrt calls).particles a b c).mul
              (((Flag.calcTriangleNormal (f.run Real.sqrt calls).particles a b c).normalized
                Real.sqrt).dot d) := by
  have hmass : ∀ r ∈ (f.run Real.sqrt calls).particles, r.mass = 1 := by
    intro r hr
    obtain ⟨k, hk⟩ := List.mem_iff_getElem?.mp hr
    obtain ⟨r0, hr0, hm⟩ := get_of_map_same (Flag.run_mass Real.sqrt calls f).symm hk
    rw [← hm]
    exact Flag.new_particles_mass hf r0 (List.mem_iff_getElem?.mpr ⟨k, hr0⟩)
  exact Flag.addwindForce_unit_mass (f.run Real.sqrt calls) d hmass i p hp

theorem twoSquare_nonDegenerate : ((twoSquare Real.sqrt).run Real.sqrt []).NonDegenerate := by
  show (twoSquare Real.sqrt).NonDegenerate
  intro x y hx hy
  have hx0 : x = 0 := by
    have : x < 2 - 1 := hx
    omega
  have hy0 : y = 0 := by
    have : y < 2 - 1 := hy
    omega
  subst hx0 hy0
  have hw : (twoSquare Real.sqrt).num_particles_width = 2 := rfl
  rw [hw, twoSquare_particles]
  simp only [getParticle, Nat.zero_mul, Nat.zero_add, Nat.one_mul, Nat.add_zero,
    Nat.reduceAdd, Nat.reduceMul, Flag.calcTriangleNormal, deref_cons_zero, deref_cons_succ,
    Particle.new, Particle.makeUnmovable, Flag.restPos, Vec3.sub, Vec3.cross, Vec3.zero, ne_eq,
    Vec3.mk.injEq]
  norm_num

/-- Witness for C13: particle (1,0) of the flag built by `Flag(2,2,2,2)` under the wind
(1,0,1). -/
theorem Flag.addwindForce_sum_witness :
    Flag.new Real.sqrt (2 : ℝ) 2 2 2 = some (twoSquare Real.sqrt)
      ∧ ((twoSquare Real.sqrt).run Real.sqrt []).NonDegenerate
      ∧ ((twoSquare Real.sqrt).run Real.sqrt []).particles[1]?
          = some (Particle.new (Flag.restPos 2 2 2 2 1 0) (1 / 10000))
      ∧ ∃ q, (((twoSquare Real.sqrt).run Real.sqrt []).addwindForce Real.sqrt
                ⟨1, 0, 1⟩).particles[1]? = some q
          ∧ q.acceleration
              = (Particle.new (Flag.restPos (2 : ℝ) 2 2 2 1 0) (1 / 10000)).acceleration.add
                  (windSum Real.sqrt ((twoSquare Real.sqrt).run Real.sqrt []).particles
                    ⟨1, 0, 1⟩ (windTriangles 2 2) 1 Vec3.zero) :=
  ⟨rfl, twoSquare_nonDegenerate, rfl,
    match (Flag.addwindForce_sum 2 2 2 2 (twoSquare Real.sqrt) rfl [] ⟨1, 0, 1⟩
        twoSquare_nonDegenerate 1 (Particle.new (Flag.restPos 2 2 2 2 1 0) (1 / 10000))
        rfl).1 with
    | ⟨q, h1, h2, _, _, _⟩ => ⟨q, h1, h2⟩⟩

/-! ## Wind on the flat grid -/

theorem Flag.new_pos {K : Type} [Field K] {sqrt : K → K} {width height : K} {w h : Nat}
    {f : Flag K} (hf : Flag.new sqrt width height w h = some f) {x y : Nat} (hx : x < w)
    (hy : y < h) :
    (deref f.particles (getParticle w x y)).pos = Flag.restPos width height w h x y := by
  obtain ⟨-, -, -, -, -, hpin⟩ := Flag.new_eq_some hf
  rw [(pinLoop_fields hpin _).1, Flag.deref_placeParticles width height hx hy]

theorem sqrt_axis (z : ℝ) : Real.sqrt (0 * 0 + 0 * 0 + z * z) = |z| := by
  rw [mul_zero, zero_add, zero_add, Real.sqrt_mul_self_eq_abs]

theorem Flag.windForce_axis (ps : List (Particle ℝ)) (d : Vec3 ℝ) (a b c : Nat) (z : ℝ)
    (hz : z ≠ 0) (hn : Flag.calcTriangleNormal ps a b c = ⟨0, 0, z⟩) :
    Flag.windForce Real.sqrt ps d a b c = ⟨0, 0, |z| * d.f2⟩ := by
  have habs : |z| ≠ 0 := abs_ne_zero.mpr hz
  have hsq : z * z = |z| * |z| := (abs_mul_abs_self z).symm
  simp only [Flag.windForce, hn, Vec3.normalized, Vec3.length, Vec3.dot, Vec3.mul, sqrt_axis,
    Vec3.mk.injEq]
  refine ⟨by simp, by simp, ?_⟩
  field_simp
  calc z * (z * d.f2) = z * z * d.f2 := by ring
    _ = |z| * |z| * d.f2 := by rw [hsq]
    _ = |z| * d.f2 * |z| := by ring

theorem Flag.windCell_eq {K : Type} [Field K] (sqrt : K → K) (w : Nat) (d : Vec3 K)
    (ps : List (Particle K)) (xy : Nat × Nat) :
    Flag.windCell sqrt w d ps xy
      = update (update (update (update (update (update ps
          (getParticle w xy.1 xy.2)
            (fun p => p.addForce (Flag.windForce sqrt ps d (getParticle w (xy.1 + 1) xy.2)
              (getParticle w xy.1 xy.2) (getParticle w xy.1 (xy.2 + 1)))))
          (getParticle w (xy.1 + 1) xy.2)
            (fun p => p.addForce (Flag.windForce sqrt ps d (getParticle w (xy.1 + 1) xy.2)
              (getParticle w xy.1 xy.2) (getParticle w xy.1 (xy.2 + 1)))))
          (getParticle w xy.1 (xy.2 + 1))
            (fun p => p.addForce (Flag.windForce sqrt ps d (getParticle w (xy.1 + 1) xy.2)
              (getParticle w xy.1 xy.2) (getParticle w xy.1 (xy.2 + 1)))))
          (getParticle w (xy.1 + 1) xy.2)
            (fun p => p.addForce (Flag.windForce sqrt ps d
              (getParticle w (xy.1 + 1) (xy.2 + 1)) (getParticle w (xy.1 + 1) xy.2)
              (getParticle w xy.1 (xy.2 + 1)))))
          (getParticle w xy.1 (xy.2 + 1))
            (fun p => p.addForce (Flag.windForce sqrt ps d
              (getParticle w (xy.1 + 1) (xy.2 + 1)) (getParticle w (xy.1 + 1) xy.2)
              (getParticle w xy.1 (xy.2 + 1)))))
          (getParticle w (xy.1 + 1) (xy.2 + 1))
            (fun p => p.addForce (Flag.windForce sqrt ps d
              (getParticle w (xy.1 + 1) (xy.2 + 1)) (getParticle w (xy.1 + 1) xy.2)
              (getParticle w xy.1 (xy.2 + 1)))) := by
  simp only [Flag.windCell, Flag.calcTriangleNormal_update, Flag.windForce]

theorem Particle.addForce_zero {K : Type} [Field K] (p : Particle K) :
    p.addForce ⟨0, 0, 0⟩ = p := by
  cases p
  simp [Particle.addForce, Vec3.add, Vec3.div]

theorem foldl_fixed_of_mem {α β : Type} (step : α → β → α) (a : α) (l : List β)
    (hfix : ∀ b ∈ l, step a b = a) : l.foldl step a = a := by
  induction l with
  | nil => rfl
  | cons b l ih =>
    rw [List.foldl_cons, hfix b (List.mem_cons_self b l)]
    exact ih (fun c hc => hfix c (List.mem_cons_of_mem b hc))

/-- The four triangle normals of a cell of the freshly constructed grid: the two that
`addwindForce` computes and the same triangles with two vertices exchanged. -/
theorem Flag.new_cell_normals (width height : ℝ) {w h : Nat} {f : Flag ℝ}
    (hf : Flag.new Real.sqrt width height w h = some f) {x y : Nat} (hx : x < w - 1)
    (hy : y < h - 1) :
    Flag.calcTriangleNormal f.particles (getParticle w (x + 1) y) (getParticle w x y)
          (getParticle w x (y + 1)) = ⟨0, 0, -((width / w) * (height / h))⟩
      ∧ Flag.calcTriangleNormal f.particles (getParticle w (x + 1) (y + 1))
          (getParticle w (x + 1) y) (getParticle w x (y + 1))
          = ⟨0, 0, -((width / w) * (height / h))⟩
      ∧ Flag.calcTriangleNormal f.particles (getParticle w (x + 1) y)
          (getParticle w x (y + 1)) (getParticle w x y) = ⟨0, 0, (width / w) * (height / h)⟩
      ∧ Flag.calcTriangleNormal f.particles (getParticle w (x + 1) (y + 1))
          (getParticle w x (y + 1)) (getParticle w (x + 1) y)
          = ⟨0, 0, (width / w) * (height / h)⟩ := by
  have hw : (w : ℝ) ≠ 0 := Nat.cast_ne_zero.mpr (by omega)
  have hh : (h : ℝ) ≠ 0 := Nat.cast_ne_zero.mpr (by omega)
  have p00 := Flag.new_pos hf (x := x) (y := y) (by omega) (by omega)
  have p10 := Flag.new_pos hf (x := x + 1) (y := y) (by omega) (by omega)
  have p01 := Flag.new_pos hf (x := x) (y := y + 1) (by omega) (by omega)
  have p11 := Flag.new_pos hf (x := x + 1) (y := y + 1) (by omega) (by omega)
  simp only [Flag.calcTriangleNormal, p00, p10, p01, p11, Flag.restPos, Vec3.sub, Vec3.cross,
    Vec3.mk.injEq, Nat.cast_add, Nat.cast_one]
  refine ⟨⟨?_, ?_, ?_⟩, ⟨?_, ?_, ?_⟩, ⟨?_, ?_, ?_⟩, ⟨?_, ?_, ?_⟩⟩ <;> field_simp <;> ring
theorem windSum_const {K : Type} [Field K] (sqrt : K → K) (ps : List (Particle K))
    (d : Vec3 K) (c : K) (tris : List (Nat × Nat × Nat)) (i : Nat)
    (h : ∀ t ∈ tris, Flag.windForce sqrt ps d t.1 t.2.1 t.2.2 = ⟨0, 0, c⟩) (s : Vec3 K) :
    windSum sqrt ps d tris i s
      = s.add ⟨0, 0,
          (tris.countP (fun t => decide (i = t.1 ∨ i = t.2.1 ∨ i = t.2.2)) : K) * c⟩ := by
  induction tris generalizing s with
  | nil =>
    obtain ⟨s0, s1, s2⟩ := s
    simp [windSum, Vec3.add]
  | cons t tris ih =>
    have ht := h t (List.mem_cons_self _ _)
    have ih2 := fun s => ih (fun u hu => h u (List.mem_cons_of_mem _ hu)) s
    unfold windSum at ih2 ⊢
    rw [List.foldl_cons]
    by_cases hc : i = t.1 ∨ i = t.2.1 ∨ i = t.2.2
    · rw [if_pos hc, ih2, ht, List.countP_cons_of_pos _ _ (by simpa using hc)]
      obtain ⟨s0, s1, s2⟩ := s
      simp only [Vec3.add, Vec3.mk.injEq, Nat.cast_add, Nat.cast_one]
      refine ⟨by ring, by ring, by ring⟩
    · rw [if_neg hc, ih2, List.countP_cons_of_neg _ _ (by simpa using hc)]

theorem Flag.new_wind_triangles (width height : ℝ) {w h : Nat} {f : Flag ℝ}
    (hW : 0 < width) (hH : 0 < height)
    (hf : Flag.new Real.sqrt width height w h = some f) (d : Vec3 ℝ) :
    ∀ t ∈ windTriangles w h, Flag.windForce Real.sqrt f.particles d t.1 t.2.1 t.2.2
      = ⟨0, 0, (width / w) * (height / h) * d.f2⟩ := by
  intro t ht
  unfold windTriangles at ht
  obtain ⟨xy, hxy, htc⟩ := List.mem_flatMap.mp ht
  obtain ⟨hx, hy⟩ := mem_gridLoop.mp hxy
  have hw : (0 : ℝ) < w := Nat.cast_pos.mpr (by omega)
  have hh : (0 : ℝ) < h := Nat.cast_pos.mpr (by omega)
  have hA : 0 < (width / w) * (height / h) := mul_pos (div_pos hW hw) (div_pos hH hh)
  obtain ⟨n1, n2, -, -⟩ := Flag.new_cell_normals width height hf hx hy
  have e1 := Flag.windForce_axis f.particles d _ _ _ _ (neg_ne_zero.mpr hA.ne') n1
  have e2 := Flag.windForce_axis f.particles d _ _ _ _ (neg_ne_zero.mpr hA.ne') n2
  rw [abs_neg, abs_of_pos hA] at e1 e2
  simp only [cellTriangles, List.mem_cons, List.mem_singleton, List.not_mem_nil,
    or_false] at htc
  rcases htc with rfl | rfl
  · exact e1
  · exact e2

theorem Flag.new_wind_acceleration (width height : ℝ) (w h : Nat) (f : Flag ℝ)
    (hW : 0 < width) (hH : 0 < height)
    (hf : Flag.new Real.sqrt width height w h = some f) (d : Vec3 ℝ) (i : Nat)
    (p : Particle ℝ) (hp : f.particles[i]? = some p) :
    ∃ q, (f.addwindForce Real.sqrt d).particles[i]? = some q
      ∧ q.acceleration
          = ⟨0, 0, (windTrianglesAt w h i : ℝ) * ((width / w) * (height / h) * d.f2)⟩
      ∧ q.pos = p.pos ∧ q.old_pos = p.old_pos ∧ q.movable = p.movable := by
  obtain ⟨-, hfw, hfh, -, -, -⟩ := Flag.new_eq_some hf
  have hmass : ∀ r ∈ f.particles, r.mass = 1 := Flag.new_particles_mass hf
  have hpm : p ∈ f.particles := List.mem_iff_getElem?.mpr ⟨i, hp⟩
  obtain ⟨q, hq, hacc, hpos, hold, hmov⟩ := (Flag.addwindForce_unit_mass f d hmass i p hp).1
  refine ⟨q, hq, ?_, hpos, hold, hmov⟩
  rw [hacc, (Flag.new_particles_at_rest hf p hpm).2, hfw, hfh,
    windSum_const Real.sqrt f.particles d _ _ i
      (Flag.new_wind_triangles width height hW hH hf d), Vec3.zero_add', Vec3.zero_add']
  rfl

/-- C20: on a freshly constructed flat grid with positive width and height the wind force
`addwindForce(d)` computes for each of the two triangles of every cell is
(0, 0, (width/columns)*(height/rows)*d.z), and it is the same when two vertices of the
triangle are exchanged, which reverses its normal; `addwindForce(d)` sets the acceleration
of every particle to that force times the number of triangles the particle is a vertex of,
and keeps its position, previous position and movability; for a wind direction with
d.z = 0 `addwindForce(d)` leaves the whole particle vector, accelerations included, as it
was. -/
theorem Flag.wind_on_flat_grid (width height : ℝ) (w h : Nat) (f : Flag ℝ)
    (hW : 0 < width) (hH : 0 < height)
    (hf : Flag.new Real.sqrt width height w h = some f) (d : Vec3 ℝ) :
    (∀ x y, x < w - 1 → y < h - 1 →
        Flag.windForce Real.sqrt f.particles d (getParticle w (x + 1) y) (getParticle w x y)
            (getParticle w x (y + 1)) = ⟨0, 0, (width / w) * (height / h) * d.f2⟩
          ∧ Flag.windForce Real.sqrt f.particles d (getParticle w (x + 1) (y + 1))
            (getParticle w (x + 1) y) (getParticle w x (y + 1))
              = ⟨0, 0, (width / w) * (height / h) * d.f2⟩
          ∧ Flag.windForce Real.sqrt f.particles d (getParticle w (x + 1) y)
            (getParticle w x (y + 1)) (getParticle w x y)
              = ⟨0, 0, (width / w) * (height / h) * d.f2⟩
          ∧ Flag.windForce Real.sqrt f.particles d (getParticle w (x + 1) (y + 1))
            (getParticle w x (y + 1)) (getParticle w (x + 1) y)
              = ⟨0, 0, (width / w) * (height / h) * d.f2⟩)
      ∧ (∀ (i : Nat) (p : Particle ℝ), f.particles[i]? = some p →
          ∃ q : Particle ℝ, (f.addwindForce Real.sqrt d).particles[i]? = some q
            ∧ q.acceleration
                = ⟨0, 0, (windTrianglesAt w h i : ℝ) * ((width / w) * (height / h) * d.f2)⟩
            ∧ q.pos = p.pos ∧ q.old_pos = p.old_pos ∧ q.movable = p.movable)
      ∧ (d.f2 = 0 → (f.addwindForce Real.sqrt d).particles = f.particles) := by
  have hforce : ∀ x y, x < w - 1 → y < h - 1 →
      Flag.windForce Real.sqrt f.particles d (getParticle w (x + 1) y) (getParticle w x y)
          (getParticle w x (y + 1)) = ⟨0, 0, (width / w) * (height / h) * d.f2⟩
        ∧ Flag.windForce Real.sqrt f.particles d (getParticle w (x + 1) (y + 1))
          (getParticle w (x + 1) y) (getParticle w x (y + 1))
            = ⟨0, 0, (width / w) * (height / h) * d.f2⟩
        ∧ Flag.windForce Real.sqrt f.particles d (getParticle w (x + 1) y)
          (getParticle w x (y + 1)) (getParticle w x y)
            = ⟨0, 0, (width / w) * (height / h) * d.f2⟩
        ∧ Flag.windForce Real.sqrt f.particles d (getParticle w (x + 1) (y + 1))
          (getParticle w x (y + 1)) (getParticle w (x + 1) y)
            = ⟨0, 0, (width / w) * (height / h) * d.f2⟩ := by
    intro x y hx hy
    have hw : (0 : ℝ) < w := Nat.cast_pos.mpr (by omega)
    have hh : (0 : ℝ) < h := Nat.cast_pos.mpr (by omega)
    have hA : 0 < (width / w) * (height / h) := mul_pos (div_pos hW hw) (div_pos hH hh)
    obtain ⟨n1, n2, n3, n4⟩ := Flag.new_cell_normals width height hf hx hy
    have e1 := Flag.windForce_axis f.particles d _ _ _ _ (neg_ne_zero.mpr hA.ne') n1
    have e2 := Flag.windForce_axis f.particles d _ _ _ _ (neg_ne_zero.mpr hA.ne') n2
    have e3 := Flag.windForce_axis f.particles d _ _ _ _ hA.ne' n3
    have e4 := Flag.windForce_axis f.particles d _ _ _ _ hA.ne' n4
    rw [abs_neg, abs_of_pos hA] at e1 e2
    rw [abs_of_pos hA] at e3 e4
    exact ⟨e1, e2, e3, e4⟩
  refine ⟨hforce,
    fun i p hp => Flag.new_wind_acceleration width height w h f hW hH hf d i p hp, ?_⟩
  intro hd
  obtain ⟨-, hfw, hfh, -, -, -⟩ := Flag.new_eq_some hf
  unfold Flag.addwindForce
  simp only [hfw, hfh]
  apply foldl_fixed_of_mem
  intro xy hxy
  obtain ⟨hx, hy⟩ := mem_gridLoop.mp hxy
  obtain ⟨e1, e2, -, -⟩ := hforce xy.1 xy.2 hx hy
  rw [Flag.windCell_eq, e1, e2, hd, mul_zero]
  simp only [update_self _ _ _ Particle.addForce_zero]

/-- Witness for C20: the flag built by `Flag(2,2,2,2)`. Under the wind (3,4,5) particle
(1,0), a vertex of both triangles, gets the force (0,0,5) twice; the wind (1,0,0) lies in
the plane of the cloth. -/
theorem Flag.wind_on_flat_grid_witness :
    (0 : ℝ) < 2 ∧ Flag.new Real.sqrt (2 : ℝ) 2 2 2 = some (twoSquare Real.sqrt)
      ∧ (Flag.windForce Real.sqrt (twoSquare Real.sqrt).particles ⟨3, 4, 5⟩
            (getParticle 2 (0 + 1) 0) (getParticle 2 0 0) (getParticle 2 0 (0 + 1))
          = ⟨0, 0, ((2 : ℝ) / (2 : ℕ)) * ((2 : ℝ) / (2 : ℕ)) * 5⟩)
      ∧ windTrianglesAt 2 2 1 = 2
      ∧ (∃ q, ((twoSquare Real.sqrt).addwindForce Real.sqrt ⟨3, 4, 5⟩).particles[1]? = some q
          ∧ q.acceleration
              = ⟨0, 0, (windTrianglesAt 2 2 1 : ℝ)
                  * (((2 : ℝ) / (2 : ℕ)) * ((2 : ℝ) / (2 : ℕ)) * 5)⟩)
      ∧ ((twoSquare Real.sqrt).addwindForce Real.sqrt ⟨1, 0, 0⟩).particles
          = (twoSquare Real.sqrt).particles :=
  ⟨two_pos, rfl,
    ((Flag.wind_on_flat_grid 2 2 2 2 (twoSquare Real.sqrt) two_pos two_pos rfl ⟨3, 4, 5⟩).1
      0 0 (by decide) (by decide)).1,
    by decide,
    match (Flag.wind_on_flat_grid 2 2 2 2 (twoSquare Real.sqrt) two_pos two_pos rfl
        ⟨3, 4, 5⟩).2.1 1 (Particle.new (Flag.restPos 2 2 2 2 1 0) (1 / 10000)) rfl with
    | ⟨q, h1, h2, _, _, _⟩ => ⟨q, h1, h2⟩,
    (Flag.wind_on_flat_grid 2 2 2 2 (twoSquare Real.sqrt) two_pos two_pos rfl
      ⟨1, 0, 0⟩).2.2 rfl⟩

/-! ## Zero divisors -/

theorem Vec3.length_eq_zero_iff (v : Vec3 ℝ) : v.length Real.sqrt = 0 ↔ v = Vec3.zero := by
  obtain ⟨a, b, c⟩ := v
  unfold Vec3.length
  have ha := mul_self_nonneg a
  have hb := mul_self_nonneg b
  have hc := mul_self_nonneg c
  rw [Real.sqrt_eq_zero (by linarith)]
  simp only [Vec3.zero, Vec3.mk.injEq]
  constructor
  · intro h
    exact ⟨mul_self_eq_zero.mp (by linarith), mul_self_eq_zero.mp (by linarith),
      mul_self_eq_zero.mp (by linarith)⟩
  · rintro ⟨rfl, rfl, rfl⟩
    simp

theorem Vec3.sub_eq_zero_iff (a b : Vec3 ℝ) : a.sub b = Vec3.zero ↔ a = b := by
  obtain ⟨a0, a1, a2⟩ := a
  obtain ⟨b0, b1, b2⟩ := b
  simp only [Vec3.sub, Vec3.zero, Vec3.mk.injEq, sub_eq_zero]

/-- C15 (counterexample): for two particles at the same point the current distance is
zero and `satisfyConstraint` divides the rest distance by it; `normalized` of the zero
vector divides by its zero length. Neither division is guarded, so none of the two has a
result. -/
theorem Constraint.zero_divisor_unguarded :
    ((deref (coincidentPair ℝ) (unitConstraint ℝ).p2).pos.sub
        (deref (coincidentPair ℝ) (unitConstraint ℝ).p1).pos).length Real.sqrt = 0
      ∧ (unitConstraint ℝ).satisfyConstraintChecked Real.sqrt (coincidentPair ℝ) = none
      ∧ (unitConstraint ℝ).satisfyConstraintChecked Real.sqrt (coincidentPair ℝ)
          ≠ some (coincidentPair ℝ)
      ∧ (Vec3.zero : Vec3 ℝ).length Real.sqrt = 0
      ∧ (Vec3.zero : Vec3 ℝ).normalizedChecked Real.sqrt = none
      ∧ (Vec3.zero : Vec3 ℝ).normalizedChecked Real.sqrt ≠ some Vec3.zero := by
  have hd : ((deref (coincidentPair ℝ) (unitConstraint ℝ).p2).pos.sub
      (deref (coincidentPair ℝ) (unitConstraint ℝ).p1).pos).length Real.sqrt = 0 := by
    rw [Vec3.length_eq_zero_iff, Vec3.sub_eq_zero_iff]
    rfl
  have hc : (unitConstraint ℝ).satisfyConstraintChecked Real.sqrt (coincidentPair ℝ)
      = none := by
    unfold Constraint.satisfyConstraintChecked
    simp only [hd, if_true]
  have hl : (Vec3.zero : Vec3 ℝ).length Real.sqrt = 0 :=
    (Vec3.length_eq_zero_iff _).mpr rfl
  have hn : (Vec3.zero : Vec3 ℝ).normalizedChecked Real.sqrt = none := by
    unfold Vec3.normalizedChecked
    simp only [hl, if_true]
  refine ⟨hd, hc, ?_, hl, hn, ?_⟩
  · rw [hc]; simp
  · rw [hn]; simp

/-- C15 (amended): the divisions are not guarded. `satisfyConstraint` divides by
`current_distance`, which is zero exactly when the two endpoints are at the same
position; `normalized` divides by `length()`, which is zero exactly for the zero vector.
In these cases the operation has no result; in all other cases no divisor is zero and
the result is the one of exact arithmetic. -/
theorem Constraint.zero_divisor_iff (c : Constraint ℝ) (ps : List (Particle ℝ))
    (v : Vec3 ℝ) :
    (c.satisfyConstraintChecked Real.sqrt ps = none
        ↔ (deref ps c.p2).pos = (deref ps c.p1).pos)
      ∧ ((deref ps c.p2).pos ≠ (deref ps c.p1).pos →
          c.satisfyConstraintChecked Real.sqrt ps = some (c.satisfyConstraint Real.sqrt ps))
      ∧ (v.normalizedChecked Real.sqrt = none ↔ v = Vec3.zero)
      ∧ (v ≠ Vec3.zero → v.normalizedChecked Real.sqrt = some (v.normalized Real.sqrt)) := by
  have hlen : ((deref ps c.p2).pos.sub (deref ps c.p1).pos).length Real.sqrt = 0
      ↔ (deref ps c.p2).pos = (deref ps c.p1).pos := by
    rw [Vec3.length_eq_zero_iff, Vec3.sub_eq_zero_iff]
  refine ⟨?_, ?_, ?_, ?_⟩
  · unfold Constraint.satisfyConstraintChecked
    simp only
    rw [← hlen]
    split <;> simp_all
  · intro hne
    have hl := mt hlen.mp hne
    unfold Constraint.satisfyConstraintChecked Constraint.satisfyConstraint
    simp only [hl, if_false]
  · unfold Vec3.normalizedChecked
    simp only
    rw [← Vec3.length_eq_zero_iff]
    split <;> simp_all
  · intro hne
    have hl := mt (Vec3.length_eq_zero_iff v).mp hne
    unfold Vec3.normalizedChecked Vec3.normalized
    simp only [hl, if_false]

/-- Witness for C15: the stretched pair, whose endpoints are at different positions. -/
theorem Constraint.zero_divisor_iff_witness :
    (deref (stretchedPair ℝ) (unitConstraint ℝ).p2).pos
        ≠ (deref (stretchedPair ℝ) (unitConstraint ℝ).p1).pos
      ∧ (unitConstraint ℝ).satisfyConstraintChecked Real.sqrt (stretchedPair ℝ)
          = some ((unitConstraint ℝ).satisfyConstraint Real.sqrt (stretchedPair ℝ)) :=
  ⟨by
      show (⟨2, 0, 0⟩ : Vec3 ℝ) ≠ ⟨0, 0, 0⟩
      simp,
    (Constraint.zero_divisor_iff (unitConstraint ℝ) (stretchedPair ℝ) Vec3.zero).2.1 (by
      show (⟨2, 0, 0⟩ : Vec3 ℝ) ≠ ⟨0, 0, 0⟩
      simp)⟩

/-! ## Relaxing an isolated constraint twice -/

theorem Constraint.checked_of_ne_zero {K : Type} [Field K] [DecidableEq K] (sqrt : K → K)
    (c : Constraint K) (ps : List (Particle K))
    (h : ((deref ps c.p2).pos.sub (deref ps c.p1).pos).length sqrt ≠ 0) :
    c.satisfyConstraintChecked sqrt ps = some (c.satisfyConstraint sqrt ps) := by
  unfold Constraint.satisfyConstraintChecked Constraint.satisfyConstraint
  simp only [h, if_false]

theorem Constraint.checked_of_eq_zero {K : Type} [Field K] [DecidableEq K] (sqrt : K → K)
    (c : Constraint K) (ps : List (Particle K))
    (h : ((deref ps c.p2).pos.sub (deref ps c.p1).pos).length sqrt = 0) :
    c.satisfyConstraintChecked sqrt ps = none := by
  unfold Constraint.satisfyConstraintChecked
  simp only [h, if_true]

theorem Constraint.relax_zero_rest :
    (zeroConstraint ℝ).satisfyConstraint Real.sqrt (stretchedPair ℝ)
      = [{ Particle.new (⟨0, 0, 0⟩ : Vec3 ℝ) (1 / 10000) with pos := ⟨1, 0, 0⟩ },
         { Particle.new (⟨2, 0, 0⟩ : Vec3 ℝ) (1 / 10000) with pos := ⟨1, 0, 0⟩ }] := by
  simp only [Constraint.satisfyConstraint, zeroConstraint, stretchedPair, deref_cons_zero,
    deref_cons_succ, Particle.new, Vec3.sub, Vec3.length, sqrt_four_sq, update_cons_zero,
    update_cons_succ, Particle.offsetPos, if_true, Vec3.mul, Vec3.neg, Vec3.add]
  norm_num

/-- C18 (counterexample): a constraint of rest distance 0 between two movable particles at
(0,0,0) and (2,0,0). The first `satisfyConstraint` call moves both to (1,0,0), which is
rest distance 0 apart; the second call then divides the rest distance by a current
distance of zero and has no result, so it does not leave the positions as they are. -/
theorem Constraint.second_relax_divides_by_zero :
    (stretchedPair ℝ).map (fun p => p.movable) = [true, true]
      ∧ ((deref (stretchedPair ℝ) (zeroConstraint ℝ).p2).pos.sub
        (deref (stretchedPair ℝ) (zeroConstraint ℝ).p1).pos).length Real.sqrt = 2
      ∧ (zeroConstraint ℝ).satisfyConstraintChecked Real.sqrt (stretchedPair ℝ)
          = some ((zeroConstraint ℝ).satisfyConstraint Real.sqrt (stretchedPair ℝ))
      ∧ ((zeroConstraint ℝ).satisfyConstraint Real.sqrt (stretchedPair ℝ)).map
            (fun p => p.pos) = [⟨1, 0, 0⟩, ⟨1, 0, 0⟩]
      ∧ (zeroConstraint ℝ).satisfyConstraintChecked Real.sqrt
          ((zeroConstraint ℝ).satisfyConstraint Real.sqrt (stretchedPair ℝ)) = none := by
  have hd : ((deref (stretchedPair ℝ) (zeroConstraint ℝ).p2).pos.sub
      (deref (stretchedPair ℝ) (zeroConstraint ℝ).p1).pos).length Real.sqrt = 2 := by
    have := stretchedPair_dist
    simpa using this
  refine ⟨rfl, hd, ?_, ?_, ?_⟩
  · apply Constraint.checked_of_ne_zero
    rw [hd]
    norm_num
  · rw [Constraint.relax_zero_rest]
    rfl
  · apply Constraint.checked_of_eq_zero
    rw [Constraint.relax_zero_rest, Vec3.length_eq_zero_iff, Vec3.sub_eq_zero_iff]
    rfl
/-- C18 (amended): for a constraint with positive rest distance whose two endpoints are
both movable and at non-zero distance, one `satisfyConstraint` call moves the endpoints
by equal and opposite offsets, so p1 + p2 is unchanged, and leaves them exactly
`rest_distance` apart; a second call right after it changes nothing, and neither call
divides by zero. -/
theorem Constraint.satisfyConstraint_idempotent (ps : List (Particle ℝ)) (c : Constraint ℝ)
    (a b : Particle ℝ) (hr : 0 < c.rest_distance)
    (ha : ps[c.p1]? = some a) (hb : ps[c.p2]? = some b)
    (hma : a.movable = true) (hmb : b.movable = true)
    (hdist : (b.pos.sub a.pos).length Real.sqrt ≠ 0) :
    ∃ a' b', (c.satisfyConstraint Real.sqrt ps)[c.p1]? = some a'
      ∧ (c.satisfyConstraint Real.sqrt ps)[c.p2]? = some b'
      ∧ a'.pos.sub a.pos = (b'.pos.sub b.pos).neg
      ∧ a'.pos.add b'.pos = a.pos.add b.pos
      ∧ (b'.pos.sub a'.pos).length Real.sqrt = c.rest_distance
      ∧ c.satisfyConstraint Real.sqrt (c.satisfyConstraint Real.sqrt ps)
          = c.satisfyConstraint Real.sqrt ps
      ∧ c.satisfyConstraintChecked Real.sqrt ps = some (c.satisfyConstraint Real.sqrt ps)
      ∧ c.satisfyConstraintChecked Real.sqrt (c.satisfyConstraint Real.sqrt ps)
          = some (c.satisfyConstraint Real.sqrt ps) := by
  have hne : c.p1 ≠ c.p2 := by
    intro e
    rw [e] at ha
    rw [ha] at hb
    cases hb
    apply hdist
    simp [Vec3.length, Vec3.sub]
  obtain ⟨h1, h2⟩ := Constraint.satisfyConstraint_get Real.sqrt c ps a b ha hb hne
  have hda : deref ps c.p1 = a := deref_of_get ha
  have hdb : deref ps c.p2 = b := deref_of_get hb
  have hrest : (((b.offsetPos (((b.pos.sub a.pos).mul
        (1 - c.rest_distance / (b.pos.sub a.pos).length Real.sqrt)).mul (1 / 2)).neg).pos.sub
      (a.offsetPos (((b.pos.sub a.pos).mul
        (1 - c.rest_distance / (b.pos.sub a.pos).length Real.sqrt)).mul (1 / 2))).pos).length
        Real.sqrt) = c.rest_distance := by
    obtain ⟨am, amass, aold, aacc, anorm, ⟨a0, a1, a2⟩⟩ := a
    obtain ⟨bm, bmass, bold, bacc, bnorm, ⟨b0, b1, b2⟩⟩ := b
    simp only at hma hmb
    subst hma hmb
    have hS0 : 0 ≤ (b0 - a0) * (b0 - a0) + (b1 - a1) * (b1 - a1) + (b2 - a2) * (b2 - a2) := by
      have e0 := mul_self_nonneg (b0 - a0)
      have e1 := mul_self_nonneg (b1 - a1)
      have e2 := mul_self_nonneg (b2 - a2)
      linarith
    have hLL := Real.mul_self_sqrt hS0
    simp only [Vec3.length, Vec3.sub] at hdist
    simp only [Particle.offsetPos, if_true, Vec3.add, Vec3.sub, Vec3.mul, Vec3.neg,
      Vec3.length]
    generalize Real.sqrt ((b0 - a0) * (b0 - a0) + (b1 - a1) * (b1 - a1)
      + (b2 - a2) * (b2 - a2)) = L at hdist hLL
    rw [Real.sqrt_eq_iff_mul_self_eq_of_pos hr]
    have hexp : (b0 + -((b0 - a0) * (1 - c.rest_distance / L) * (1 / 2))
          - (a0 + (b0 - a0) * (1 - c.rest_distance / L) * (1 / 2)))
            * (b0 + -((b0 - a0) * (1 - c.rest_distance / L) * (1 / 2))
          - (a0 + (b0 - a0) * (1 - c.rest_distance / L) * (1 / 2)))
        + (b1 + -((b1 - a1) * (1 - c.rest_distance / L) * (1 / 2))
          - (a1 + (b1 - a1) * (1 - c.rest_distance / L) * (1 / 2)))
            * (b1 + -((b1 - a1) * (1 - c.rest_distance / L) * (1 / 2))
          - (a1 + (b1 - a1) * (1 - c.rest_distance / L) * (1 / 2)))
        + (b2 + -((b2 - a2) * (1 - c.rest_distance / L) * (1 / 2))
          - (a2 + (b2 - a2) * (1 - c.rest_distance / L) * (1 / 2)))
            * (b2 + -((b2 - a2) * (1 - c.rest_distance / L) * (1 / 2))
          - (a2 + (b2 - a2) * (1 - c.rest_distance / L) * (1 / 2)))
        = ((b0 - a0) * (b0 - a0) + (b1 - a1) * (b1 - a1) + (b2 - a2) * (b2 - a2))
            * (c.rest_distance / L) * (c.rest_distance / L) := by
      ring
    rw [hexp, ← hLL]
    field_simp
    ring
  have hd1 : deref (c.satisfyConstraint Real.sqrt ps) c.p1 = _ := deref_of_get h1
  have hd2 : deref (c.satisfyConstraint Real.sqrt ps) c.p2 = _ := deref_of_get h2
  have hcur : ((deref (c.satisfyConstraint Real.sqrt ps) c.p2).pos.sub
      (deref (c.satisfyConstraint Real.sqrt ps) c.p1).pos).length Real.sqrt
        = c.rest_distance := by
    rw [hd1, hd2]
    exact hrest
  have hidem : c.satisfyConstraint Real.sqrt (c.satisfyConstraint Real.sqrt ps)
      = c.satisfyConstraint Real.sqrt ps :=
    Constraint.satisfyConstraint_at_rest Real.sqrt c _ hcur.symm hr.ne'
  refine ⟨_, _, h1, h2, ?_, ?_, hrest, hidem, ?_, ?_⟩
  · obtain ⟨am, amass, aold, aacc, anorm, ⟨a0, a1, a2⟩⟩ := a
    obtain ⟨bm, bmass, bold, bacc, bnorm, ⟨b0, b1, b2⟩⟩ := b
    simp only at hma hmb
    subst hma hmb
    simp only [Particle.offsetPos, if_true, Vec3.add, Vec3.sub, Vec3.mul, Vec3.neg,
      Vec3.mk.injEq]
    refine ⟨?_, ?_, ?_⟩ <;> ring
  · obtain ⟨am, amass, aold, aacc, anorm, ⟨a0, a1, a2⟩⟩ := a
    obtain ⟨bm, bmass, bold, bacc, bnorm, ⟨b0, b1, b2⟩⟩ := b
    simp only at hma hmb
    subst hma hmb
    simp only [Particle.offsetPos, if_true, Vec3.add, Vec3.sub, Vec3.mul, Vec3.neg,
      Vec3.mk.injEq]
    refine ⟨?_, ?_, ?_⟩ <;> ring
  · apply Constraint.checked_of_ne_zero
    rw [hda, hdb]
    exact hdist
  · have hc := Constraint.checked_of_ne_zero Real.sqrt c (c.satisfyConstraint Real.sqrt ps)
      (by rw [hcur]; exact hr.ne')
    rw [hidem] at hc
    exact hc

theorem Constraint.satisfyConstraint_idempotent_witness :
    (0 : ℝ) < (unitConstraint ℝ).rest_distance
      ∧ (stretchedPair ℝ).map (fun p => p.movable) = [true, true]
      ∧ ((Particle.new (⟨2, 0, 0⟩ : Vec3 ℝ) (1 / 10000)).pos.sub
          (Particle.new (⟨0, 0, 0⟩ : Vec3 ℝ) (1 / 10000)).pos).length Real.sqrt ≠ 0
      ∧ ∃ a' b', ((unitConstraint ℝ).satisfyConstraint Real.sqrt (stretchedPair ℝ))[0]?
            = some a'
        ∧ ((unitConstraint ℝ).satisfyConstraint Real.sqrt (stretchedPair ℝ))[1]? = some b'
        ∧ a'.pos.sub (Particle.new (⟨0, 0, 0⟩ : Vec3 ℝ) (1 / 10000)).pos
            = (b'.pos.sub (Particle.new (⟨2, 0, 0⟩ : Vec3 ℝ) (1 / 10000)).pos).neg
        ∧ a'.pos.add b'.pos = (Particle.new (⟨0, 0, 0⟩ : Vec3 ℝ) (1 / 10000)).pos.add
            (Particle.new (⟨2, 0, 0⟩ : Vec3 ℝ) (1 / 10000)).pos
        ∧ (b'.pos.sub a'.pos).length Real.sqrt = (unitConstraint ℝ).rest_distance
        ∧ (unitConstraint ℝ).satisfyConstraint Real.sqrt
              ((unitConstraint ℝ).satisfyConstraint Real.sqrt (stretchedPair ℝ))
            = (unitConstraint ℝ).satisfyConstraint Real.sqrt (stretchedPair ℝ)
        ∧ (unitConstraint ℝ).satisfyConstraintChecked Real.sqrt (stretchedPair ℝ)
            = some ((unitConstraint ℝ).satisfyConstraint Real.sqrt (stretchedPair ℝ))
        ∧ (unitConstraint ℝ).satisfyConstraintChecked Real.sqrt
              ((unitConstraint ℝ).satisfyConstraint Real.sqrt (stretchedPair ℝ))
            = some ((unitConstraint ℝ).satisfyConstraint Real.sqrt (stretchedPair ℝ)) := by
  have hr : (0 : ℝ) < (unitConstraint ℝ).rest_distance := by
    show (0 : ℝ) < 1
    norm_num
  have hd : ((Particle.new (⟨2, 0, 0⟩ : Vec3 ℝ) (1 / 10000)).pos.sub
      (Particle.new (⟨0, 0, 0⟩ : Vec3 ℝ) (1 / 10000)).pos).length Real.sqrt ≠ 0 := by
    have h := stretchedPair_dist
    simp only [stretchedPair, deref_cons_zero, deref_cons_succ] at h
    rw [h]
    norm_num
  exact ⟨hr, rfl, hd, Constraint.satisfyConstraint_idempotent (stretchedPair ℝ)
    (unitConstraint ℝ) (Particle.new ⟨0, 0, 0⟩ (1 / 10000)) (Particle.new ⟨2, 0, 0⟩ (1 / 10000))
    hr rfl rfl rfl rfl hd⟩

end FlagSim
